import Mathlib

/-!
# KVSRadixTree: the buffer-copy key-value layer over the radix tree

A shallow embedding of `src/kvs_radix_tree.cc` and `include/radixtree/status.h`.
The member functions of `KVSRadixTree` (`Put`, `Get`, `Del`, `FindOrCreate`,
`Scan`, `GetNext` and the cached-pointer overloads of `Put` and `Get`) and the
`Status` class are translated statement by statement.  The classes they call
(`RadixTree` with its iterator, `TagGptr`, the nvmm heap and memory manager) and
the `TransactionManager` are defined in other files; they are modelled from the
specification, and every such definition says so in its doc comment.

Conventions: a `(char const*, size_t)` pair is a list of bytes whose length is
the `size_t`; a null global pointer is the address `0`; the `int` results are
`Int`; the FAM barriers (`fam_persist`, `fam_invalidate`) do not change any
value and are left out; an operation scope (`Eop`) has no effect in a
single-threaded run.  The overloads of `Put` and `Get` have one name each:
`PutCached` and `GetCached` take the key and return the cached pointers,
`PutPtr` and `GetPtr` take the key-node pointer.
-/

namespace radixtree

/-- Byte strings: keys, values and caller buffers. -/
abbrev Bytes := List Nat

/-- Modelled from the spec: a global pointer is an opaque address, `0` is null. -/
abbrev Gptr := Nat

/-- Modelled from the spec: `Gptr::IsValid`, true iff the address is not null. -/
abbrev Gptr.IsValid (g : Gptr) : Prop := g ≠ 0

/-- Modelled from the spec: the smallest tag width the spec permits (16 bits). -/
def kTagBits : Nat := 16

/-- Modelled from the spec: `TagGptr`, a global address with a generation tag. -/
structure TagGptr where
  gptr : Gptr
  tag : Nat
deriving DecidableEq, Repr

/-- Modelled from the spec: the default `TagGptr` is the null address with tag 0. -/
def TagGptr.null : TagGptr := { gptr := 0, tag := 0 }

/-- Modelled from the spec: `TagGptr::IsValid`, true iff the address is not null. -/
abbrev TagGptr.IsValid (t : TagGptr) : Prop := t.gptr ≠ 0

/-- Modelled from the spec: the tag after one more store to a slot (it wraps). -/
def nextTag (tag : Nat) : Nat := (tag + 1) % 2 ^ kTagBits

/-- Modelled from the spec: `ValBuf = { size, bytes[size] }`, a value block. -/
structure ValBuf where
  size : Nat
  val : Bytes
deriving DecidableEq, Repr

/-- Modelled from the spec: `sizeof(ValBuf)`, the 8-byte `size` header. -/
def sizeofValBuf : Nat := 8

/-- Modelled from the spec: the constants `kMaxKeyLen` and `kMaxValLen` declared
in `kvs_radix_tree.h` (the spec's `MAX_KEY_LEN` and `MAX_VAL_LEN`); their values
are kept as parameters. -/
structure Limits where
  kMaxKeyLen : Nat
  kMaxValLen : Nat
deriving DecidableEq, Repr

/-! ## The heap -/

/-- Modelled from the spec: the heap facade (nvmm heap and memory manager).
`mem` is the content of the block at each address (what `GlobalToLocal`
resolves to), `next` the lowest address never handed out, `size` the configured
maximum size, `pending` the deferred-free list, most recent first. -/
structure Heap where
  mem : Nat → ValBuf
  next : Nat
  size : Nat
  pending : List Gptr

/-- Modelled from the spec: `Heap::Alloc(op, nbytes)` returns the address of a
freshly owned block of `nbytes` bytes, or the null address on exhaustion.
Nothing is handed out at address `0`, which is the null pointer. -/
def Heap.Alloc (h : Heap) (nbytes : Nat) : Heap × Gptr :=
  if 0 < h.next ∧ h.next + nbytes ≤ h.size then
    ({ h with next := h.next + nbytes }, h.next)
  else
    (h, 0)

/-- Modelled from the spec: `Heap::Free(op, gptr)` is deferred: the block joins
the deferred-free list and its content stays in place. -/
def Heap.Free (h : Heap) (g : Gptr) : Heap :=
  { h with pending := g :: h.pending }

/-- Modelled from the spec: `Mmgr::GlobalToLocal(gptr)` read as a `ValBuf`. -/
def Heap.GlobalToLocal (h : Heap) (g : Gptr) : ValBuf := h.mem g

/-- The stores `val_ptr->size = ..; memcpy(val_ptr->val, ..)` through the local
address of block `g`. -/
def Heap.store (h : Heap) (g : Gptr) (vb : ValBuf) : Heap :=
  { h with mem := fun a => if a = g then vb else h.mem a }

/-- Modelled from the spec: `fam_memcpy(dst, src, n)` overwrites the first `n`
bytes of `dst` with the first `n` bytes of `src`. -/
def fam_memcpy (dst src : Bytes) (n : Nat) : Bytes := src.take n ++ dst.drop n

/-! ## The radix tree -/

/-- Modelled from the spec: a key node, the terminal node of one key with its
`value_slot`.  Prefixes and child maps are abstracted away. -/
structure KeyNode where
  key : Bytes
  slot : TagGptr
deriving DecidableEq, Repr

/-- Modelled from the spec: the radix tree as the list of its key nodes in
creation order; the global pointer of the `i`-th key node is `i + 1`. -/
structure RadixTree where
  nodes : List KeyNode
deriving DecidableEq, Repr

/-- Modelled from the spec: the put policies `UPDATE` and `FIND_OR_CREATE`. -/
inductive UpdateFlags where
  | UPDATE
  | FIND_OR_CREATE
deriving DecidableEq, Repr

/-- The first key node spelling `key`. -/
def findNode (key : Bytes) : List KeyNode → Option KeyNode
  | [] => none
  | n :: ns => if n.key = key then some n else findNode key ns

/-- The position, counted from `base`, of the first key node spelling `key`. -/
def findIndex (key : Bytes) (base : Nat) : List KeyNode → Option Nat
  | [] => none
  | n :: ns => if n.key = key then some base else findIndex key (base + 1) ns

/-- A store of `v` into the value slot of the first key node spelling `key`. -/
def setSlot (key : Bytes) (v : TagGptr) : List KeyNode → List KeyNode
  | [] => []
  | n :: ns => if n.key = key then { n with slot := v } :: ns else n :: setSlot key v ns

/-- Modelled from the spec: `RadixTree::get(key)` returns the `value_slot` of
the terminal node of `key`, the null `TagGptr` when there is no such node. -/
def RadixTree.get (t : RadixTree) (key : Bytes) : TagGptr :=
  match findNode key t.nodes with
  | some n => n.slot
  | none => TagGptr.null

/-- Modelled from the spec: `RadixTree::getC(key)` returns the global pointer
of the key node (null when there is none) and the `value_slot`. -/
def RadixTree.getC (t : RadixTree) (key : Bytes) : Gptr × TagGptr :=
  match findIndex key 0 t.nodes with
  | some i => (i + 1, t.get key)
  | none => (0, TagGptr.null)

/-- Modelled from the spec: `RadixTree::put(key, val_gptr, policy)`.  `UPDATE`
always replaces and returns the displaced value (invalid if none);
`FIND_OR_CREATE` leaves a present value intact and returns it, and installs
`val_gptr` otherwise.  Every store increments the tag of the slot. -/
def RadixTree.put (t : RadixTree) (key : Bytes) (val_gptr : Gptr) (policy : UpdateFlags) :
    RadixTree × TagGptr :=
  match findNode key t.nodes with
  | some n =>
    if policy = UpdateFlags.FIND_OR_CREATE ∧ n.slot.IsValid then
      (t, n.slot)
    else
      ({ nodes := setSlot key { gptr := val_gptr, tag := nextTag n.slot.tag } t.nodes }, n.slot)
  | none =>
    ({ nodes := t.nodes ++ [{ key := key, slot := { gptr := val_gptr, tag := nextTag 0 } }] },
      TagGptr.null)

/-- Modelled from the spec: `RadixTree::destroy(key)` clears the `value_slot`
(a store, so the tag is incremented) and returns the unlinked value, or an
invalid `TagGptr` if the key was absent. -/
def RadixTree.destroy (t : RadixTree) (key : Bytes) : RadixTree × TagGptr :=
  match findNode key t.nodes with
  | some n =>
    if n.slot.IsValid then
      ({ nodes := setSlot key { gptr := 0, tag := nextTag n.slot.tag } t.nodes }, n.slot)
    else
      (t, n.slot)
  | none => (t, TagGptr.null)

/-! ## KVSRadixTree -/

/-- The state of a `KVSRadixTree`: its heap (`heap_`) and its tree (`tree_`). -/
structure KVSRadixTree where
  heap : Heap
  tree : RadixTree

/-- What `Put` and `Del` leave behind: the state and the `int` result. -/
structure PutOut where
  state : KVSRadixTree
  ret : Int

/-- What `Get` leaves behind: the state, the `int` result, the caller's value
buffer and the in/out parameter `val_len`. -/
structure GetOut where
  state : KVSRadixTree
  ret : Int
  val : Bytes
  val_len : Nat

/-- What the cached-pointer `Get` leaves behind: as `GetOut`, with the out
parameters `key_ptr` and `val_ptr`. -/
structure GetCOut where
  state : KVSRadixTree
  ret : Int
  val : Bytes
  val_len : Nat
  key_ptr : Gptr
  val_ptr : TagGptr

/-- What `FindOrCreate` leaves behind: the state, the `int` result, the caller's
return buffer and the in/out parameter `ret_len`. -/
structure FindOrCreateOut where
  state : KVSRadixTree
  ret : Int
  ret_val : Bytes
  ret_len : Nat

/-- `KVSRadixTree::Put(key, key_len, val, val_len)`. -/
def KVSRadixTree.Put (L : Limits) (s : KVSRadixTree) (key val : Bytes) : PutOut :=
  if key.length > L.kMaxKeyLen then
    { state := s, ret := -1 }
  else if val.length > L.kMaxValLen then
    { state := s, ret := -1 }
  else
    let a := s.heap.Alloc (val.length + sizeofValBuf)
    let val_gptr := a.2
    if ¬ Gptr.IsValid val_gptr then
      { state := { s with heap := a.1 }, ret := -1 }
    else
      let h := a.1.store val_gptr { size := val.length, val := val }
      let p := s.tree.put key val_gptr UpdateFlags.UPDATE
      let old_value := p.2
      if old_value.IsValid then
        { state := { heap := h.Free old_value.gptr, tree := p.1 }, ret := 0 }
      else
        { state := { heap := h, tree := p.1 }, ret := 0 }

/-- `KVSRadixTree::Get(key, key_len, val, val_len)`; `val` is the caller's buffer
and `val_len` its declared capacity. -/
def KVSRadixTree.Get (L : Limits) (s : KVSRadixTree) (key val : Bytes) (val_len : Nat) :
    GetOut :=
  if key.length > L.kMaxKeyLen then
    { state := s, ret := -1, val := val, val_len := val_len }
  else
    let val_ptr := s.tree.get key
    if ¬ val_ptr.IsValid then
      { state := s, ret := -2, val := val, val_len := val_len }
    else
      let val_p := s.heap.GlobalToLocal val_ptr.gptr
      let val_size := val_p.size
      if val_len < val_size then
        { state := s, ret := -1, val := val, val_len := val_size }
      else
        { state := s, ret := 0, val := fam_memcpy val val_p.val val_size, val_len := val_size }

/-- `KVSRadixTree::Del(key, key_len)`. -/
def KVSRadixTree.Del (L : Limits) (s : KVSRadixTree) (key : Bytes) : PutOut :=
  if key.length > L.kMaxKeyLen then
    { state := s, ret := -1 }
  else
    let d := s.tree.destroy key
    let val_gptr := d.2
    if val_gptr.IsValid then
      { state := { heap := s.heap.Free val_gptr.gptr, tree := d.1 }, ret := 0 }
    else
      { state := { heap := s.heap, tree := d.1 }, ret := -2 }

/-- `KVSRadixTree::Get(key, key_len, val, val_len, key_ptr, val_ptr)`, the
cached-pointer overload; `key_ptr` and `val_ptr` are the caller's variables. -/
def KVSRadixTree.GetCached (L : Limits) (s : KVSRadixTree) (key val : Bytes) (val_len : Nat)
    (key_ptr : Gptr) (val_ptr : TagGptr) : GetCOut :=
  if key.length > L.kMaxKeyLen then
    { state := s, ret := -1, val := val, val_len := val_len, key_ptr := key_ptr,
      val_ptr := val_ptr }
  else
    let kv_ptr := s.tree.getC key
    if ¬ Gptr.IsValid kv_ptr.1 then
      { state := s, ret := 0, val := val, val_len := val_len, key_ptr := kv_ptr.1,
        val_ptr := kv_ptr.2 }
    else if kv_ptr.2.IsValid then
      let val_p := s.heap.GlobalToLocal kv_ptr.2.gptr
      let val_size := val_p.size
      if val_len < val_size then
        { state := s, ret := -1, val := val, val_len := val_size, key_ptr := kv_ptr.1,
          val_ptr := kv_ptr.2 }
      else
        { state := s, ret := 0, val := fam_memcpy val val_p.val val_p.size,
          val_len := val_p.size, key_ptr := kv_ptr.1, val_ptr := kv_ptr.2 }
    else
      { state := s, ret := 0, val := val, val_len := val_len, key_ptr := kv_ptr.1,
        val_ptr := kv_ptr.2 }

/-- `KVSRadixTree::FindOrCreate(key, key_len, val, val_len, ret_val, ret_len)`. -/
def KVSRadixTree.FindOrCreate (L : Limits) (s : KVSRadixTree) (key val ret_val : Bytes)
    (ret_len : Nat) : FindOrCreateOut :=
  if key.length > L.kMaxKeyLen then
    { state := s, ret := -1, ret_val := ret_val, ret_len := ret_len }
  else if val.length > L.kMaxValLen then
    { state := s, ret := -1, ret_val := ret_val, ret_len := ret_len }
  else
    let a := s.heap.Alloc (val.length + sizeofValBuf)
    let val_gptr := a.2
    if ¬ Gptr.IsValid val_gptr then
      { state := { s with heap := a.1 }, ret := -1, ret_val := ret_val, ret_len := ret_len }
    else
      let h := a.1.store val_gptr { size := val.length, val := val }
      let p := s.tree.put key val_gptr UpdateFlags.FIND_OR_CREATE
      let old_value := p.2
      if old_value.IsValid then
        let h1 := h.Free val_gptr
        let val_p := h1.GlobalToLocal old_value.gptr
        let val_size := val_p.size
        if ret_len < val_size then
          { state := { heap := h1, tree := p.1 }, ret := -1, ret_val := ret_val,
            ret_len := val_size }
        else
          { state := { heap := h1, tree := p.1 }, ret := 0,
            ret_val := fam_memcpy ret_val val_p.val val_size, ret_len := val_size }
      else
        { state := { heap := h, tree := p.1 }, ret := 1, ret_val := ret_val, ret_len := ret_len }

/-- `KVSRadixTree::Open()` on a null root and a heap that does not exist yet:
a new heap of `heap_size` bytes with nothing handed out, and an empty tree. -/
def KVSRadixTree.Open (heap_size : Nat) : KVSRadixTree :=
  { heap := { mem := fun _ => { size := 0, val := [] }, next := 1, size := heap_size,
              pending := [] },
    tree := { nodes := [] } }

/-- Key `k` holds the value `w`: the tree has a valid value pointer for `k`, and
the block it points to is the `ValBuf` of `w`. -/
abbrev KVSRadixTree.Holds (s : KVSRadixTree) (k w : Bytes) : Prop :=
  (s.tree.get k).IsValid ∧
    s.heap.GlobalToLocal (s.tree.get k).gptr = { size := w.length, val := w }

/-- The state invariant of the buffer API: every key in the tree is within
`kMaxKeyLen`, every linked value block has been handed out by the heap, and its
`size` field is the number of its payload bytes. -/
abbrev KVSRadixTree.WF (L : Limits) (s : KVSRadixTree) : Prop :=
  ∀ n ∈ s.tree.nodes,
    n.key.length ≤ L.kMaxKeyLen ∧
    (n.slot.IsValid → n.slot.gptr < s.heap.next ∧
      (s.heap.mem n.slot.gptr).size = (s.heap.mem n.slot.gptr).val.length)

/-- A mutating call of the buffer API. -/
inductive Op where
  | Put (key val : Bytes)
  | Del (key : Bytes)
  | FindOrCreate (key val ret_val : Bytes) (ret_len : Nat)
deriving DecidableEq, Repr

/-- The key a call is about. -/
def Op.key : Op → Bytes
  | Op.Put key _ => key
  | Op.Del key => key
  | Op.FindOrCreate key _ _ _ => key

/-- The call can install a value under `k`: it is a `Put` or a `FindOrCreate`
of `k`. -/
def Op.installs (k : Bytes) : Op → Prop
  | Op.Put key _ => key = k
  | Op.Del _ => False
  | Op.FindOrCreate key _ _ _ => key = k

instance Op.decInstalls (k : Bytes) : (op : Op) → Decidable (op.installs k)
  | Op.Put key _ => inferInstanceAs (Decidable (key = k))
  | Op.Del _ => inferInstanceAs (Decidable False)
  | Op.FindOrCreate key _ _ _ => inferInstanceAs (Decidable (key = k))

/-- The state after one call. -/
def KVSRadixTree.step (L : Limits) (s : KVSRadixTree) : Op → KVSRadixTree
  | Op.Put key val => (s.Put L key val).state
  | Op.Del key => (s.Del L key).state
  | Op.FindOrCreate key val ret_val ret_len => (s.FindOrCreate L key val ret_val ret_len).state

/-- The state after a sequence of calls, first call first. -/
def KVSRadixTree.run (L : Limits) (s : KVSRadixTree) (ops : List Op) : KVSRadixTree :=
  ops.foldl (KVSRadixTree.step L) s

/-- The heap after a successful `Put` or an inserting `FindOrCreate` of `v`
that displaced `pend` (nothing when `pend` is `none`). -/
def KVSRadixTree.heapAfter (h : Heap) (v : Bytes) (pend : Option Gptr) : Heap :=
  { mem := fun a => if a = h.next then { size := v.length, val := v } else h.mem a,
    next := h.next + (v.length + sizeofValBuf),
    size := h.size,
    pending := match pend with
      | some g => g :: h.pending
      | none => h.pending }

/-! ## The cached-pointer overloads -/

/-- The key node a key-node pointer refers to: pointer `i + 1` is the `i`-th
key node; the null pointer and pointers past the last node refer to none. -/
def nodeAt (key_ptr : Gptr) : List KeyNode → Option KeyNode
  | [] => none
  | n :: ns => if key_ptr = 0 then none else if key_ptr = 1 then some n else nodeAt (key_ptr - 1) ns

/-- A store of `v` into the value slot of the key node that `key_ptr` refers to. -/
def setSlotAt (key_ptr : Gptr) (v : TagGptr) : List KeyNode → List KeyNode
  | [] => []
  | n :: ns =>
    if key_ptr = 0 then n :: ns
    else if key_ptr = 1 then { n with slot := v } :: ns
    else n :: setSlotAt (key_ptr - 1) v ns

/-- What the `putC` overloads of the tree give back: the tree, the key-node
pointer, the value pointer now in the slot and the displaced `old_value`. -/
structure PutCRes where
  tree : RadixTree
  key_ptr : Gptr
  val_ptr : TagGptr
  old_value : TagGptr

/-- Modelled from the spec: `RadixTree::putC(key, key_len, val_gptr, old_value)`
installs `val_gptr` as `put` with `UPDATE` does and returns the pointer of the
key node with the value pointer now in its slot; `old_value` is the displaced
value. -/
def RadixTree.putC (t : RadixTree) (key : Bytes) (val_gptr : Gptr) : PutCRes :=
  let p := t.put key val_gptr UpdateFlags.UPDATE
  { tree := p.1, key_ptr := (p.1.getC key).1, val_ptr := p.1.get key, old_value := p.2 }

/-- Modelled from the spec: `RadixTree::getC(key_ptr)` fetches the current value
pointer of the key node; a pointer that refers to no key node gives the null
`TagGptr`. -/
def RadixTree.getC_ptr (t : RadixTree) (key_ptr : Gptr) : TagGptr :=
  match nodeAt key_ptr t.nodes with
  | some n => n.slot
  | none => TagGptr.null

/-- Modelled from the spec: `RadixTree::putC(key_ptr, val_gptr, old_value)`
stores `val_gptr` into the slot of the key node (the tag is incremented) and
returns the value pointer now in the slot; `old_value` is the displaced value.
A pointer that refers to no key node leaves the tree as it is. -/
def RadixTree.putC_ptr (t : RadixTree) (key_ptr : Gptr) (val_gptr : Gptr) : PutCRes :=
  match nodeAt key_ptr t.nodes with
  | some n =>
    { tree := { nodes := setSlotAt key_ptr { gptr := val_gptr, tag := nextTag n.slot.tag }
                  t.nodes },
      key_ptr := key_ptr,
      val_ptr := { gptr := val_gptr, tag := nextTag n.slot.tag },
      old_value := n.slot }
  | none => { tree := t, key_ptr := key_ptr, val_ptr := TagGptr.null, old_value := TagGptr.null }

/-- What the cached-pointer `Put` by key leaves behind: the state, the `int`
result and the out parameters `key_ptr` and `val_ptr`. -/
structure PutCOut where
  state : KVSRadixTree
  ret : Int
  key_ptr : Gptr
  val_ptr : TagGptr

/-- What `Put` by key-node pointer leaves behind: the state, the `int` result
and the in/out parameter `val_ptr`. -/
structure PutPOut where
  state : KVSRadixTree
  ret : Int
  val_ptr : TagGptr

/-- What `Get` by key-node pointer leaves behind: the state, the `int` result,
the caller's buffer, and the in/out parameters `val_len` and `val_ptr`. -/
structure GetPOut where
  state : KVSRadixTree
  ret : Int
  val : Bytes
  val_len : Nat
  val_ptr : TagGptr

/-- `KVSRadixTree::Put(key, key_len, val, val_len, key_ptr, val_ptr)`, the
cached-pointer overload by key.  The `assert(kv_ptr.first.IsValid())` always
holds in the model and is left out. -/
def KVSRadixTree.PutCached (L : Limits) (s : KVSRadixTree) (key val : Bytes)
    (key_ptr : Gptr) (val_ptr : TagGptr) : PutCOut :=
  if key.length > L.kMaxKeyLen then
    { state := s, ret := -1, key_ptr := key_ptr, val_ptr := val_ptr }
  else if val.length > L.kMaxValLen then
    { state := s, ret := -1, key_ptr := key_ptr, val_ptr := val_ptr }
  else
    let a := s.heap.Alloc (val.length + sizeofValBuf)
    let val_gptr := a.2
    if ¬ Gptr.IsValid val_gptr then
      { state := { s with heap := a.1 }, ret := -1, key_ptr := key_ptr, val_ptr := val_ptr }
    else
      let h := a.1.store val_gptr { size := val.length, val := val }
      let kv_ptr := s.tree.putC key val_gptr
      let old_value := kv_ptr.old_value
      if old_value.IsValid then
        { state := { heap := h.Free old_value.gptr, tree := kv_ptr.tree }, ret := 0,
          key_ptr := kv_ptr.key_ptr, val_ptr := kv_ptr.val_ptr }
      else
        { state := { heap := h, tree := kv_ptr.tree }, ret := 0,
          key_ptr := kv_ptr.key_ptr, val_ptr := kv_ptr.val_ptr }

/-- `KVSRadixTree::Put(key_ptr, val_ptr, val, val_len)`, the overload by
key-node pointer. -/
def KVSRadixTree.PutPtr (L : Limits) (s : KVSRadixTree) (key_ptr : Gptr) (val_ptr : TagGptr)
    (val : Bytes) : PutPOut :=
  if val.length > L.kMaxValLen then
    { state := s, ret := -1, val_ptr := val_ptr }
  else
    let a := s.heap.Alloc (val.length + sizeofValBuf)
    let val_gptr := a.2
    if ¬ Gptr.IsValid val_gptr then
      { state := { s with heap := a.1 }, ret := -1, val_ptr := val_ptr }
    else
      let h := a.1.store val_gptr { size := val.length, val := val }
      let r := s.tree.putC_ptr key_ptr val_gptr
      let old_value := r.old_value
      if old_value.IsValid then
        { state := { heap := h.Free old_value.gptr, tree := r.tree }, ret := 0,
          val_ptr := r.val_ptr }
      else
        { state := { heap := h, tree := r.tree }, ret := 0, val_ptr := r.val_ptr }

/-- `KVSRadixTree::Get(key_ptr, val_ptr, val, val_len, get_value)`, the overload
by key-node pointer; `val_ptr` is the caller's cached value pointer.  The test
`val_ptr_cur == val_ptr` compares address and tag. -/
def KVSRadixTree.GetPtr (L : Limits) (s : KVSRadixTree) (key_ptr : Gptr) (val_ptr : TagGptr)
    (val : Bytes) (val_len : Nat) (get_value : Bool) : GetPOut :=
  if val_len > L.kMaxValLen then
    { state := s, ret := -1, val := val, val_len := val_len, val_ptr := val_ptr }
  else
    let val_ptr_cur := s.tree.getC_ptr key_ptr
    if val_ptr_cur = val_ptr ∧ get_value = false then
      { state := s, ret := 0, val := val, val_len := val_len, val_ptr := val_ptr }
    else if val_ptr_cur.IsValid then
      let val_p := s.heap.GlobalToLocal val_ptr_cur.gptr
      let val_size := val_p.size
      if val_len < val_size then
        { state := s, ret := -1, val := val, val_len := val_size, val_ptr := val_ptr }
      else
        { state := s, ret := 0, val := fam_memcpy val val_p.val val_p.size,
          val_len := val_p.size, val_ptr := val_ptr_cur }
    else
      { state := s, ret := 0, val := val, val_len := val_len, val_ptr := val_ptr_cur }

/-- The address the heap hands out for a value block of `val` in state `s`,
null when the allocation fails. -/
def KVSRadixTree.allocFor (s : KVSRadixTree) (val : Bytes) : Gptr :=
  (s.heap.Alloc (val.length + sizeofValBuf)).2

/-! ## Ownership of value blocks -/

/-- Two key nodes do not link the same value block. -/
abbrev Distinct (a b : KeyNode) : Prop :=
  a.slot.IsValid → b.slot.IsValid → a.slot.gptr ≠ b.slot.gptr

/-- The ownership invariant: no two key nodes link the same block; every linked
block has been handed out and has not been passed to `Free`; every block
passed to `Free` has been handed out, and none was passed twice. -/
abbrev KVSRadixTree.Own (s : KVSRadixTree) : Prop :=
  s.tree.nodes.Pairwise Distinct ∧
  (∀ n ∈ s.tree.nodes, n.slot.IsValid →
    n.slot.gptr < s.heap.next ∧ n.slot.gptr ∉ s.heap.pending) ∧
  (∀ g ∈ s.heap.pending, g < s.heap.next) ∧
  s.heap.pending.Nodup

/-! ## Range scans -/

/-- Modelled from the spec: keys are compared lexicographically as unsigned
bytes; `keyLt a b` is `a < b` in that order. -/
def keyLt : Bytes → Bytes → Bool
  | [], [] => false
  | [], _ :: _ => true
  | _ :: _, [] => false
  | a :: as, b :: bs => decide (a < b) || (decide (a = b) && keyLt as bs)

/-- The smallest key of a list, if the list has one. -/
def minKey : List Bytes → Option Bytes
  | [] => none
  | k :: ks =>
    match minKey ks with
    | none => some k
    | some m => if keyLt k m then some k else some m

/-- Modelled from the spec: `k` satisfies the lower endpoint of a range.  The
endpoint `OPEN_BOUNDARY` (here `ob`) with `inclusive = false` is no limit. -/
def aboveBegin (ob begin_key : Bytes) (begin_key_inclusive : Bool) (k : Bytes) : Bool :=
  if begin_key = ob ∧ begin_key_inclusive = false then true
  else if begin_key_inclusive then !keyLt k begin_key
  else keyLt begin_key k

/-- Modelled from the spec: `k` satisfies the upper endpoint of a range.  The
endpoint `OPEN_BOUNDARY` (here `ob`) with `inclusive = false` is no limit. -/
def belowEnd (ob end_key : Bytes) (end_key_inclusive : Bool) (k : Bytes) : Bool :=
  if end_key = ob ∧ end_key_inclusive = false then true
  else if end_key_inclusive then !keyLt end_key k
  else keyLt k end_key

/-- Modelled from the spec: `RadixTree::Iter`, a range cursor: the key it is
positioned at, the upper endpoint with its flag, and whether it is exhausted. -/
structure Iter where
  cur : Bytes
  end_key : Bytes
  end_key_inclusive : Bool
  done : Bool
deriving DecidableEq, Repr

/-- Modelled from the spec: a default-constructed `RadixTree::Iter`. -/
def Iter.new : Iter := { cur := [], end_key := [], end_key_inclusive := false, done := false }

/-- Modelled from the spec: the keys stored in the tree, those with a valid
value pointer. -/
def RadixTree.stored (t : RadixTree) : List Bytes :=
  (t.nodes.map KeyNode.key).filter (fun k => decide (t.get k).IsValid)

/-- Modelled from the spec: the smallest stored key that satisfies `p`. -/
def RadixTree.seek (t : RadixTree) (p : Bytes → Bool) : Option Bytes :=
  minKey (t.stored.filter p)

/-- What `scan` and `get_next` of the tree give back: `found` stands for the
`int` result being 0; the iterator, the key buffer with `key_len`, and the
value pointer. -/
structure ScanRes where
  found : Bool
  iter : Iter
  key : Bytes
  key_len : Nat
  val_gptr : TagGptr

/-- Modelled from the spec: `RadixTree::scan` positions the iterator at the
smallest stored key within the range, copies that key into the key buffer and
returns its value pointer; it fails when there is no such key. -/
def RadixTree.scan (t : RadixTree) (ob : Bytes) (iter : Iter) (key : Bytes) (key_len : Nat)
    (begin_key : Bytes) (begin_key_inclusive : Bool) (end_key : Bytes)
    (end_key_inclusive : Bool) : ScanRes :=
  match t.seek (fun k => aboveBegin ob begin_key begin_key_inclusive k &&
      belowEnd ob end_key end_key_inclusive k) with
  | some k =>
    { found := true,
      iter := { cur := k, end_key := end_key, end_key_inclusive := end_key_inclusive,
                done := false },
      key := fam_memcpy key k k.length, key_len := k.length, val_gptr := t.get k }
  | none =>
    { found := false, iter := iter, key := key, key_len := key_len,
      val_gptr := TagGptr.null }

/-- Modelled from the spec: `RadixTree::get_next` advances the iterator to the
smallest stored key after its position that is still within the range; at the
end of the range it fails, and it keeps failing afterwards. -/
def RadixTree.get_next (t : RadixTree) (ob : Bytes) (iter : Iter) (key : Bytes)
    (key_len : Nat) : ScanRes :=
  if iter.done then
    { found := false, iter := iter, key := key, key_len := key_len,
      val_gptr := TagGptr.null }
  else
    match t.seek (fun k => keyLt iter.cur k &&
        belowEnd ob iter.end_key iter.end_key_inclusive k) with
    | some k =>
      { found := true, iter := { iter with cur := k },
        key := fam_memcpy key k k.length, key_len := k.length, val_gptr := t.get k }
    | none =>
      { found := false, iter := { iter with done := true }, key := key, key_len := key_len,
        val_gptr := TagGptr.null }

/-- The conversion `(int)n` of a `size_t` to a 32-bit `int`. -/
def castInt (n : Nat) : Int :=
  if n % 2 ^ 32 < 2 ^ 31 then ((n % 2 ^ 32 : Nat) : Int) else ((n % 2 ^ 32 : Nat) : Int) - 2 ^ 32

/-- What `Scan` leaves behind: the iterator registry `iters_`, the `int` result,
the caller's `iter_handle`, and the key and value buffers with their lengths. -/
structure ScanOut where
  iters : List Iter
  ret : Int
  iter_handle : Int
  key : Bytes
  key_len : Nat
  val : Bytes
  val_len : Nat

/-- What `GetNext` leaves behind: the iterator registry, the `int` result, and
the key and value buffers with their lengths. -/
structure GetNextOut where
  iters : List Iter
  ret : Int
  key : Bytes
  key_len : Nat
  val : Bytes
  val_len : Nat

/-- `KVSRadixTree::Scan`.  The registry `iters_` is passed next to the state,
whose heap and tree `Scan` does not change; `iter_handle`, `key`, `key_len`,
`val`, `val_len` are the caller's variables before the call. -/
def KVSRadixTree.Scan (L : Limits) (ob : Bytes) (s : KVSRadixTree) (iters : List Iter)
    (iter_handle : Int) (key : Bytes) (key_len : Nat) (val : Bytes) (val_len : Nat)
    (begin_key : Bytes) (begin_key_inclusive : Bool) (end_key : Bytes)
    (end_key_inclusive : Bool) : ScanOut :=
  if begin_key.length > L.kMaxKeyLen ∨ end_key.length > L.kMaxKeyLen then
    { iters := iters, ret := -1, iter_handle := iter_handle, key := key, key_len := key_len,
      val := val, val_len := val_len }
  else if key_len > L.kMaxKeyLen then
    { iters := iters, ret := -1, iter_handle := iter_handle, key := key, key_len := key_len,
      val := val, val_len := val_len }
  else if val_len > L.kMaxValLen then
    { iters := iters, ret := -1, iter_handle := iter_handle, key := key, key_len := key_len,
      val := val, val_len := val_len }
  else
    let r := s.tree.scan ob Iter.new key key_len begin_key begin_key_inclusive end_key
      end_key_inclusive
    if r.found = false then
      { iters := iters, ret := -2, iter_handle := iter_handle, key := r.key,
        key_len := r.key_len, val := val, val_len := val_len }
    else
      let val_ptr := s.heap.GlobalToLocal r.val_gptr.gptr
      let val_size := val_ptr.size
      if val_len < val_size then
        { iters := iters, ret := -1, iter_handle := iter_handle, key := r.key,
          key_len := r.key_len, val := val, val_len := val_size }
      else
        { iters := iters ++ [r.iter], ret := 0,
          iter_handle := castInt ((iters ++ [r.iter]).length - 1),
          key := r.key, key_len := r.key_len,
          val := fam_memcpy val val_ptr.val val_size, val_len := val_size }

/-- `KVSRadixTree::GetNext`.  The iterator is advanced in place, so the registry
changes also when the call fails after `get_next`.  The check before
`iters_[iter_handle]` keeps the index within the registry. -/
def KVSRadixTree.GetNext (L : Limits) (ob : Bytes) (s : KVSRadixTree) (iters : List Iter)
    (iter_handle : Int) (key : Bytes) (key_len : Nat) (val : Bytes) (val_len : Nat) :
    GetNextOut :=
  if key_len > L.kMaxKeyLen then
    { iters := iters, ret := -1, key := key, key_len := key_len, val := val,
      val_len := val_len }
  else if val_len > L.kMaxValLen then
    { iters := iters, ret := -1, key := key, key_len := key_len, val := val,
      val_len := val_len }
  else if iter_handle < 0 ∨ iter_handle ≥ castInt iters.length then
    { iters := iters, ret := -1, key := key, key_len := key_len, val := val,
      val_len := val_len }
  else
    match iters[iter_handle.toNat]? with
    | none =>
      { iters := iters, ret := -1, key := key, key_len := key_len, val := val,
        val_len := val_len }
    | some iter =>
      let r := s.tree.get_next ob iter key key_len
      let iters1 := iters.set iter_handle.toNat r.iter
      if r.found = false then
        { iters := iters1, ret := -2, key := r.key, key_len := r.key_len, val := val,
          val_len := val_len }
      else
        let val_ptr := s.heap.GlobalToLocal r.val_gptr.gptr
        let val_size := val_ptr.size
        if val_len < val_size then
          { iters := iters1, ret := -1, key := r.key, key_len := r.key_len, val := val,
            val_len := val_size }
        else
          { iters := iters1, ret := 0, key := r.key, key_len := r.key_len,
            val := fam_memcpy val val_ptr.val val_size, val_len := val_size }

/-- The pairs (key, value) that successive `GetNext` calls on handle
`iter_handle` return, each call with the capacities `key_cap` and `val_cap`,
up to the first failing call and at most `fuel` calls. -/
def KVSRadixTree.collect (L : Limits) (ob : Bytes) (s : KVSRadixTree) (iter_handle : Int)
    (key_cap val_cap : Nat) : Nat → List Iter → Bytes → Bytes → List (Bytes × Bytes)
  | 0, _, _, _ => []
  | fuel + 1, iters, key, val =>
    let r := s.GetNext L ob iters iter_handle key key_cap val val_cap
    if r.ret = 0 then
      (r.key.take r.key_len, r.val.take r.val_len) ::
        KVSRadixTree.collect L ob s iter_handle key_cap val_cap fuel r.iters r.key r.val
    else []

/-- The pairs (key, value) of a full-range enumeration: a `Scan` with both
endpoints `OPEN_BOUNDARY`, then `GetNext` calls up to the first failure (at
most `fuel` of them). -/
def KVSRadixTree.enumerate (L : Limits) (ob : Bytes) (s : KVSRadixTree) (iters : List Iter)
    (iter_handle : Int) (key val : Bytes) (key_cap val_cap fuel : Nat) :
    List (Bytes × Bytes) :=
  let r := s.Scan L ob iters iter_handle key key_cap val val_cap ob false ob false
  if r.ret = 0 then
    (r.key.take r.key_len, r.val.take r.val_len) ::
      s.collect L ob r.iter_handle key_cap val_cap fuel r.iters r.key r.val
  else []

/-! ## Status -/

/-- `enum StatusCode` of `status.h`.  A C++ enumeration: a code is its integer
value, so two enumerators with the same value are the same code. -/
abbrev StatusCode := Int

def StatusCode.OK : StatusCode := 0
def StatusCode.CANCELLED : StatusCode := 1
def StatusCode.UNKNOWN : StatusCode := 2
def StatusCode.INVALID_ARGUMENT : StatusCode := 3
def StatusCode.DEADLINE_EXCEEDED : StatusCode := 4
def StatusCode.NOT_FOUND : StatusCode := 5
def StatusCode.ALREADY_EXISTS : StatusCode := 6
def StatusCode.PERMISSION_DENIED : StatusCode := 7
def StatusCode.UNAUTHENTICATED : StatusCode := 16
def StatusCode.RESOURCE_EXHAUSTED : StatusCode := 8
def StatusCode.FAILED_PRECONDITION : StatusCode := 9
def StatusCode.ABORTED : StatusCode := 10
def StatusCode.OUT_OF_RANGE : StatusCode := 11
def StatusCode.UNIMPLEMENTED : StatusCode := 12
def StatusCode.INTERNAL : StatusCode := 13
def StatusCode.UNAVAILABLE : StatusCode := 14
def StatusCode.DATA_LOSS : StatusCode := 15
def StatusCode.FAILED : StatusCode := 16
def StatusCode.NOT_INITIALIZED : StatusCode := 17
def StatusCode.NOT_VALID : StatusCode := 18
def StatusCode.END_OF_DATA : StatusCode := 19
def StatusCode.DO_NOT_USE : StatusCode := -1

/-- `class Status` of `status.h`: a code and a detail string.  The constructor
`Status(code, details)` is `Status.mk`. -/
structure Status where
  code_ : StatusCode
  details_ : String
deriving DecidableEq, Repr

/-- The default constructor `Status()`: an OK instance with no detail. -/
def Status.new : Status := { code_ := StatusCode.OK, details_ := "" }

/-- `Status::error_code()`. -/
def Status.error_code (st : Status) : StatusCode := st.code_

/-- `Status::error_message()`. -/
def Status.error_message (st : Status) : String := st.details_

/-- `Status::ok()`. -/
def Status.ok (st : Status) : Bool := decide (st.code_ = StatusCode.OK)

/-- `Status::notOk()`. -/
def Status.notOk (st : Status) : Bool := decide (st.code_ ≠ StatusCode.OK)

/-! ## The transaction manager -/

/-- Modelled from the spec: the state of the `TransactionManager` (component
4.8): the transaction id `startTxn` assigns next, and the mapping from index
names to radix trees, in creation order. -/
structure TransactionManager where
  next_tid : Nat
  indexes : List (Bytes × RadixTree)
deriving DecidableEq, Repr

/-- The radix tree registered under `name`, if there is one. -/
def lookupIndex (name : Bytes) : List (Bytes × RadixTree) → Option RadixTree
  | [] => none
  | e :: rest => if e.1 = name then some e.2 else lookupIndex name rest

/-- Modelled from the spec: `TransactionManager::Reset` sets the next
transaction id to 1 and forgets all named indexes. -/
def TransactionManager.Reset (_tm : TransactionManager) : TransactionManager :=
  { next_tid := 1, indexes := [] }

/-- Modelled from the spec: `createIndex(tid, name)` registers a new, empty
index under `name` and returns OK, or returns `ALREADY_EXISTS` when the name is
taken.  The spec states no condition on `tid` and no detail text. -/
def TransactionManager.createIndex (tm : TransactionManager) (_tid : Nat) (name : Bytes) :
    TransactionManager × Status :=
  match lookupIndex name tm.indexes with
  | some _ => (tm, { code_ := StatusCode.ALREADY_EXISTS, details_ := "" })
  | none => ({ tm with indexes := tm.indexes ++ [(name, { nodes := [] })] }, Status.new)

/-- The manager after a sequence of `createIndex(tid, name)` calls. -/
def TransactionManager.createAll (tm : TransactionManager) (calls : List (Nat × Bytes)) :
    TransactionManager :=
  calls.foldl (fun t c => (t.createIndex c.1 c.2).1) tm

/-! ## The enumerators of StatusCode -/

/-- The enumerators of `enum StatusCode` in `status.h`, by name. -/
inductive StatusName where
  | OK
  | CANCELLED
  | UNKNOWN
  | INVALID_ARGUMENT
  | DEADLINE_EXCEEDED
  | NOT_FOUND
  | ALREADY_EXISTS
  | PERMISSION_DENIED
  | UNAUTHENTICATED
  | RESOURCE_EXHAUSTED
  | FAILED_PRECONDITION
  | ABORTED
  | OUT_OF_RANGE
  | UNIMPLEMENTED
  | INTERNAL
  | UNAVAILABLE
  | DATA_LOSS
  | FAILED
  | NOT_INITIALIZED
  | NOT_VALID
  | END_OF_DATA
  | DO_NOT_USE
deriving DecidableEq, Repr

/-- The value the enumeration gives to each enumerator. -/
def StatusName.code : StatusName → StatusCode
  | StatusName.OK => StatusCode.OK
  | StatusName.CANCELLED => StatusCode.CANCELLED
  | StatusName.UNKNOWN => StatusCode.UNKNOWN
  | StatusName.INVALID_ARGUMENT => StatusCode.INVALID_ARGUMENT
  | StatusName.DEADLINE_EXCEEDED => StatusCode.DEADLINE_EXCEEDED
  | StatusName.NOT_FOUND => StatusCode.NOT_FOUND
  | StatusName.ALREADY_EXISTS => StatusCode.ALREADY_EXISTS
  | StatusName.PERMISSION_DENIED => StatusCode.PERMISSION_DENIED
  | StatusName.UNAUTHENTICATED => StatusCode.UNAUTHENTICATED
  | StatusName.RESOURCE_EXHAUSTED => StatusCode.RESOURCE_EXHAUSTED
  | StatusName.FAILED_PRECONDITION => StatusCode.FAILED_PRECONDITION
  | StatusName.ABORTED => StatusCode.ABORTED
  | StatusName.OUT_OF_RANGE => StatusCode.OUT_OF_RANGE
  | StatusName.UNIMPLEMENTED => StatusCode.UNIMPLEMENTED
  | StatusName.INTERNAL => StatusCode.INTERNAL
  | StatusName.UNAVAILABLE => StatusCode.UNAVAILABLE
  | StatusName.DATA_LOSS => StatusCode.DATA_LOSS
  | StatusName.FAILED => StatusCode.FAILED
  | StatusName.NOT_INITIALIZED => StatusCode.NOT_INITIALIZED
  | StatusName.NOT_VALID => StatusCode.NOT_VALID
  | StatusName.END_OF_DATA => StatusCode.END_OF_DATA
  | StatusName.DO_NOT_USE => StatusCode.DO_NOT_USE

/-! ## The record of allocated blocks -/

/-- The block a call of the buffer API obtains from the heap: `Put` and
`FindOrCreate` call `Alloc` once both length checks have passed, `Del` never
does; `none` when `Alloc` is not called or returns the null pointer. -/
def KVSRadixTree.allocOf (L : Limits) (s : KVSRadixTree) : Op → Option Gptr
  | Op.Put key val =>
    if key.length ≤ L.kMaxKeyLen ∧ val.length ≤ L.kMaxValLen ∧ Gptr.IsValid (s.allocFor val)
    then some (s.allocFor val) else none
  | Op.Del _ => none
  | Op.FindOrCreate key val _ _ =>
    if key.length ≤ L.kMaxKeyLen ∧ val.length ≤ L.kMaxValLen ∧ Gptr.IsValid (s.allocFor val)
    then some (s.allocFor val) else none

/-- Every block `Alloc` returned during a sequence of calls that starts in
state `s`, in the order of the calls. -/
def KVSRadixTree.allocated (L : Limits) : KVSRadixTree → List Op → List Gptr
  | _, [] => []
  | s, op :: ops =>
    match s.allocOf L op with
    | some g => g :: KVSRadixTree.allocated L (s.step L op) ops
    | none => KVSRadixTree.allocated L (s.step L op) ops

/-- Key `k` links the block `g`: its value pointer is valid and has address `g`. -/
abbrev KVSRadixTree.Links (s : KVSRadixTree) (k : Bytes) (g : Gptr) : Prop :=
  (s.tree.get k).IsValid ∧ (s.tree.get k).gptr = g

/-- The block `g` is accounted for in state `s`: some key links it, or it is on
the list of blocks passed to `Free`. -/
abbrev KVSRadixTree.Accounted (s : KVSRadixTree) (g : Gptr) : Prop :=
  (∃ k : Bytes, s.Links k g) ∨ g ∈ s.heap.pending

/-! ## Sequences of Scan and GetNext calls -/

/-- A call that uses the iterator registry, with the heap and tree of the store
at the time of the call (other calls may change them in between) and the
caller's variables. -/
inductive IterCall where
  | Scan (s : KVSRadixTree) (iter_handle : Int) (key : Bytes) (key_len : Nat) (val : Bytes)
      (val_len : Nat) (begin_key : Bytes) (begin_key_inclusive : Bool) (end_key : Bytes)
      (end_key_inclusive : Bool)
  | GetNext (s : KVSRadixTree) (iter_handle : Int) (key : Bytes) (key_len : Nat) (val : Bytes)
      (val_len : Nat)

/-- The registry after one call, with the handles the successful `Scan` calls
have returned so far, in the order of the calls. -/
def iterStep (L : Limits) (ob : Bytes) (st : List Iter × List Int) :
    IterCall → List Iter × List Int
  | IterCall.Scan s h key key_len val val_len b bi e ei =>
    if (s.Scan L ob st.1 h key key_len val val_len b bi e ei).ret = 0 then
      ((s.Scan L ob st.1 h key key_len val val_len b bi e ei).iters,
        st.2 ++ [(s.Scan L ob st.1 h key key_len val val_len b bi e ei).iter_handle])
    else
      ((s.Scan L ob st.1 h key key_len val val_len b bi e ei).iters, st.2)
  | IterCall.GetNext s h key key_len val val_len =>
    ((s.GetNext L ob st.1 h key key_len val val_len).iters, st.2)

/-- The registry and the returned handles after a sequence of calls on a store
whose registry starts empty. -/
def iterRun (L : Limits) (ob : Bytes) (calls : List IterCall) : List Iter × List Int :=
  calls.foldl (iterStep L ob) ([], [])

/-! ## Lemmas on the tree model -/

theorem findNode_key {key : Bytes} {ns : List KeyNode} {n : KeyNode}
    (h : findNode key ns = some n) : n.key = key := by
  induction ns with
  | nil => simp [findNode] at h
  | cons m ms ih =>
    unfold findNode at h
    split at h
    · rename_i hk
      cases h
      exact hk
    · exact ih h

theorem findNode_mem {key : Bytes} {ns : List KeyNode} {n : KeyNode}
    (h : findNode key ns = some n) : n ∈ ns := by
  induction ns with
  | nil => simp [findNode] at h
  | cons m ms ih =>
    unfold findNode at h
    split at h
    · cases h
      exact List.mem_cons_self _ _
    · exact List.mem_cons_of_mem _ (ih h)

theorem findNode_setSlot_self (key : Bytes) (v : TagGptr) (ns : List KeyNode) :
    findNode key (setSlot key v ns) =
      (findNode key ns).map (fun n => { n with slot := v }) := by
  induction ns with
  | nil => simp [findNode, setSlot]
  | cons m ms ih =>
    by_cases hk : m.key = key
    · simp [findNode, setSlot, hk]
    · simp [findNode, setSlot, hk, ih]

theorem findNode_setSlot_other {key k : Bytes} (hne : k ≠ key) (v : TagGptr)
    (ns : List KeyNode) : findNode k (setSlot key v ns) = findNode k ns := by
  induction ns with
  | nil => simp [findNode, setSlot]
  | cons m ms ih =>
    by_cases hk : m.key = key
    · have hk2 : ¬ m.key = k := fun h => hne (h.symm.trans hk)
      have hk3 : ¬ key = k := fun h => hne h.symm
      simp [findNode, setSlot, hk, hk2, hk3]
    · by_cases hk2 : m.key = k
      · rw [setSlot, if_neg hk, findNode, if_pos hk2, findNode, if_pos hk2]
      · rw [setSlot, if_neg hk, findNode, if_neg hk2, findNode, if_neg hk2, ih]

theorem findNode_append (k : Bytes) (ns : List KeyNode) (m : KeyNode) :
    findNode k (ns ++ [m]) =
      match findNode k ns with
      | some n => some n
      | none => if m.key = k then some m else none := by
  induction ns with
  | nil => simp [findNode]
  | cons a as ih =>
    by_cases hk : a.key = k
    · simp [findNode, hk]
    · simp [findNode, hk, ih]

theorem mem_setSlot {key : Bytes} {v : TagGptr} {ns : List KeyNode} {m : KeyNode}
    (h : m ∈ setSlot key v ns) :
    m ∈ ns ∨ ((∃ n ∈ ns, n.key = m.key) ∧ m.key = key ∧ m.slot = v) := by
  induction ns with
  | nil => simp [setSlot] at h
  | cons a as ih =>
    unfold setSlot at h
    split at h
    · rename_i hk
      rcases List.mem_cons.mp h with h1 | h1
      · right
        subst h1
        exact ⟨⟨a, List.mem_cons_self _ _, rfl⟩, hk, rfl⟩
      · left
        exact List.mem_cons_of_mem _ h1
    · rcases List.mem_cons.mp h with h1 | h1
      · left
        subst h1
        exact List.mem_cons_self _ _
      · rcases ih h1 with h2 | ⟨⟨n, hn, hnk⟩, h3⟩
        · left
          exact List.mem_cons_of_mem _ h2
        · right
          exact ⟨⟨n, List.mem_cons_of_mem _ hn, hnk⟩, h3⟩

theorem findIndex_none_iff (key : Bytes) (base : Nat) (ns : List KeyNode) :
    findIndex key base ns = none ↔ findNode key ns = none := by
  induction ns generalizing base with
  | nil => simp [findIndex, findNode]
  | cons a as ih =>
    by_cases hk : a.key = key
    · simp [findIndex, findNode, hk]
    · simp [findIndex, findNode, hk, ih]

namespace RadixTree

theorem put_snd (t : RadixTree) (k : Bytes) (g : Gptr) (pol : UpdateFlags) :
    (t.put k g pol).2 = t.get k := by
  unfold RadixTree.put RadixTree.get
  cases hf : findNode k t.nodes with
  | none => rfl
  | some n =>
    simp only
    split <;> rfl

theorem get_put_update (t : RadixTree) (k : Bytes) (g : Gptr) :
    ((t.put k g UpdateFlags.UPDATE).1.get k).gptr = g := by
  unfold RadixTree.put RadixTree.get
  cases hf : findNode k t.nodes with
  | none => simp [findNode_append, hf]
  | some n => simp [findNode_setSlot_self, hf]

theorem get_put_foc_absent (t : RadixTree) (k : Bytes) (g : Gptr)
    (h : ¬ (t.get k).IsValid) :
    ((t.put k g UpdateFlags.FIND_OR_CREATE).1.get k).gptr = g := by
  unfold RadixTree.get at h
  unfold RadixTree.put RadixTree.get
  cases hf : findNode k t.nodes with
  | none => simp [findNode_append, hf]
  | some n =>
    rw [hf] at h
    simp only at h
    simp [findNode_setSlot_self, hf, h]

theorem put_foc_present (t : RadixTree) (k : Bytes) (g : Gptr)
    (h : (t.get k).IsValid) :
    (t.put k g UpdateFlags.FIND_OR_CREATE).1 = t := by
  unfold RadixTree.get at h
  unfold RadixTree.put
  cases hf : findNode k t.nodes with
  | none =>
    rw [hf] at h
    exact absurd rfl h
  | some n =>
    rw [hf] at h
    simp only at h
    simp [h]

theorem get_put_other (t : RadixTree) {k k2 : Bytes} (hne : k2 ≠ k) (g : Gptr)
    (pol : UpdateFlags) : (t.put k g pol).1.get k2 = t.get k2 := by
  unfold RadixTree.put
  cases hf : findNode k t.nodes with
  | none =>
    simp only [RadixTree.get, findNode_append]
    cases findNode k2 t.nodes with
    | none => simp [Ne.symm hne]
    | some n => rfl
  | some n =>
    simp only
    split
    · rfl
    · simp only [RadixTree.get, findNode_setSlot_other hne]

theorem destroy_snd (t : RadixTree) (k : Bytes) : (t.destroy k).2 = t.get k := by
  unfold RadixTree.destroy RadixTree.get
  cases hf : findNode k t.nodes with
  | none => rfl
  | some n =>
    simp only
    split <;> rfl

theorem get_destroy_self (t : RadixTree) (k : Bytes) :
    ((t.destroy k).1.get k).gptr = 0 := by
  unfold RadixTree.destroy
  cases hf : findNode k t.nodes with
  | none => simp [RadixTree.get, hf, TagGptr.null]
  | some n =>
    simp only
    split
    · simp [RadixTree.get, findNode_setSlot_self, hf]
    · rename_i hv
      simp only [RadixTree.get, hf]
      exact not_not.mp hv

theorem get_destroy_other (t : RadixTree) {k k2 : Bytes} (hne : k2 ≠ k) :
    (t.destroy k).1.get k2 = t.get k2 := by
  unfold RadixTree.destroy
  cases hf : findNode k t.nodes with
  | none => rfl
  | some n =>
    simp only
    split
    · simp only [RadixTree.get, findNode_setSlot_other hne]
    · rfl

theorem destroy_absent (t : RadixTree) (k : Bytes) (h : ¬ (t.get k).IsValid) :
    (t.destroy k).1 = t := by
  unfold RadixTree.get at h
  unfold RadixTree.destroy
  cases hf : findNode k t.nodes with
  | none => rfl
  | some n =>
    rw [hf] at h
    simp only at h
    simp [h]

theorem getC_snd (t : RadixTree) (k : Bytes) : (t.getC k).2 = t.get k := by
  unfold RadixTree.getC
  cases hf : findIndex k 0 t.nodes with
  | none =>
    have := (findIndex_none_iff k 0 t.nodes).mp hf
    simp [RadixTree.get, this]
  | some i => rfl

end RadixTree

/-! ## Lemmas on the calls of KVSRadixTree -/

namespace KVSRadixTree

theorem Put_ok (L : Limits) (s : KVSRadixTree) (k v : Bytes)
    (hk : k.length ≤ L.kMaxKeyLen) (hv : v.length ≤ L.kMaxValLen)
    (h0 : 0 < s.heap.next) (hsz : s.heap.next + (v.length + sizeofValBuf) ≤ s.heap.size) :
    s.Put L k v =
      { state :=
          { heap := heapAfter s.heap v
              (if (s.tree.get k).IsValid then some (s.tree.get k).gptr else none),
            tree := (s.tree.put k s.heap.next UpdateFlags.UPDATE).1 },
        ret := 0 } := by
  have hne : s.heap.next ≠ 0 := Nat.pos_iff_ne_zero.mp h0
  unfold KVSRadixTree.Put Heap.Alloc
  simp only [not_lt.mpr hk, not_lt.mpr hv, if_false, gt_iff_lt, h0, hsz, and_self, if_true,
    RadixTree.put_snd, Gptr.IsValid, ne_eq, hne, not_false_eq_true, not_true_eq_false]
  by_cases hval : (s.tree.get k).IsValid
  · simp [hval, heapAfter, Heap.store, Heap.Free]
  · simp [hval, heapAfter, Heap.store]

theorem Put_fail (L : Limits) (s : KVSRadixTree) (k v : Bytes)
    (h : ¬ (k.length ≤ L.kMaxKeyLen ∧ v.length ≤ L.kMaxValLen ∧ 0 < s.heap.next ∧
      s.heap.next + (v.length + sizeofValBuf) ≤ s.heap.size)) :
    s.Put L k v = { state := s, ret := -1 } := by
  unfold KVSRadixTree.Put Heap.Alloc
  by_cases hk : k.length ≤ L.kMaxKeyLen
  · by_cases hv : v.length ≤ L.kMaxValLen
    · have ha : ¬ (0 < s.heap.next ∧ s.heap.next + (v.length + sizeofValBuf) ≤ s.heap.size) :=
        fun hc => h ⟨hk, hv, hc⟩
      simp [not_lt.mpr hk, not_lt.mpr hv, ha]
    · simp [not_lt.mpr hk, not_le.mp hv]
  · simp [not_le.mp hk]

theorem Put_ret (L : Limits) (s : KVSRadixTree) (k v : Bytes)
    (h : (s.Put L k v).ret = 0) :
    k.length ≤ L.kMaxKeyLen ∧ v.length ≤ L.kMaxValLen ∧ 0 < s.heap.next ∧
      s.heap.next + (v.length + sizeofValBuf) ≤ s.heap.size := by
  by_contra hc
  rw [Put_fail L s k v hc] at h
  simp at h

theorem Alloc_valid (h : Heap) (n : Nat) (hv : Gptr.IsValid (h.Alloc n).2) :
    0 < h.next ∧ h.next + n ≤ h.size := by
  unfold Heap.Alloc at hv
  by_cases hc : 0 < h.next ∧ h.next + n ≤ h.size
  · exact hc
  · simp [hc] at hv

theorem FindOrCreate_fail (L : Limits) (s : KVSRadixTree) (k v rv : Bytes) (rl : Nat)
    (h : ¬ (k.length ≤ L.kMaxKeyLen ∧ v.length ≤ L.kMaxValLen ∧ 0 < s.heap.next ∧
      s.heap.next + (v.length + sizeofValBuf) ≤ s.heap.size)) :
    s.FindOrCreate L k v rv rl = { state := s, ret := -1, ret_val := rv, ret_len := rl } := by
  unfold KVSRadixTree.FindOrCreate Heap.Alloc
  by_cases hk : k.length ≤ L.kMaxKeyLen
  · by_cases hv : v.length ≤ L.kMaxValLen
    · have ha : ¬ (0 < s.heap.next ∧ s.heap.next + (v.length + sizeofValBuf) ≤ s.heap.size) :=
        fun hc => h ⟨hk, hv, hc⟩
      simp [not_lt.mpr hk, not_lt.mpr hv, ha]
    · simp [not_lt.mpr hk, not_le.mp hv]
  · simp [not_le.mp hk]

theorem FindOrCreate_absent (L : Limits) (s : KVSRadixTree) (k v rv : Bytes) (rl : Nat)
    (hk : k.length ≤ L.kMaxKeyLen) (hv : v.length ≤ L.kMaxValLen)
    (h0 : 0 < s.heap.next) (hsz : s.heap.next + (v.length + sizeofValBuf) ≤ s.heap.size)
    (habs : ¬ (s.tree.get k).IsValid) :
    s.FindOrCreate L k v rv rl =
      { state :=
          { heap := heapAfter s.heap v none,
            tree := (s.tree.put k s.heap.next UpdateFlags.FIND_OR_CREATE).1 },
        ret := 1, ret_val := rv, ret_len := rl } := by
  have hne : s.heap.next ≠ 0 := Nat.pos_iff_ne_zero.mp h0
  unfold KVSRadixTree.FindOrCreate Heap.Alloc
  simp only [not_lt.mpr hk, not_lt.mpr hv, if_false, gt_iff_lt, h0, hsz, and_self, if_true,
    RadixTree.put_snd, Gptr.IsValid, ne_eq, hne, not_false_eq_true, not_true_eq_false]
  simp [habs, heapAfter, Heap.store]

theorem FindOrCreate_present (L : Limits) (s : KVSRadixTree) (k v rv : Bytes) (rl : Nat)
    (hk : k.length ≤ L.kMaxKeyLen) (hv : v.length ≤ L.kMaxValLen)
    (h0 : 0 < s.heap.next) (hsz : s.heap.next + (v.length + sizeofValBuf) ≤ s.heap.size)
    (hval : (s.tree.get k).IsValid) :
    s.FindOrCreate L k v rv rl =
      if rl < ((heapAfter s.heap v (some s.heap.next)).mem (s.tree.get k).gptr).size then
        { state := { heap := heapAfter s.heap v (some s.heap.next), tree := s.tree },
          ret := -1, ret_val := rv,
          ret_len := ((heapAfter s.heap v (some s.heap.next)).mem (s.tree.get k).gptr).size }
      else
        { state := { heap := heapAfter s.heap v (some s.heap.next), tree := s.tree },
          ret := 0,
          ret_val := fam_memcpy rv
            ((heapAfter s.heap v (some s.heap.next)).mem (s.tree.get k).gptr).val
            ((heapAfter s.heap v (some s.heap.next)).mem (s.tree.get k).gptr).size,
          ret_len := ((heapAfter s.heap v (some s.heap.next)).mem (s.tree.get k).gptr).size } := by
  have hne : s.heap.next ≠ 0 := Nat.pos_iff_ne_zero.mp h0
  unfold KVSRadixTree.FindOrCreate Heap.Alloc
  simp only [not_lt.mpr hk, not_lt.mpr hv, if_false, gt_iff_lt, h0, hsz, and_self, if_true,
    RadixTree.put_snd, Gptr.IsValid, ne_eq, hne, not_false_eq_true, not_true_eq_false,
    RadixTree.put_foc_present s.tree k s.heap.next hval]
  simp [hval, heapAfter, Heap.store, Heap.Free, Heap.GlobalToLocal]

theorem Del_long (L : Limits) (s : KVSRadixTree) (k : Bytes) (hk : L.kMaxKeyLen < k.length) :
    s.Del L k = { state := s, ret := -1 } := by
  unfold KVSRadixTree.Del
  simp [hk]

theorem Del_present (L : Limits) (s : KVSRadixTree) (k : Bytes)
    (hk : k.length ≤ L.kMaxKeyLen) (hval : (s.tree.get k).IsValid) :
    s.Del L k =
      { state := { heap := s.heap.Free (s.tree.get k).gptr, tree := (s.tree.destroy k).1 },
        ret := 0 } := by
  unfold KVSRadixTree.Del
  simp only [gt_iff_lt, not_lt.mpr hk, if_false, RadixTree.destroy_snd]
  simp [hval]

theorem Del_absent (L : Limits) (s : KVSRadixTree) (k : Bytes)
    (hk : k.length ≤ L.kMaxKeyLen) (habs : ¬ (s.tree.get k).IsValid) :
    s.Del L k = { state := s, ret := -2 } := by
  unfold KVSRadixTree.Del
  simp only [gt_iff_lt, not_lt.mpr hk, if_false, RadixTree.destroy_snd,
    RadixTree.destroy_absent s.tree k habs]
  simp [habs]

theorem Get_long (L : Limits) (s : KVSRadixTree) (k buf : Bytes) (cap : Nat)
    (hk : L.kMaxKeyLen < k.length) :
    s.Get L k buf cap = { state := s, ret := -1, val := buf, val_len := cap } := by
  unfold KVSRadixTree.Get
  simp [hk]

theorem Get_absent (L : Limits) (s : KVSRadixTree) (k buf : Bytes) (cap : Nat)
    (hk : k.length ≤ L.kMaxKeyLen) (habs : ¬ (s.tree.get k).IsValid) :
    s.Get L k buf cap = { state := s, ret := -2, val := buf, val_len := cap } := by
  unfold KVSRadixTree.Get
  simp only [gt_iff_lt, not_lt.mpr hk, if_false]
  simp [habs]

theorem Get_small (L : Limits) (s : KVSRadixTree) (k buf : Bytes) (cap : Nat)
    (hk : k.length ≤ L.kMaxKeyLen) (hval : (s.tree.get k).IsValid)
    (hcap : cap < (s.heap.mem (s.tree.get k).gptr).size) :
    s.Get L k buf cap =
      { state := s, ret := -1, val := buf,
        val_len := (s.heap.mem (s.tree.get k).gptr).size } := by
  unfold KVSRadixTree.Get
  simp only [gt_iff_lt, not_lt.mpr hk, if_false]
  simp [hval, Heap.GlobalToLocal, hcap]

theorem Get_found (L : Limits) (s : KVSRadixTree) (k buf : Bytes) (cap : Nat)
    (hk : k.length ≤ L.kMaxKeyLen) (hval : (s.tree.get k).IsValid)
    (hcap : (s.heap.mem (s.tree.get k).gptr).size ≤ cap) :
    s.Get L k buf cap =
      { state := s, ret := 0,
        val := fam_memcpy buf (s.heap.mem (s.tree.get k).gptr).val
          (s.heap.mem (s.tree.get k).gptr).size,
        val_len := (s.heap.mem (s.tree.get k).gptr).size } := by
  unfold KVSRadixTree.Get
  simp only [gt_iff_lt, not_lt.mpr hk, if_false]
  simp [hval, Heap.GlobalToLocal, not_lt.mpr hcap]

theorem fam_memcpy_take (dst src : Bytes) :
    (fam_memcpy dst src src.length).take src.length = src := by
  simp [fam_memcpy]

theorem fam_memcpy_drop (dst src : Bytes) :
    (fam_memcpy dst src src.length).drop src.length = dst.drop src.length := by
  simp [fam_memcpy]

/-- A key that holds a value in a well-formed state is within `kMaxKeyLen`, and
its block has been handed out. -/
theorem WF_valid {L : Limits} {s : KVSRadixTree} (hwf : s.WF L) {k : Bytes}
    (hval : (s.tree.get k).IsValid) :
    k.length ≤ L.kMaxKeyLen ∧ (s.tree.get k).gptr < s.heap.next := by
  unfold RadixTree.get at hval ⊢
  cases hf : findNode k s.tree.nodes with
  | none =>
    rw [hf] at hval
    exact absurd rfl hval
  | some n =>
    rw [hf] at hval
    have h1 := hwf n (findNode_mem hf)
    have h2 := findNode_key hf
    simp only at hval ⊢
    rw [← h2]
    exact ⟨h1.1, (h1.2 hval).1⟩

/-- In a well-formed state a key with a valid value pointer holds the payload
bytes of its block. -/
theorem WF_Holds {L : Limits} {s : KVSRadixTree} (hwf : s.WF L) {k : Bytes}
    (hval : (s.tree.get k).IsValid) :
    s.Holds k (s.heap.mem (s.tree.get k).gptr).val := by
  refine ⟨hval, ?_⟩
  show s.heap.mem (s.tree.get k).gptr = _
  unfold RadixTree.get at hval ⊢
  cases hf : findNode k s.tree.nodes with
  | none =>
    rw [hf] at hval
    exact absurd rfl hval
  | some n =>
    rw [hf] at hval
    have h1 := ((hwf n (findNode_mem hf)).2 hval).2
    simp only at hval ⊢
    rw [← h1]

theorem fresh_lt (h : Heap) (v : Bytes) : h.next < h.next + (v.length + sizeofValBuf) := by
  simp only [sizeofValBuf]
  omega

theorem put_nodes_mem (t : RadixTree) (k : Bytes) (g : Gptr) (pol : UpdateFlags)
    {m : KeyNode} (h : m ∈ (t.put k g pol).1.nodes) :
    m ∈ t.nodes ∨ (m.key = k ∧ m.slot.gptr = g) := by
  unfold RadixTree.put at h
  cases hf : findNode k t.nodes with
  | none =>
    rw [hf] at h
    simp only [List.mem_append, List.mem_singleton] at h
    rcases h with h | h
    · exact Or.inl h
    · subst h
      exact Or.inr ⟨rfl, rfl⟩
  | some n =>
    rw [hf] at h
    simp only at h
    split at h
    · exact Or.inl h
    · rcases mem_setSlot h with h1 | ⟨_, h2, h3⟩
      · exact Or.inl h1
      · exact Or.inr ⟨h2, by rw [h3]⟩

theorem destroy_nodes_mem (t : RadixTree) (k : Bytes) {m : KeyNode}
    (h : m ∈ (t.destroy k).1.nodes) :
    m ∈ t.nodes ∨ (m.key = k ∧ m.slot.gptr = 0) := by
  unfold RadixTree.destroy at h
  cases hf : findNode k t.nodes with
  | none =>
    rw [hf] at h
    exact Or.inl h
  | some n =>
    rw [hf] at h
    simp only at h
    split at h
    · rcases mem_setSlot h with h1 | ⟨_, h2, h3⟩
      · exact Or.inl h1
      · exact Or.inr ⟨h2, by rw [h3]⟩
    · exact Or.inl h

/-- The invariant carries over to a heap that handed out one more block, for
the key nodes that were there before. -/
theorem WF_old {L : Limits} {s : KVSRadixTree} (hwf : s.WF L) (v : Bytes)
    (pend : Option Gptr) {m : KeyNode} (hm : m ∈ s.tree.nodes) :
    m.key.length ≤ L.kMaxKeyLen ∧
    (m.slot.IsValid → m.slot.gptr < (heapAfter s.heap v pend).next ∧
      ((heapAfter s.heap v pend).mem m.slot.gptr).size =
        ((heapAfter s.heap v pend).mem m.slot.gptr).val.length) := by
  refine ⟨(hwf m hm).1, fun hval => ?_⟩
  have h1 := (hwf m hm).2 hval
  refine ⟨lt_of_lt_of_le h1.1 (Nat.le_add_right _ _), ?_⟩
  simp only [heapAfter]
  rw [if_neg (Nat.ne_of_lt h1.1)]
  exact h1.2

/-- The invariant holds for the key node that links the block just handed out. -/
theorem WF_new {L : Limits} (s : KVSRadixTree) (k v : Bytes) (pend : Option Gptr)
    (hk : k.length ≤ L.kMaxKeyLen) {m : KeyNode} (h1 : m.key = k)
    (h2 : m.slot.gptr = s.heap.next) :
    m.key.length ≤ L.kMaxKeyLen ∧
    (m.slot.IsValid → m.slot.gptr < (heapAfter s.heap v pend).next ∧
      ((heapAfter s.heap v pend).mem m.slot.gptr).size =
        ((heapAfter s.heap v pend).mem m.slot.gptr).val.length) := by
  refine ⟨by rw [h1]; exact hk, fun _ => ?_⟩
  rw [h2]
  refine ⟨fresh_lt s.heap v, ?_⟩
  simp [heapAfter]

theorem WF_Put {L : Limits} {s : KVSRadixTree} (hwf : s.WF L) (k v : Bytes) :
    (s.Put L k v).state.WF L := by
  by_cases hc : k.length ≤ L.kMaxKeyLen ∧ v.length ≤ L.kMaxValLen ∧ 0 < s.heap.next ∧
      s.heap.next + (v.length + sizeofValBuf) ≤ s.heap.size
  · obtain ⟨hk, hv, h0, hsz⟩ := hc
    rw [Put_ok L s k v hk hv h0 hsz]
    intro m hm
    rcases put_nodes_mem _ _ _ _ hm with h1 | ⟨h1, h2⟩
    · exact WF_old hwf v _ h1
    · exact WF_new s k v _ hk h1 h2
  · rw [Put_fail L s k v hc]
    exact hwf

theorem WF_FindOrCreate {L : Limits} {s : KVSRadixTree} (hwf : s.WF L) (k v rv : Bytes)
    (rl : Nat) : (s.FindOrCreate L k v rv rl).state.WF L := by
  by_cases hc : k.length ≤ L.kMaxKeyLen ∧ v.length ≤ L.kMaxValLen ∧ 0 < s.heap.next ∧
      s.heap.next + (v.length + sizeofValBuf) ≤ s.heap.size
  · obtain ⟨hk, hv, h0, hsz⟩ := hc
    by_cases hval : (s.tree.get k).IsValid
    · rw [FindOrCreate_present L s k v rv rl hk hv h0 hsz hval]
      have key : ∀ m ∈ s.tree.nodes, m.key.length ≤ L.kMaxKeyLen ∧
          (m.slot.IsValid → m.slot.gptr < (heapAfter s.heap v (some s.heap.next)).next ∧
            ((heapAfter s.heap v (some s.heap.next)).mem m.slot.gptr).size =
              ((heapAfter s.heap v (some s.heap.next)).mem m.slot.gptr).val.length) :=
        fun m hm => WF_old hwf v _ hm
      split <;> exact key
    · rw [FindOrCreate_absent L s k v rv rl hk hv h0 hsz hval]
      intro m hm
      rcases put_nodes_mem _ _ _ _ hm with h1 | ⟨h1, h2⟩
      · exact WF_old hwf v _ h1
      · exact WF_new s k v _ hk h1 h2
  · rw [FindOrCreate_fail L s k v rv rl hc]
    exact hwf

theorem WF_Del {L : Limits} {s : KVSRadixTree} (hwf : s.WF L) (k : Bytes) :
    (s.Del L k).state.WF L := by
  by_cases hk : k.length ≤ L.kMaxKeyLen
  · by_cases hval : (s.tree.get k).IsValid
    · rw [Del_present L s k hk hval]
      intro m hm
      rcases destroy_nodes_mem _ _ hm with h1 | ⟨h1, h2⟩
      · exact hwf m h1
      · exact ⟨by rw [h1]; exact hk, fun hv2 => absurd h2 hv2⟩
    · rw [Del_absent L s k hk hval]
      exact hwf
  · rw [Del_long L s k (not_le.mp hk)]
    exact hwf

theorem WF_step {L : Limits} {s : KVSRadixTree} (hwf : s.WF L) (op : Op) :
    (s.step L op).WF L := by
  cases op with
  | Put key val => exact WF_Put hwf key val
  | Del key => exact WF_Del hwf key
  | FindOrCreate key val rv rl => exact WF_FindOrCreate hwf key val rv rl

theorem WF_run {L : Limits} (ops : List Op) {s : KVSRadixTree} (hwf : s.WF L) :
    (s.run L ops).WF L := by
  induction ops generalizing s with
  | nil => exact hwf
  | cons op ops ih => exact ih (WF_step hwf op)

theorem WF_Open (L : Limits) (heap_size : Nat) : (KVSRadixTree.Open heap_size).WF L := by
  intro n hn
  simp [KVSRadixTree.Open] at hn

/-- A call on another key does not change the value pointer of `k`, and no call
writes to a block that has already been handed out. -/
theorem step_frame (L : Limits) (s : KVSRadixTree) (op : Op) :
    (∀ k, op.key ≠ k → (s.step L op).tree.get k = s.tree.get k) ∧
    (∀ g, g < s.heap.next → (s.step L op).heap.mem g = s.heap.mem g) ∧
    s.heap.next ≤ (s.step L op).heap.next := by
  cases op with
  | Put key val =>
    simp only [step, Op.key]
    by_cases hc : key.length ≤ L.kMaxKeyLen ∧ val.length ≤ L.kMaxValLen ∧ 0 < s.heap.next ∧
        s.heap.next + (val.length + sizeofValBuf) ≤ s.heap.size
    · obtain ⟨hk, hv, h0, hsz⟩ := hc
      rw [Put_ok L s key val hk hv h0 hsz]
      refine ⟨fun k hne => RadixTree.get_put_other _ (Ne.symm hne) _ _, fun g hg => ?_, ?_⟩
      · simp only [heapAfter]
        rw [if_neg (Nat.ne_of_lt hg)]
      · simp only [heapAfter]
        omega
    · rw [Put_fail L s key val hc]
      exact ⟨fun _ _ => rfl, fun _ _ => rfl, le_refl _⟩
  | Del key =>
    simp only [step, Op.key]
    by_cases hk : key.length ≤ L.kMaxKeyLen
    · by_cases hval : (s.tree.get key).IsValid
      · rw [Del_present L s key hk hval]
        exact ⟨fun k hne => RadixTree.get_destroy_other _ (Ne.symm hne), fun _ _ => rfl,
          le_refl _⟩
      · rw [Del_absent L s key hk hval]
        exact ⟨fun _ _ => rfl, fun _ _ => rfl, le_refl _⟩
    · rw [Del_long L s key (not_le.mp hk)]
      exact ⟨fun _ _ => rfl, fun _ _ => rfl, le_refl _⟩
  | FindOrCreate key val rv rl =>
    simp only [step, Op.key]
    by_cases hc : key.length ≤ L.kMaxKeyLen ∧ val.length ≤ L.kMaxValLen ∧ 0 < s.heap.next ∧
        s.heap.next + (val.length + sizeofValBuf) ≤ s.heap.size
    · obtain ⟨hk, hv, h0, hsz⟩ := hc
      by_cases hval : (s.tree.get key).IsValid
      · rw [FindOrCreate_present L s key val rv rl hk hv h0 hsz hval]
        have key2 : (∀ k : Bytes, key ≠ k → s.tree.get k = s.tree.get k) ∧
            (∀ g, g < s.heap.next →
              (heapAfter s.heap val (some s.heap.next)).mem g = s.heap.mem g) ∧
            s.heap.next ≤ (heapAfter s.heap val (some s.heap.next)).next := by
          refine ⟨fun _ _ => rfl, fun g hg => ?_, ?_⟩
          · simp only [heapAfter]
            rw [if_neg (Nat.ne_of_lt hg)]
          · simp only [heapAfter]
            omega
        split <;> exact key2
      · rw [FindOrCreate_absent L s key val rv rl hk hv h0 hsz hval]
        refine ⟨fun k hne => RadixTree.get_put_other _ (Ne.symm hne) _ _, fun g hg => ?_, ?_⟩
        · simp only [heapAfter]
          rw [if_neg (Nat.ne_of_lt hg)]
        · simp only [heapAfter]
          omega
    · rw [FindOrCreate_fail L s key val rv rl hc]
      exact ⟨fun _ _ => rfl, fun _ _ => rfl, le_refl _⟩

/-- Calls on other keys leave the value pointer of `k` and the content of every
block handed out before them as they were. -/
theorem run_frame (L : Limits) (ops : List Op) (s : KVSRadixTree) (k : Bytes)
    (hops : ∀ op ∈ ops, op.key ≠ k) :
    (s.run L ops).tree.get k = s.tree.get k ∧
    (∀ g, g < s.heap.next → (s.run L ops).heap.mem g = s.heap.mem g) := by
  induction ops generalizing s with
  | nil => exact ⟨rfl, fun _ _ => rfl⟩
  | cons op ops ih =>
    have hf := step_frame L s op
    have h1 := ih (s.step L op) (fun o ho => hops o (List.mem_cons_of_mem _ ho))
    have hop := hops op (List.mem_cons_self _ _)
    refine ⟨?_, fun g hg => ?_⟩
    · show ((s.step L op).run L ops).tree.get k = _
      rw [h1.1, hf.1 k hop]
    · show ((s.step L op).run L ops).heap.mem g = _
      rw [h1.2 g (lt_of_lt_of_le hg hf.2.2), hf.2.1 g hg]

/-- A key without a value stays without one under a call that installs nothing
under it. -/
theorem step_absent (L : Limits) (s : KVSRadixTree) (op : Op) (k : Bytes)
    (hop : ¬ op.installs k) (habs : ¬ (s.tree.get k).IsValid) :
    ¬ ((s.step L op).tree.get k).IsValid := by
  by_cases hne : op.key = k
  · cases op with
    | Put key val => exact absurd hne hop
    | FindOrCreate key val rv rl => exact absurd hne hop
    | Del key =>
      have hkk : key = k := hne
      subst hkk
      simp only [step]
      by_cases hk : key.length ≤ L.kMaxKeyLen
      · rw [Del_absent L s key hk habs]
        exact habs
      · rw [Del_long L s key (not_le.mp hk)]
        exact habs
  · rw [(step_frame L s op).1 k hne]
    exact habs

theorem run_absent (L : Limits) (ops : List Op) (s : KVSRadixTree) (k : Bytes)
    (hops : ∀ op ∈ ops, ¬ op.installs k) (habs : ¬ (s.tree.get k).IsValid) :
    ¬ ((s.run L ops).tree.get k).IsValid := by
  induction ops generalizing s with
  | nil => exact habs
  | cons op ops ih =>
    exact ih (s.step L op) (fun o ho => hops o (List.mem_cons_of_mem _ ho))
      (step_absent L s op k (hops op (List.mem_cons_self _ _)) habs)

theorem Holds_Put (L : Limits) (s : KVSRadixTree) (k v : Bytes)
    (hk : k.length ≤ L.kMaxKeyLen) (hv : v.length ≤ L.kMaxValLen)
    (h0 : 0 < s.heap.next) (hsz : s.heap.next + (v.length + sizeofValBuf) ≤ s.heap.size) :
    (s.Put L k v).state.Holds k v := by
  rw [Put_ok L s k v hk hv h0 hsz]
  have hg := RadixTree.get_put_update s.tree k s.heap.next
  refine ⟨?_, ?_⟩
  · show ((s.tree.put k s.heap.next UpdateFlags.UPDATE).1.get k).gptr ≠ 0
    rw [hg]
    exact Nat.pos_iff_ne_zero.mp h0
  · show (heapAfter s.heap v _).mem ((s.tree.put k s.heap.next UpdateFlags.UPDATE).1.get k).gptr
      = _
    rw [hg]
    simp [heapAfter]

theorem Get_of_Holds (L : Limits) (s : KVSRadixTree) (k w buf : Bytes) (cap : Nat)
    (hk : k.length ≤ L.kMaxKeyLen) (hh : s.Holds k w) (hcap : w.length ≤ cap) :
    s.Get L k buf cap =
      { state := s, ret := 0, val := fam_memcpy buf w w.length, val_len := w.length } := by
  have hm : s.heap.mem (s.tree.get k).gptr = { size := w.length, val := w } := hh.2
  rw [Get_found L s k buf cap hk hh.1 (by rw [hm]; exact hcap), hm]

theorem Holds_run (L : Limits) (ops : List Op) (s : KVSRadixTree) (k w : Bytes)
    (hwf : s.WF L) (hh : s.Holds k w) (hops : ∀ op ∈ ops, op.key ≠ k) :
    (s.run L ops).Holds k w := by
  have hf := run_frame L ops s k hops
  have hlt := (WF_valid hwf hh.1).2
  refine ⟨?_, ?_⟩
  · rw [hf.1]
    exact hh.1
  · show (s.run L ops).heap.mem ((s.run L ops).tree.get k).gptr = _
    rw [hf.1, hf.2 _ hlt]
    exact hh.2

/-- The result of `Get` depends on the state only through the value pointer of
the key and the block it points to. -/
theorem Get_congr (L : Limits) (s1 s2 : KVSRadixTree) (k buf : Bytes) (cap : Nat)
    (ht : s1.tree.get k = s2.tree.get k)
    (hm : s1.heap.mem (s2.tree.get k).gptr = s2.heap.mem (s2.tree.get k).gptr) :
    (s1.Get L k buf cap).ret = (s2.Get L k buf cap).ret ∧
    (s1.Get L k buf cap).val = (s2.Get L k buf cap).val ∧
    (s1.Get L k buf cap).val_len = (s2.Get L k buf cap).val_len := by
  unfold KVSRadixTree.Get
  simp only [Heap.GlobalToLocal, ht, hm]
  split_ifs <;> exact ⟨rfl, rfl, rfl⟩

theorem Alloc_snd (h : Heap) (n : Nat) (hv : Gptr.IsValid (h.Alloc n).2) :
    (h.Alloc n).2 = h.next := by
  have hc := Alloc_valid h n hv
  unfold Heap.Alloc
  rw [if_pos hc]

/-- `FindOrCreate` on a key that holds `w`, in a well-formed state where the
bounds hold and the allocation succeeds. -/
theorem FindOrCreate_Holds (L : Limits) (s : KVSRadixTree) (k w v rv : Bytes) (rl : Nat)
    (hwf : s.WF L) (hh : s.Holds k w) (hv : v.length ≤ L.kMaxValLen)
    (h0 : 0 < s.heap.next) (hsz : s.heap.next + (v.length + sizeofValBuf) ≤ s.heap.size) :
    s.FindOrCreate L k v rv rl =
      if rl < w.length then
        { state := { heap := heapAfter s.heap v (some s.heap.next), tree := s.tree },
          ret := -1, ret_val := rv, ret_len := w.length }
      else
        { state := { heap := heapAfter s.heap v (some s.heap.next), tree := s.tree },
          ret := 0, ret_val := fam_memcpy rv w w.length, ret_len := w.length } := by
  have hb := WF_valid hwf hh.1
  have hm : (heapAfter s.heap v (some s.heap.next)).mem (s.tree.get k).gptr =
      { size := w.length, val := w } := by
    simp only [heapAfter]
    rw [if_neg (Nat.ne_of_lt hb.2)]
    exact hh.2
  rw [FindOrCreate_present L s k v rv rl hb.1 hv h0 hsz hh.1, hm]

theorem Holds_frame (s1 s2 : KVSRadixTree) (k w : Bytes) (hh : s2.Holds k w)
    (ht : s1.tree.get k = s2.tree.get k)
    (hm : s1.heap.mem (s2.tree.get k).gptr = s2.heap.mem (s2.tree.get k).gptr) :
    s1.Holds k w := by
  refine ⟨?_, ?_⟩
  · rw [ht]
    exact hh.1
  · show s1.heap.mem (s1.tree.get k).gptr = _
    rw [ht, hm]
    exact hh.2

end KVSRadixTree

/-! ## The claims -/

open KVSRadixTree

/-- C1 (round trip): if `Put(k, v)` returns 0, an immediately following
`Get(k, buf, cap)` with `cap ≥ |v|` returns 0, sets `val_len` to `|v|` and leaves
the first `|v|` bytes of the buffer equal to `v` (the rest of the buffer is
not touched).  The bounds on `k` and `v` follow from the result 0 of `Put`. -/
theorem put_get_round_trip (L : Limits) (s : KVSRadixTree) (k v buf : Bytes) (cap : Nat)
    (hput : (s.Put L k v).ret = 0) (hcap : v.length ≤ cap) :
    ((s.Put L k v).state.Get L k buf cap).ret = 0 ∧
    ((s.Put L k v).state.Get L k buf cap).val_len = v.length ∧
    ((s.Put L k v).state.Get L k buf cap).val.take v.length = v ∧
    ((s.Put L k v).state.Get L k buf cap).val.drop v.length = buf.drop v.length := by
  obtain ⟨hk, hv, h0, hsz⟩ := Put_ret L s k v hput
  rw [Get_of_Holds L _ k v buf cap hk (Holds_Put L s k v hk hv h0 hsz) hcap]
  exact ⟨rfl, rfl, fam_memcpy_take _ _, fam_memcpy_drop _ _⟩

theorem put_get_round_trip_witness :
    (((KVSRadixTree.Open 64).Put ⟨4, 8⟩ [1, 2] [7, 8, 9]).state.Get ⟨4, 8⟩ [1, 2]
        [0, 0, 0, 0, 0] 4).ret = 0 ∧
    (((KVSRadixTree.Open 64).Put ⟨4, 8⟩ [1, 2] [7, 8, 9]).state.Get ⟨4, 8⟩ [1, 2]
        [0, 0, 0, 0, 0] 4).val = [7, 8, 9, 0, 0] := by
  have h := put_get_round_trip ⟨4, 8⟩ (KVSRadixTree.Open 64) [1, 2] [7, 8, 9]
    [0, 0, 0, 0, 0] 4 (by decide) (by decide)
  exact ⟨h.1, by decide⟩

/-- C2 (last put wins): from any well-formed state, after any calls `pre`, a
successful `Put(k, v)` and then any calls `post` on keys other than `k` (so no
`Del(k)` and no later write of `k`), `Get(k)` with capacity at least `|v|`
returns 0 with exactly the length and the bytes of `v`. -/
theorem last_put_wins (L : Limits) (s : KVSRadixTree) (pre post : List Op)
    (k v buf : Bytes) (cap : Nat) (hwf : s.WF L)
    (hput : ((s.run L pre).Put L k v).ret = 0)
    (hpost : ∀ op ∈ post, op.key ≠ k) (hcap : v.length ≤ cap) :
    ((((s.run L pre).Put L k v).state.run L post).Get L k buf cap).ret = 0 ∧
    ((((s.run L pre).Put L k v).state.run L post).Get L k buf cap).val_len = v.length ∧
    ((((s.run L pre).Put L k v).state.run L post).Get L k buf cap).val.take v.length = v := by
  obtain ⟨hk, hv, h0, hsz⟩ := Put_ret L _ k v hput
  have hwf1 : ((s.run L pre).Put L k v).state.WF L := WF_Put (WF_run pre hwf) k v
  have hh := Holds_run L post _ k v hwf1 (Holds_Put L _ k v hk hv h0 hsz) hpost
  rw [Get_of_Holds L _ k v buf cap hk hh hcap]
  exact ⟨rfl, rfl, fam_memcpy_take _ _⟩

theorem last_put_wins_witness :
    (((((KVSRadixTree.Open 64).run ⟨4, 8⟩ [Op.Put [1] [5], Op.Put [2] [6]]).Put ⟨4, 8⟩
        [1] [7, 8]).state.run ⟨4, 8⟩ [Op.Put [2] [9], Op.Del [3]]).Get ⟨4, 8⟩ [1]
        [0, 0, 0] 3).val.take 2 = [7, 8] :=
  (last_put_wins ⟨4, 8⟩ (KVSRadixTree.Open 64) [Op.Put [1] [5], Op.Put [2] [6]]
    [Op.Put [2] [9], Op.Del [3]] [1] [7, 8] [0, 0, 0] 3 (by decide) (by decide)
    (by decide) (by decide)).2.2

/-- C3 (delete then get): in a well-formed state, if `k` holds a value then
`Del(k)` returns 0, and after any further calls none of which is a `Put` or a
`FindOrCreate` of `k`, `Get(k)` returns -2 and leaves the caller's buffer and
`val_len` as they were. -/
theorem del_then_get_not_found (L : Limits) (s : KVSRadixTree) (post : List Op)
    (k buf : Bytes) (cap : Nat) (hwf : s.WF L) (hval : (s.tree.get k).IsValid)
    (hpost : ∀ op ∈ post, ¬ op.installs k) :
    (s.Del L k).ret = 0 ∧
    (((s.Del L k).state.run L post).Get L k buf cap).ret = -2 ∧
    (((s.Del L k).state.run L post).Get L k buf cap).val = buf ∧
    (((s.Del L k).state.run L post).Get L k buf cap).val_len = cap := by
  have hk := (WF_valid hwf hval).1
  have habs : ¬ (((s.Del L k).state.run L post).tree.get k).IsValid := by
    refine run_absent L post _ k hpost ?_
    rw [Del_present L s k hk hval]
    exact not_not.mpr (RadixTree.get_destroy_self s.tree k)
  rw [Get_absent L _ k buf cap hk habs, Del_present L s k hk hval]
  exact ⟨rfl, rfl, rfl, rfl⟩

theorem del_then_get_not_found_witness :
    ((KVSRadixTree.Open 64).Put ⟨4, 8⟩ [1] [5]).state.WF ⟨4, 8⟩ ∧
    ((((KVSRadixTree.Open 64).Put ⟨4, 8⟩ [1] [5]).state.Del ⟨4, 8⟩ [1]).ret = 0) ∧
    (((((KVSRadixTree.Open 64).Put ⟨4, 8⟩ [1] [5]).state.Del ⟨4, 8⟩ [1]).state.run ⟨4, 8⟩
        [Op.Put [2] [6], Op.Del [1]]).Get ⟨4, 8⟩ [1] [0, 0] 2).ret = -2 := by
  have h := del_then_get_not_found ⟨4, 8⟩ ((KVSRadixTree.Open 64).Put ⟨4, 8⟩ [1] [5]).state
    [Op.Put [2] [6], Op.Del [1]] [1] [0, 0] 2 (by decide) (by decide) (by decide)
  exact ⟨by decide, h.1, h.2.1⟩

/-- C4 (delete idempotence): after a first `Del(k)`, a second `Del(k)` leaves the
whole state as it was after the first call (so nothing is scheduled for free and
every key maps to what it mapped to), and for every key, a byte string of at
most `kMaxKeyLen` bytes, it returns -2.  (A longer string is not a key: the
length guard answers it with -1, also without any change.) -/
theorem del_twice (L : Limits) (s : KVSRadixTree) (k : Bytes) :
    ((s.Del L k).state.Del L k).ret = (if k.length ≤ L.kMaxKeyLen then -2 else -1) ∧
    ((s.Del L k).state.Del L k).state = (s.Del L k).state ∧
    ((s.Del L k).state.Del L k).state.heap.pending = (s.Del L k).state.heap.pending ∧
    (∀ k2, ((s.Del L k).state.Del L k).state.tree.get k2 = (s.Del L k).state.tree.get k2) := by
  have key : ((s.Del L k).state.Del L k).ret = (if k.length ≤ L.kMaxKeyLen then -2 else -1) ∧
      ((s.Del L k).state.Del L k).state = (s.Del L k).state := by
    by_cases hk : k.length ≤ L.kMaxKeyLen
    · have habs : ¬ ((s.Del L k).state.tree.get k).IsValid := by
        by_cases hval : (s.tree.get k).IsValid
        · rw [Del_present L s k hk hval]
          exact not_not.mpr (RadixTree.get_destroy_self s.tree k)
        · rw [Del_absent L s k hk hval]
          exact hval
      rw [Del_absent L _ k hk habs, if_pos hk]
      exact ⟨rfl, rfl⟩
    · rw [Del_long L _ k (not_le.mp hk), if_neg hk]
      exact ⟨rfl, rfl⟩
  refine ⟨key.1, key.2, ?_, fun k2 => ?_⟩
  · rw [key.2]
  · rw [key.2]

/-- C5 (delete frame): for distinct keys `k` and `k2`, `Get(k2)` gives the same
result, buffer content and `val_len` after `Del(k)` as before it; a key that
held `w` still holds `w`, and a key without a value still has none. -/
theorem del_frame (L : Limits) (s : KVSRadixTree) (k k2 buf : Bytes) (cap : Nat)
    (hne : k2 ≠ k) :
    ((s.Del L k).state.Get L k2 buf cap).ret = (s.Get L k2 buf cap).ret ∧
    ((s.Del L k).state.Get L k2 buf cap).val = (s.Get L k2 buf cap).val ∧
    ((s.Del L k).state.Get L k2 buf cap).val_len = (s.Get L k2 buf cap).val_len ∧
    (∀ w, s.Holds k2 w → (s.Del L k).state.Holds k2 w) ∧
    (¬ (s.tree.get k2).IsValid → ¬ ((s.Del L k).state.tree.get k2).IsValid) := by
  have key : (s.Del L k).state.tree.get k2 = s.tree.get k2 ∧
      (s.Del L k).state.heap.mem = s.heap.mem := by
    by_cases hk : k.length ≤ L.kMaxKeyLen
    · by_cases hval : (s.tree.get k).IsValid
      · rw [Del_present L s k hk hval]
        exact ⟨RadixTree.get_destroy_other s.tree hne, rfl⟩
      · rw [Del_absent L s k hk hval]
        exact ⟨rfl, rfl⟩
    · rw [Del_long L s k (not_le.mp hk)]
      exact ⟨rfl, rfl⟩
  have hg := Get_congr L (s.Del L k).state s k2 buf cap key.1 (by rw [key.2])
  refine ⟨hg.1, hg.2.1, hg.2.2, fun w hw => ?_, fun habs => ?_⟩
  · refine ⟨?_, ?_⟩
    · rw [key.1]
      exact hw.1
    · show (s.Del L k).state.heap.mem ((s.Del L k).state.tree.get k2).gptr = _
      rw [key.1, key.2]
      exact hw.2
  · rw [key.1]
    exact habs

theorem del_frame_witness :
    ((((KVSRadixTree.Open 64).run ⟨4, 8⟩ [Op.Put [1] [5], Op.Put [2] [6, 7]]).Del ⟨4, 8⟩
        [1]).state.Get ⟨4, 8⟩ [2] [0, 0, 0] 3).val = [6, 7, 0] := by
  have h := del_frame ⟨4, 8⟩
    ((KVSRadixTree.Open 64).run ⟨4, 8⟩ [Op.Put [1] [5], Op.Put [2] [6, 7]]) [1] [2]
    [0, 0, 0] 3 (by decide)
  rw [h.2.1]
  decide

/-- C6, as stated, fails for `FindOrCreate`: with `key_len = kMaxKeyLen`,
`val_len = kMaxValLen` and a successful allocation the call still returns -1
when the key already holds a value longer than `ret_len`. -/
theorem length_bounds_counterexample :
    [1].length = (Limits.mk 1 1).kMaxKeyLen ∧ [9].length = (Limits.mk 1 1).kMaxValLen ∧
    Gptr.IsValid
      (((KVSRadixTree.Open 64).Put ⟨1, 1⟩ [1] [7]).state.heap.Alloc
        ([9].length + sizeofValBuf)).2 ∧
    (((KVSRadixTree.Open 64).Put ⟨1, 1⟩ [1] [7]).state.FindOrCreate ⟨1, 1⟩ [1] [9] [] 0).ret
      = -1 := by
  decide

/-- C6 (length bounds, amended).  With `key_len ≤ kMaxKeyLen` and
`val_len ≤ kMaxValLen` (in particular at equality) and a successful allocation,
`Put` returns 0, and `FindOrCreate` returns 1 on a key without a value and 0 on
a key (of a well-formed state) whose value fits in `ret_len`.  Every `Put`,
`Get`, `Del` and `FindOrCreate` with `key_len > kMaxKeyLen` (in particular
`kMaxKeyLen + 1`), and every `Put` and `FindOrCreate` with
`val_len > kMaxValLen`, returns -1 and leaves heap, tree and the caller's
variables as they were. -/
theorem length_bounds (L : Limits) (s : KVSRadixTree) :
    (∀ k v : Bytes, k.length ≤ L.kMaxKeyLen → v.length ≤ L.kMaxValLen →
      Gptr.IsValid (s.heap.Alloc (v.length + sizeofValBuf)).2 →
      (s.Put L k v).ret = 0 ∧
      (∀ (rv : Bytes) (rl : Nat), ¬ (s.tree.get k).IsValid →
        (s.FindOrCreate L k v rv rl).ret = 1) ∧
      (∀ (w rv : Bytes) (rl : Nat), s.WF L → s.Holds k w → w.length ≤ rl →
        (s.FindOrCreate L k v rv rl).ret = 0)) ∧
    (∀ (k v buf rv : Bytes) (cap rl : Nat), L.kMaxKeyLen < k.length →
      s.Put L k v = { state := s, ret := -1 } ∧
      s.Get L k buf cap = { state := s, ret := -1, val := buf, val_len := cap } ∧
      s.Del L k = { state := s, ret := -1 } ∧
      s.FindOrCreate L k v rv rl = { state := s, ret := -1, ret_val := rv, ret_len := rl }) ∧
    (∀ (k v rv : Bytes) (rl : Nat), L.kMaxValLen < v.length →
      s.Put L k v = { state := s, ret := -1 } ∧
      s.FindOrCreate L k v rv rl = { state := s, ret := -1, ret_val := rv, ret_len := rl }) := by
  refine ⟨fun k v hk hv ha => ?_, fun k v buf rv cap rl hk => ?_, fun k v rv rl hv => ?_⟩
  · obtain ⟨h0, hsz⟩ := Alloc_valid _ _ ha
    refine ⟨?_, fun rv rl habs => ?_, fun w rv rl hwf hh hrl => ?_⟩
    · rw [Put_ok L s k v hk hv h0 hsz]
    · rw [FindOrCreate_absent L s k v rv rl hk hv h0 hsz habs]
    · rw [FindOrCreate_Holds L s k w v rv rl hwf hh hv h0 hsz, if_neg (not_lt.mpr hrl)]
  · have hc : ¬ (k.length ≤ L.kMaxKeyLen ∧ v.length ≤ L.kMaxValLen ∧ 0 < s.heap.next ∧
        s.heap.next + (v.length + sizeofValBuf) ≤ s.heap.size) :=
      fun h => absurd h.1 (not_le.mpr hk)
    exact ⟨Put_fail L s k v hc, Get_long L s k buf cap hk, Del_long L s k hk,
      FindOrCreate_fail L s k v rv rl hc⟩
  · have hc : ¬ (k.length ≤ L.kMaxKeyLen ∧ v.length ≤ L.kMaxValLen ∧ 0 < s.heap.next ∧
        s.heap.next + (v.length + sizeofValBuf) ≤ s.heap.size) :=
      fun h => absurd h.2.1 (not_le.mpr hv)
    exact ⟨Put_fail L s k v hc, FindOrCreate_fail L s k v rv rl hc⟩

theorem length_bounds_witness :
    ((KVSRadixTree.Open 64).Put ⟨2, 3⟩ [1, 2] [7, 8, 9]).ret = 0 ∧
    ((KVSRadixTree.Open 64).FindOrCreate ⟨2, 3⟩ [1, 2] [7, 8, 9] [] 0).ret = 1 ∧
    ((KVSRadixTree.Open 64).Del ⟨2, 3⟩ [1, 2, 3]).ret = -1 ∧
    ((KVSRadixTree.Open 64).Put ⟨2, 3⟩ [1, 2] [7, 8, 9, 10]).ret = -1 := by
  have h := length_bounds ⟨2, 3⟩ (KVSRadixTree.Open 64)
  have h1 := h.1 [1, 2] [7, 8, 9] (by decide) (by decide) (by decide)
  have h2 := h.2.1 [1, 2, 3] [] [] [] 0 0 (by decide)
  have h3 := h.2.2 [1, 2] [7, 8, 9, 10] [] 0 (by decide)
  refine ⟨h1.1, h1.2.1 [] 0 (by decide), ?_, ?_⟩
  · rw [h2.2.2.1]
  · rw [h3.1]

/-- C7 (buffer too small): in a well-formed state where `k` holds `w`, `Get`
with capacity `cap < |w|` returns -1, writes `|w|` into `val_len`, leaves the
buffer and the state as they were; the retry with the capacity written back
returns 0 with the length and the bytes of `w`. -/
theorem get_buffer_too_small (L : Limits) (s : KVSRadixTree) (k w buf buf2 : Bytes)
    (cap : Nat) (hwf : s.WF L) (hh : s.Holds k w) (hcap : cap < w.length) :
    (s.Get L k buf cap).ret = -1 ∧
    (s.Get L k buf cap).val_len = w.length ∧
    (s.Get L k buf cap).val = buf ∧
    (s.Get L k buf cap).state = s ∧
    ((s.Get L k buf cap).state.Get L k buf2 (s.Get L k buf cap).val_len).ret = 0 ∧
    ((s.Get L k buf cap).state.Get L k buf2 (s.Get L k buf cap).val_len).val_len = w.length ∧
    ((s.Get L k buf cap).state.Get L k buf2 (s.Get L k buf cap).val_len).val.take w.length
      = w := by
  have hk := (WF_valid hwf hh.1).1
  have hm : s.heap.mem (s.tree.get k).gptr = { size := w.length, val := w } := hh.2
  have h2 := Get_of_Holds L s k w buf2 w.length hk hh (le_refl _)
  rw [Get_small L s k buf cap hk hh.1 (by rw [hm]; exact hcap), hm]
  refine ⟨rfl, rfl, rfl, rfl, ?_⟩
  show (s.Get L k buf2 w.length).ret = 0 ∧ (s.Get L k buf2 w.length).val_len = w.length ∧
    (s.Get L k buf2 w.length).val.take w.length = w
  rw [h2]
  exact ⟨rfl, rfl, fam_memcpy_take _ _⟩

theorem get_buffer_too_small_witness :
    (((KVSRadixTree.Open 64).Put ⟨4, 8⟩ [1] [7, 8, 9]).state.Get ⟨4, 8⟩ [1] [0, 0] 2).ret = -1 ∧
    (((KVSRadixTree.Open 64).Put ⟨4, 8⟩ [1] [7, 8, 9]).state.Get ⟨4, 8⟩ [1] [0, 0] 2).val_len
      = 3 := by
  have h := get_buffer_too_small ⟨4, 8⟩ ((KVSRadixTree.Open 64).Put ⟨4, 8⟩ [1] [7, 8, 9]).state
    [1] [7, 8, 9] [0, 0] [0, 0, 0] 2 (by decide) (by decide) (by decide)
  exact ⟨h.1, h.2.1⟩

/-- C8 (not-found reporting): for a key within `kMaxKeyLen` that has no value,
the cached-pointer `Get` returns 0 with `val_ptr` set to an invalid `TagGptr`
and leaves `val` and `val_len` as they were, and the buffer `Get` returns -2. -/
theorem not_found_reporting (L : Limits) (s : KVSRadixTree) (k buf : Bytes) (cap : Nat)
    (key_ptr : Gptr) (val_ptr : TagGptr) (hk : k.length ≤ L.kMaxKeyLen)
    (habs : ¬ (s.tree.get k).IsValid) :
    (s.GetCached L k buf cap key_ptr val_ptr).ret = 0 ∧
    ¬ (s.GetCached L k buf cap key_ptr val_ptr).val_ptr.IsValid ∧
    (s.GetCached L k buf cap key_ptr val_ptr).val = buf ∧
    (s.GetCached L k buf cap key_ptr val_ptr).val_len = cap ∧
    (s.Get L k buf cap).ret = -2 := by
  have hc : ¬ ((s.tree.getC k).2).IsValid := by
    rw [RadixTree.getC_snd]
    exact habs
  have hget : (s.Get L k buf cap).ret = -2 := by
    rw [Get_absent L s k buf cap hk habs]
  have hcached : (s.GetCached L k buf cap key_ptr val_ptr).ret = 0 ∧
      ¬ (s.GetCached L k buf cap key_ptr val_ptr).val_ptr.IsValid ∧
      (s.GetCached L k buf cap key_ptr val_ptr).val = buf ∧
      (s.GetCached L k buf cap key_ptr val_ptr).val_len = cap := by
    unfold KVSRadixTree.GetCached
    rw [if_neg (not_lt.mpr hk)]
    by_cases hkp : Gptr.IsValid (s.tree.getC k).1
    · rw [if_neg (not_not.mpr hkp), if_neg hc]
      exact ⟨rfl, hc, rfl, rfl⟩
    · rw [if_pos hkp]
      exact ⟨rfl, hc, rfl, rfl⟩
  exact ⟨hcached.1, hcached.2.1, hcached.2.2.1, hcached.2.2.2, hget⟩

theorem not_found_reporting_witness :
    (((KVSRadixTree.Open 64).run ⟨4, 8⟩ [Op.Put [1] [5], Op.Del [1]]).GetCached ⟨4, 8⟩ [1]
      [0, 0] 2 7 ⟨9, 3⟩).ret = 0 ∧
    ((KVSRadixTree.Open 64).GetCached ⟨4, 8⟩ [1] [0, 0] 2 7 ⟨9, 3⟩).ret = 0 :=
  ⟨(not_found_reporting ⟨4, 8⟩
      ((KVSRadixTree.Open 64).run ⟨4, 8⟩ [Op.Put [1] [5], Op.Del [1]]) [1] [0, 0] 2 7 ⟨9, 3⟩
      (by decide) (by decide)).1,
   (not_found_reporting ⟨4, 8⟩ (KVSRadixTree.Open 64) [1] [0, 0] 2 7 ⟨9, 3⟩
      (by decide) (by decide)).1⟩

/-- C9 (FindOrCreate inserts when absent): for a key without a value, with the
lengths within bounds and a successful allocation, `FindOrCreate(k, v, ..)`
returns 1, leaves `ret_val` and `ret_len` as they were, schedules no block for
free, and a following `Get(k)` with capacity at least `|v|` returns `v`. -/
theorem find_or_create_inserts (L : Limits) (s : KVSRadixTree) (k v rv buf : Bytes)
    (rl cap : Nat) (hk : k.length ≤ L.kMaxKeyLen) (hv : v.length ≤ L.kMaxValLen)
    (ha : Gptr.IsValid (s.heap.Alloc (v.length + sizeofValBuf)).2)
    (habs : ¬ (s.tree.get k).IsValid) (hcap : v.length ≤ cap) :
    (s.FindOrCreate L k v rv rl).ret = 1 ∧
    (s.FindOrCreate L k v rv rl).ret_val = rv ∧
    (s.FindOrCreate L k v rv rl).ret_len = rl ∧
    (s.FindOrCreate L k v rv rl).state.heap.pending = s.heap.pending ∧
    ((s.FindOrCreate L k v rv rl).state.Get L k buf cap).ret = 0 ∧
    ((s.FindOrCreate L k v rv rl).state.Get L k buf cap).val_len = v.length ∧
    ((s.FindOrCreate L k v rv rl).state.Get L k buf cap).val.take v.length = v := by
  obtain ⟨h0, hsz⟩ := Alloc_valid _ _ ha
  have hg := RadixTree.get_put_foc_absent s.tree k s.heap.next habs
  have hh : (s.FindOrCreate L k v rv rl).state.Holds k v := by
    rw [FindOrCreate_absent L s k v rv rl hk hv h0 hsz habs]
    refine ⟨?_, ?_⟩
    · show ((s.tree.put k s.heap.next UpdateFlags.FIND_OR_CREATE).1.get k).gptr ≠ 0
      rw [hg]
      exact Nat.pos_iff_ne_zero.mp h0
    · show (heapAfter s.heap v none).mem
        ((s.tree.put k s.heap.next UpdateFlags.FIND_OR_CREATE).1.get k).gptr = _
      rw [hg]
      simp [heapAfter]
  rw [Get_of_Holds L _ k v buf cap hk hh hcap,
    FindOrCreate_absent L s k v rv rl hk hv h0 hsz habs]
  exact ⟨rfl, rfl, rfl, rfl, rfl, rfl, fam_memcpy_take _ _⟩

theorem find_or_create_inserts_witness :
    ((KVSRadixTree.Open 64).FindOrCreate ⟨4, 8⟩ [1] [7, 8] [3] 1).ret = 1 ∧
    (((KVSRadixTree.Open 64).FindOrCreate ⟨4, 8⟩ [1] [7, 8] [3] 1).state.Get ⟨4, 8⟩ [1]
      [0, 0] 2).val.take 2 = [7, 8] := by
  have h := find_or_create_inserts ⟨4, 8⟩ (KVSRadixTree.Open 64) [1] [7, 8] [3] [0, 0] 1 2
    (by decide) (by decide) (by decide) (by decide) (by decide)
  exact ⟨h.1, h.2.2.2.2.2.2⟩

/-- C10, as stated, fails: `k` holds `w = [7, 8]`, the bounds hold and the
allocation succeeds, but with `ret_len = 1 < |w|` the call returns -1, not 0,
and copies nothing into `ret_val`. -/
theorem find_or_create_finds_counterexample :
    ((KVSRadixTree.Open 64).Put ⟨4, 8⟩ [5] [7, 8]).state.Holds [5] [7, 8] ∧
    Gptr.IsValid
      (((KVSRadixTree.Open 64).Put ⟨4, 8⟩ [5] [7, 8]).state.heap.Alloc
        ([9].length + sizeofValBuf)).2 ∧
    (((KVSRadixTree.Open 64).Put ⟨4, 8⟩ [5] [7, 8]).state.FindOrCreate ⟨4, 8⟩ [5] [9]
      [0] 1).ret = -1 ∧
    (((KVSRadixTree.Open 64).Put ⟨4, 8⟩ [5] [7, 8]).state.FindOrCreate ⟨4, 8⟩ [5] [9]
      [0] 1).ret_val = [0] := by
  decide

/-- C10 (FindOrCreate finds when present, amended): in a well-formed state where
`k` holds `w`, with the lengths within bounds, a successful allocation and
`ret_len ≥ |w|`, `FindOrCreate(k, v, ..)` returns 0, returns the length and the
bytes of `w` through `ret_len` and `ret_val`, leaves the tree as it was with `k`
still holding `w` (a following `Get(k)` returns `w`), and passes the block just
allocated for `v` to the heap's `Free`. -/
theorem find_or_create_finds (L : Limits) (s : KVSRadixTree) (k w v rv buf : Bytes)
    (rl cap : Nat) (hwf : s.WF L) (hh : s.Holds k w) (hv : v.length ≤ L.kMaxValLen)
    (ha : Gptr.IsValid (s.heap.Alloc (v.length + sizeofValBuf)).2)
    (hrl : w.length ≤ rl) (hcap : w.length ≤ cap) :
    (s.FindOrCreate L k v rv rl).ret = 0 ∧
    (s.FindOrCreate L k v rv rl).ret_len = w.length ∧
    (s.FindOrCreate L k v rv rl).ret_val.take w.length = w ∧
    (s.FindOrCreate L k v rv rl).state.tree = s.tree ∧
    (s.FindOrCreate L k v rv rl).state.Holds k w ∧
    ((s.FindOrCreate L k v rv rl).state.Get L k buf cap).ret = 0 ∧
    ((s.FindOrCreate L k v rv rl).state.Get L k buf cap).val_len = w.length ∧
    ((s.FindOrCreate L k v rv rl).state.Get L k buf cap).val.take w.length = w ∧
    (s.FindOrCreate L k v rv rl).state.heap.pending =
      (s.heap.Alloc (v.length + sizeofValBuf)).2 :: s.heap.pending := by
  obtain ⟨h0, hsz⟩ := Alloc_valid _ _ ha
  have hb := WF_valid hwf hh.1
  have hst : (s.FindOrCreate L k v rv rl) =
      { state := { heap := heapAfter s.heap v (some s.heap.next), tree := s.tree },
        ret := 0, ret_val := fam_memcpy rv w w.length, ret_len := w.length } := by
    rw [FindOrCreate_Holds L s k w v rv rl hwf hh hv h0 hsz, if_neg (not_lt.mpr hrl)]
  have hh2 : (s.FindOrCreate L k v rv rl).state.Holds k w := by
    rw [hst]
    refine Holds_frame _ s k w hh rfl ?_
    simp only [heapAfter]
    rw [if_neg (Nat.ne_of_lt hb.2)]
  have hget := Get_of_Holds L _ k w buf cap hb.1 hh2 hcap
  rw [hget]
  rw [hst] at hh2 ⊢
  rw [Alloc_snd _ _ ha]
  exact ⟨rfl, rfl, fam_memcpy_take _ _, rfl, hh2, rfl, rfl, fam_memcpy_take _ _, rfl⟩

theorem find_or_create_finds_witness :
    (((KVSRadixTree.Open 64).Put ⟨4, 8⟩ [5] [7, 8]).state.FindOrCreate ⟨4, 8⟩ [5] [9]
      [0, 0, 0] 3).ret = 0 ∧
    (((KVSRadixTree.Open 64).Put ⟨4, 8⟩ [5] [7, 8]).state.FindOrCreate ⟨4, 8⟩ [5] [9]
      [0, 0, 0] 3).ret_val.take 2 = [7, 8] := by
  have h := find_or_create_finds ⟨4, 8⟩ ((KVSRadixTree.Open 64).Put ⟨4, 8⟩ [5] [7, 8]).state
    [5] [7, 8] [9] [0, 0, 0] [0, 0] 3 2 (by decide) (by decide) (by decide) (by decide)
    (by decide) (by decide)
  exact ⟨h.1, h.2.2.1⟩

/-! ## Lemmas on the cached-pointer overloads -/

namespace KVSRadixTree

theorem nodeAt_mem {key_ptr : Gptr} {ns : List KeyNode} {n : KeyNode}
    (h : nodeAt key_ptr ns = some n) : n ∈ ns := by
  induction ns generalizing key_ptr with
  | nil => simp [nodeAt] at h
  | cons m ms ih =>
    unfold nodeAt at h
    split at h
    · simp at h
    · split at h
      · cases h
        exact List.mem_cons_self _ _
      · exact List.mem_cons_of_mem _ (ih h)

theorem putC_ptr_old (t : RadixTree) (key_ptr g : Gptr) :
    (t.putC_ptr key_ptr g).old_value = t.getC_ptr key_ptr := by
  unfold RadixTree.putC_ptr RadixTree.getC_ptr
  cases nodeAt key_ptr t.nodes <;> rfl

theorem allocFor_eq (s : KVSRadixTree) (v : Bytes) :
    s.allocFor v =
      if 0 < s.heap.next ∧ s.heap.next + (v.length + sizeofValBuf) ≤ s.heap.size then
        s.heap.next
      else 0 := by
  unfold KVSRadixTree.allocFor Heap.Alloc
  split <;> rfl

/-- The cached-pointer `Put` by key changes the state and returns the result
exactly as `Put` by key does. -/
theorem PutCached_eq_Put (L : Limits) (s : KVSRadixTree) (k v : Bytes) (kp : Gptr)
    (vp : TagGptr) :
    (s.PutCached L k v kp vp).state = (s.Put L k v).state ∧
    (s.PutCached L k v kp vp).ret = (s.Put L k v).ret := by
  unfold KVSRadixTree.PutCached KVSRadixTree.Put RadixTree.putC
  simp only
  split_ifs <;> exact ⟨rfl, rfl⟩

theorem PutPtr_ok (L : Limits) (s : KVSRadixTree) (kp : Gptr) (vp : TagGptr) (v : Bytes)
    (hv : v.length ≤ L.kMaxValLen) (h0 : 0 < s.heap.next)
    (hsz : s.heap.next + (v.length + sizeofValBuf) ≤ s.heap.size) :
    s.PutPtr L kp vp v =
      { state :=
          { heap := heapAfter s.heap v
              (if (s.tree.getC_ptr kp).IsValid then some (s.tree.getC_ptr kp).gptr else none),
            tree := (s.tree.putC_ptr kp s.heap.next).tree },
        ret := 0,
        val_ptr := (s.tree.putC_ptr kp s.heap.next).val_ptr } := by
  have hne : s.heap.next ≠ 0 := Nat.pos_iff_ne_zero.mp h0
  unfold KVSRadixTree.PutPtr Heap.Alloc
  simp only [not_lt.mpr hv, if_false, gt_iff_lt, h0, hsz, and_self, if_true,
    putC_ptr_old, Gptr.IsValid, ne_eq, hne, not_false_eq_true, not_true_eq_false]
  by_cases hval : (s.tree.getC_ptr kp).IsValid
  · simp [hval, heapAfter, Heap.store, Heap.Free]
  · simp [hval, heapAfter, Heap.store]

theorem PutPtr_fail (L : Limits) (s : KVSRadixTree) (kp : Gptr) (vp : TagGptr) (v : Bytes)
    (h : ¬ (v.length ≤ L.kMaxValLen ∧ 0 < s.heap.next ∧
      s.heap.next + (v.length + sizeofValBuf) ≤ s.heap.size)) :
    s.PutPtr L kp vp v = { state := s, ret := -1, val_ptr := vp } := by
  unfold KVSRadixTree.PutPtr Heap.Alloc
  by_cases hv : v.length ≤ L.kMaxValLen
  · have ha : ¬ (0 < s.heap.next ∧ s.heap.next + (v.length + sizeofValBuf) ≤ s.heap.size) :=
      fun hc => h ⟨hv, hc⟩
    simp [not_lt.mpr hv, ha]
  · simp [not_le.mp hv]

/-- What `Put` by key leaves on the deferred-free list. -/
theorem Put_pending (L : Limits) (s : KVSRadixTree) (k v : Bytes) :
    (s.Put L k v).state.heap.pending =
      if (s.Put L k v).ret = 0 ∧ (s.tree.get k).IsValid then
        (s.tree.get k).gptr :: s.heap.pending
      else s.heap.pending := by
  by_cases hc : k.length ≤ L.kMaxKeyLen ∧ v.length ≤ L.kMaxValLen ∧ 0 < s.heap.next ∧
      s.heap.next + (v.length + sizeofValBuf) ≤ s.heap.size
  · obtain ⟨hk, hv, h0, hsz⟩ := hc
    rw [Put_ok L s k v hk hv h0 hsz]
    by_cases hval : (s.tree.get k).IsValid
    · simp [heapAfter, hval]
    · simp [heapAfter, hval]
  · rw [Put_fail L s k v hc]
    simp

/-- What `Put` by key-node pointer leaves on the deferred-free list. -/
theorem PutPtr_pending (L : Limits) (s : KVSRadixTree) (kp : Gptr) (vp : TagGptr)
    (v : Bytes) :
    (s.PutPtr L kp vp v).state.heap.pending =
      if (s.PutPtr L kp vp v).ret = 0 ∧ (s.tree.getC_ptr kp).IsValid then
        (s.tree.getC_ptr kp).gptr :: s.heap.pending
      else s.heap.pending := by
  by_cases hc : v.length ≤ L.kMaxValLen ∧ 0 < s.heap.next ∧
      s.heap.next + (v.length + sizeofValBuf) ≤ s.heap.size
  · obtain ⟨hv, h0, hsz⟩ := hc
    rw [PutPtr_ok L s kp vp v hv h0 hsz]
    by_cases hval : (s.tree.getC_ptr kp).IsValid
    · simp [heapAfter, hval]
    · simp [heapAfter, hval]
  · rw [PutPtr_fail L s kp vp v hc]
    simp

/-- In a well-formed state the block a key node links is not the one the heap
hands out next. -/
theorem WF_ne_alloc {L : Limits} {s : KVSRadixTree} (hwf : s.WF L) (v : Bytes)
    {n : KeyNode} (hn : n ∈ s.tree.nodes) (hval : n.slot.IsValid) :
    n.slot.gptr ≠ s.allocFor v := by
  rw [allocFor_eq]
  split
  · exact Nat.ne_of_lt ((hwf n hn).2 hval).1
  · exact hval

end KVSRadixTree

/-- C11 (deferred free exactly on replacement).  For each `Put` overload the
deferred-free list after the call is the list before it, with the address of
the displaced value the tree reported put in front exactly when the call
returned 0 and that value is valid; so `Free` is called at most once, and a
`Put` on a key (or key node) without a previous value frees nothing.  The
displaced value is the one the key or key node had, and in a well-formed state
its block is never the block allocated by the call.  With lengths within the
bounds and a successful allocation every overload returns 0, so that on a key
(or key node) with a valid previous value each of them passes exactly that
value's address to `Free`. -/
theorem deferred_free_on_replacement (L : Limits) (s : KVSRadixTree) (k v : Bytes)
    (key_ptr : Gptr) (val_ptr : TagGptr) :
    ((s.Put L k v).state.heap.pending =
      if (s.Put L k v).ret = 0 ∧
          (s.tree.put k (s.allocFor v) UpdateFlags.UPDATE).2.IsValid then
        (s.tree.put k (s.allocFor v) UpdateFlags.UPDATE).2.gptr :: s.heap.pending
      else s.heap.pending) ∧
    ((s.PutCached L k v key_ptr val_ptr).state.heap.pending =
      if (s.PutCached L k v key_ptr val_ptr).ret = 0 ∧
          (s.tree.putC k (s.allocFor v)).old_value.IsValid then
        (s.tree.putC k (s.allocFor v)).old_value.gptr :: s.heap.pending
      else s.heap.pending) ∧
    ((s.PutPtr L key_ptr val_ptr v).state.heap.pending =
      if (s.PutPtr L key_ptr val_ptr v).ret = 0 ∧
          (s.tree.putC_ptr key_ptr (s.allocFor v)).old_value.IsValid then
        (s.tree.putC_ptr key_ptr (s.allocFor v)).old_value.gptr :: s.heap.pending
      else s.heap.pending) ∧
    (s.tree.put k (s.allocFor v) UpdateFlags.UPDATE).2 = s.tree.get k ∧
    (s.tree.putC k (s.allocFor v)).old_value = s.tree.get k ∧
    (s.tree.putC_ptr key_ptr (s.allocFor v)).old_value = s.tree.getC_ptr key_ptr ∧
    (¬ (s.tree.get k).IsValid →
      (s.Put L k v).state.heap.pending = s.heap.pending ∧
      (s.PutCached L k v key_ptr val_ptr).state.heap.pending = s.heap.pending) ∧
    (¬ (s.tree.getC_ptr key_ptr).IsValid →
      (s.PutPtr L key_ptr val_ptr v).state.heap.pending = s.heap.pending) ∧
    (s.WF L →
      ((s.tree.get k).IsValid → (s.tree.get k).gptr ≠ s.allocFor v) ∧
      ((s.tree.getC_ptr key_ptr).IsValid → (s.tree.getC_ptr key_ptr).gptr ≠ s.allocFor v)) ∧
    (k.length ≤ L.kMaxKeyLen → v.length ≤ L.kMaxValLen → Gptr.IsValid (s.allocFor v) →
      (s.Put L k v).ret = 0 ∧ (s.PutCached L k v key_ptr val_ptr).ret = 0 ∧
      ((s.tree.get k).IsValid →
        (s.Put L k v).state.heap.pending = (s.tree.get k).gptr :: s.heap.pending ∧
        (s.PutCached L k v key_ptr val_ptr).state.heap.pending
          = (s.tree.get k).gptr :: s.heap.pending)) ∧
    (v.length ≤ L.kMaxValLen → Gptr.IsValid (s.allocFor v) →
      (s.PutPtr L key_ptr val_ptr v).ret = 0 ∧
      ((s.tree.getC_ptr key_ptr).IsValid →
        (s.PutPtr L key_ptr val_ptr v).state.heap.pending
          = (s.tree.getC_ptr key_ptr).gptr :: s.heap.pending)) := by
  have hput : (s.tree.put k (s.allocFor v) UpdateFlags.UPDATE).2 = s.tree.get k :=
    RadixTree.put_snd _ _ _ _
  have hputC : (s.tree.putC k (s.allocFor v)).old_value = s.tree.get k :=
    RadixTree.put_snd _ _ _ _
  have hptr := putC_ptr_old s.tree key_ptr (s.allocFor v)
  have hc := PutCached_eq_Put L s k v key_ptr val_ptr
  have h1 := Put_pending L s k v
  have h3 := PutPtr_pending L s key_ptr val_ptr v
  refine ⟨?_, ?_, ?_, hput, hputC, hptr, fun habs => ?_, fun habs => ?_, fun hwf => ⟨?_, ?_⟩,
    fun hk hv ha => ?_, fun hv ha => ?_⟩
  · rw [hput]
    exact h1
  · rw [hputC, hc.1, hc.2]
    exact h1
  · rw [hptr]
    exact h3
  · rw [hc.1, h1, if_neg (fun h => habs h.2)]
    exact ⟨rfl, rfl⟩
  · rw [h3, if_neg (fun h => habs h.2)]
  · intro hval
    unfold RadixTree.get at hval ⊢
    cases hf : findNode k s.tree.nodes with
    | none =>
      rw [hf] at hval
      exact absurd rfl hval
    | some n =>
      rw [hf] at hval
      exact WF_ne_alloc hwf v (findNode_mem hf) hval
  · intro hval
    unfold RadixTree.getC_ptr at hval ⊢
    cases hf : nodeAt key_ptr s.tree.nodes with
    | none =>
      rw [hf] at hval
      exact absurd rfl hval
    | some n =>
      rw [hf] at hval
      exact WF_ne_alloc hwf v (nodeAt_mem hf) hval
  · obtain ⟨h0, hsz⟩ := Alloc_valid _ _ ha
    have hret : (s.Put L k v).ret = 0 := by rw [Put_ok L s k v hk hv h0 hsz]
    refine ⟨hret, hc.2.trans hret, fun hval => ?_⟩
    rw [hc.1, h1, if_pos ⟨hret, hval⟩]
    exact ⟨rfl, rfl⟩
  · obtain ⟨h0, hsz⟩ := Alloc_valid _ _ ha
    have hret : (s.PutPtr L key_ptr val_ptr v).ret = 0 := by
      rw [PutPtr_ok L s key_ptr val_ptr v hv h0 hsz]
    refine ⟨hret, fun hval => ?_⟩
    rw [h3, if_pos ⟨hret, hval⟩]

theorem deferred_free_on_replacement_witness :
    (((KVSRadixTree.Open 64).Put ⟨4, 8⟩ [1] [5]).state.Put ⟨4, 8⟩ [1] [6]).state.heap.pending
      = [1] ∧
    (((KVSRadixTree.Open 64).Put ⟨4, 8⟩ [1] [5]).state.PutPtr ⟨4, 8⟩ 1 ⟨0, 0⟩
      [6]).state.heap.pending = [1] ∧
    (((KVSRadixTree.Open 64).Put ⟨4, 8⟩ [1] [5]).state.PutCached ⟨4, 8⟩ [1] [6] 1
      ⟨0, 0⟩).ret = 0 ∧
    (((KVSRadixTree.Open 64).Put ⟨4, 8⟩ [1] [5]).state.PutCached ⟨4, 8⟩ [1] [6] 1
      ⟨0, 0⟩).state.heap.pending = [1] ∧
    (((KVSRadixTree.Open 64).Put ⟨4, 8⟩ [1] [5]).state.PutCached ⟨4, 8⟩ [2] [6] 0
      ⟨0, 0⟩).ret = 0 ∧
    (((KVSRadixTree.Open 64).Put ⟨4, 8⟩ [1] [5]).state.PutCached ⟨4, 8⟩ [2] [6] 0
      ⟨0, 0⟩).state.heap.pending = [] ∧
    (((KVSRadixTree.Open 64).Put ⟨4, 8⟩ [1] [5]).state.tree.get [1]).gptr ≠
      ((KVSRadixTree.Open 64).Put ⟨4, 8⟩ [1] [5]).state.allocFor [6] := by
  have h := deferred_free_on_replacement ⟨4, 8⟩
    ((KVSRadixTree.Open 64).Put ⟨4, 8⟩ [1] [5]).state [1] [6] 1 ⟨0, 0⟩
  have h2 := deferred_free_on_replacement ⟨4, 8⟩
    ((KVSRadixTree.Open 64).Put ⟨4, 8⟩ [1] [5]).state [2] [6] 0 ⟨0, 0⟩
  have h3 := h.2.2.2.2.2.2.2.2.2.1 (by decide) (by decide) (by decide)
  have h4 := h.2.2.2.2.2.2.2.2.2.2 (by decide) (by decide)
  refine ⟨(h3.2.2 (by decide)).1, h4.2 (by decide), h3.2.1, (h3.2.2 (by decide)).2,
    (h2.2.2.2.2.2.2.2.2.2.1 (by decide) (by decide) (by decide)).2.1,
    (h2.2.2.2.2.2.2.1 (by decide)).2, (h.2.2.2.2.2.2.2.2.1 (by decide)).1 (by decide)⟩

/-! ## Lemmas on the ownership invariant -/

theorem distinct_symm : Symmetric Distinct :=
  fun _ _ h hb ha => (h ha hb).symm

theorem pairwise_setSlot {key : Bytes} {v : TagGptr} {ns : List KeyNode}
    (hP : ns.Pairwise Distinct)
    (hv : ∀ m ∈ ns, m.slot.IsValid → v.IsValid → m.slot.gptr ≠ v.gptr) :
    (setSlot key v ns).Pairwise Distinct := by
  induction ns with
  | nil => simp [setSlot]
  | cons a as ih =>
    rw [List.pairwise_cons] at hP
    by_cases hk : a.key = key
    · rw [setSlot, if_pos hk, List.pairwise_cons]
      refine ⟨fun b hb hva hvb => ?_, hP.2⟩
      exact (hv b (List.mem_cons_of_mem _ hb) hvb hva).symm
    · rw [setSlot, if_neg hk, List.pairwise_cons]
      refine ⟨fun b hb => ?_, ih hP.2 (fun m hm => hv m (List.mem_cons_of_mem _ hm))⟩
      rcases mem_setSlot hb with h1 | ⟨_, _, h3⟩
      · exact hP.1 b h1
      · intro ha hvb
        rw [h3] at hvb ⊢
        exact hv a (List.mem_cons_self _ _) ha hvb

theorem setSlot_mem_old {key : Bytes} {v : TagGptr} {ns : List KeyNode} {n m : KeyNode}
    (hP : ns.Pairwise Distinct) (hf : findNode key ns = some n)
    (hm : m ∈ setSlot key v ns) :
    m.slot = v ∨
      (m ∈ ns ∧ (n.slot.IsValid → m.slot.IsValid → m.slot.gptr ≠ n.slot.gptr)) := by
  induction ns with
  | nil => simp [findNode] at hf
  | cons a as ih =>
    rw [List.pairwise_cons] at hP
    by_cases hk : a.key = key
    · rw [findNode, if_pos hk] at hf
      cases hf
      rw [setSlot, if_pos hk] at hm
      rcases List.mem_cons.mp hm with h1 | h1
      · left
        rw [h1]
      · right
        exact ⟨List.mem_cons_of_mem _ h1, fun hn hmv => (hP.1 m h1 hn hmv).symm⟩
    · rw [findNode, if_neg hk] at hf
      rw [setSlot, if_neg hk] at hm
      rcases List.mem_cons.mp hm with h1 | h1
      · right
        rw [h1]
        exact ⟨List.mem_cons_self _ _, fun hn hmv => hP.1 n (findNode_mem hf) hmv hn⟩
      · rcases ih hP.2 hf h1 with h2 | ⟨h2, h3⟩
        · exact Or.inl h2
        · exact Or.inr ⟨List.mem_cons_of_mem _ h2, h3⟩

theorem pairwise_put (t : RadixTree) (k : Bytes) (g : Gptr) (pol : UpdateFlags)
    (hP : t.nodes.Pairwise Distinct)
    (hfresh : ∀ m ∈ t.nodes, m.slot.IsValid → m.slot.gptr ≠ g) :
    (t.put k g pol).1.nodes.Pairwise Distinct := by
  unfold RadixTree.put
  cases hf : findNode k t.nodes with
  | none =>
    simp only
    rw [List.pairwise_append]
    refine ⟨hP, List.pairwise_singleton _ _, fun a ha b hb hva _ => ?_⟩
    rw [List.mem_singleton.mp hb]
    exact hfresh a ha hva
  | some n =>
    simp only
    split
    · exact hP
    · exact pairwise_setSlot hP (fun m hm hmv _ => hfresh m hm hmv)

theorem put_update_mem (t : RadixTree) (k : Bytes) (g : Gptr)
    (hP : t.nodes.Pairwise Distinct) {m : KeyNode}
    (hm : m ∈ (t.put k g UpdateFlags.UPDATE).1.nodes) :
    m.slot.gptr = g ∨
      (m ∈ t.nodes ∧
        ((t.get k).IsValid → m.slot.IsValid → m.slot.gptr ≠ (t.get k).gptr)) := by
  unfold RadixTree.put at hm
  unfold RadixTree.get
  cases hf : findNode k t.nodes with
  | none =>
    rw [hf] at hm
    simp only [List.mem_append, List.mem_singleton] at hm
    rcases hm with h | h
    · exact Or.inr ⟨h, fun hv => absurd rfl hv⟩
    · left
      rw [h]
  | some n =>
    rw [hf] at hm
    simp only [reduceCtorEq, false_and, if_false] at hm
    rcases setSlot_mem_old hP hf hm with h1 | h1
    · left
      rw [h1]
    · exact Or.inr h1

theorem pairwise_destroy (t : RadixTree) (k : Bytes) (hP : t.nodes.Pairwise Distinct) :
    (t.destroy k).1.nodes.Pairwise Distinct := by
  unfold RadixTree.destroy
  cases hf : findNode k t.nodes with
  | none => exact hP
  | some n =>
    simp only
    split
    · exact pairwise_setSlot hP (fun _ _ _ hv => absurd rfl hv)
    · exact hP

theorem destroy_mem (t : RadixTree) (k : Bytes) (hP : t.nodes.Pairwise Distinct)
    {m : KeyNode} (hm : m ∈ (t.destroy k).1.nodes) :
    m.slot.gptr = 0 ∨
      (m ∈ t.nodes ∧
        ((t.get k).IsValid → m.slot.IsValid → m.slot.gptr ≠ (t.get k).gptr)) := by
  unfold RadixTree.destroy at hm
  unfold RadixTree.get
  cases hf : findNode k t.nodes with
  | none =>
    rw [hf] at hm
    exact Or.inr ⟨hm, fun hv => absurd rfl hv⟩
  | some n =>
    rw [hf] at hm
    simp only at hm
    split at hm
    · rcases setSlot_mem_old hP hf hm with h1 | h1
      · left
        rw [h1]
      · exact Or.inr h1
    · rename_i hinv
      exact Or.inr ⟨hm, fun hv => absurd hv hinv⟩

namespace KVSRadixTree

/-- Under the ownership invariant the block of a key with a valid value pointer
has been handed out and has not been passed to `Free`. -/
theorem Own_valid {s : KVSRadixTree} (ho : s.Own) {k : Bytes}
    (hval : (s.tree.get k).IsValid) :
    (s.tree.get k).gptr < s.heap.next ∧ (s.tree.get k).gptr ∉ s.heap.pending := by
  unfold RadixTree.get at hval ⊢
  cases hf : findNode k s.tree.nodes with
  | none =>
    rw [hf] at hval
    exact absurd rfl hval
  | some n =>
    rw [hf] at hval
    exact ho.2.1 n (findNode_mem hf) hval

theorem Own_Open (heap_size : Nat) : (KVSRadixTree.Open heap_size).Own :=
  ⟨List.Pairwise.nil, fun _ hn => absurd hn (List.not_mem_nil _),
    fun _ hg => absurd hg (List.not_mem_nil _), List.nodup_nil⟩

theorem Own_Put {s : KVSRadixTree} (ho : s.Own) (L : Limits) (k v : Bytes) :
    (s.Put L k v).state.Own := by
  by_cases hc : k.length ≤ L.kMaxKeyLen ∧ v.length ≤ L.kMaxValLen ∧ 0 < s.heap.next ∧
      s.heap.next + (v.length + sizeofValBuf) ≤ s.heap.size
  · obtain ⟨hk, hv, h0, hsz⟩ := hc
    rw [Put_ok L s k v hk hv h0 hsz]
    obtain ⟨hP, hL, hF, hN⟩ := ho
    have hnext : s.heap.next ∉ s.heap.pending := fun h => lt_irrefl _ (hF _ h)
    have hlt := fresh_lt s.heap v
    by_cases hval : (s.tree.get k).IsValid
    · have hold := Own_valid ⟨hP, hL, hF, hN⟩ hval
      rw [if_pos hval]
      simp only [heapAfter]
      refine ⟨pairwise_put _ _ _ _ hP (fun m hm hmv => Nat.ne_of_lt (hL m hm hmv).1),
        fun m hm hmv => ?_, fun g hg => ?_, List.nodup_cons.mpr ⟨hold.2, hN⟩⟩
      · rcases put_update_mem _ _ _ hP hm with h1 | ⟨h1, h2⟩
        · rw [h1]
          refine ⟨hlt, fun hin => ?_⟩
          rcases List.mem_cons.mp hin with h3 | h3
          · exact absurd h3.symm (Nat.ne_of_lt hold.1)
          · exact hnext h3
        · refine ⟨lt_trans (hL m h1 hmv).1 hlt, fun hin => ?_⟩
          rcases List.mem_cons.mp hin with h3 | h3
          · exact h2 hval hmv h3
          · exact (hL m h1 hmv).2 h3
      · rcases List.mem_cons.mp hg with h3 | h3
        · rw [h3]
          exact lt_trans hold.1 hlt
        · exact lt_trans (hF g h3) hlt
    · rw [if_neg hval]
      simp only [heapAfter]
      refine ⟨pairwise_put _ _ _ _ hP (fun m hm hmv => Nat.ne_of_lt (hL m hm hmv).1),
        fun m hm hmv => ?_, fun g hg => lt_trans (hF g hg) hlt, hN⟩
      rcases put_update_mem _ _ _ hP hm with h1 | ⟨h1, _⟩
      · rw [h1]
        exact ⟨hlt, hnext⟩
      · exact ⟨lt_trans (hL m h1 hmv).1 hlt, (hL m h1 hmv).2⟩
  · rw [Put_fail L s k v hc]
    exact ho

theorem Own_Del {s : KVSRadixTree} (ho : s.Own) (L : Limits) (k : Bytes) :
    (s.Del L k).state.Own := by
  by_cases hk : k.length ≤ L.kMaxKeyLen
  · by_cases hval : (s.tree.get k).IsValid
    · rw [Del_present L s k hk hval]
      have hold := Own_valid ho hval
      obtain ⟨hP, hL, hF, hN⟩ := ho
      simp only [Heap.Free]
      refine ⟨pairwise_destroy _ _ hP, fun m hm hmv => ?_, fun g hg => ?_,
        List.nodup_cons.mpr ⟨hold.2, hN⟩⟩
      · rcases destroy_mem _ _ hP hm with h1 | ⟨h1, h2⟩
        · exact absurd h1 hmv
        · refine ⟨(hL m h1 hmv).1, fun hin => ?_⟩
          rcases List.mem_cons.mp hin with h3 | h3
          · exact h2 hval hmv h3
          · exact (hL m h1 hmv).2 h3
      · rcases List.mem_cons.mp hg with h3 | h3
        · rw [h3]
          exact hold.1
        · exact hF g h3
    · rw [Del_absent L s k hk hval]
      exact ho
  · rw [Del_long L s k (not_le.mp hk)]
    exact ho

theorem Own_FindOrCreate {s : KVSRadixTree} (ho : s.Own) (L : Limits) (k v rv : Bytes)
    (rl : Nat) : (s.FindOrCreate L k v rv rl).state.Own := by
  by_cases hc : k.length ≤ L.kMaxKeyLen ∧ v.length ≤ L.kMaxValLen ∧ 0 < s.heap.next ∧
      s.heap.next + (v.length + sizeofValBuf) ≤ s.heap.size
  · obtain ⟨hk, hv, h0, hsz⟩ := hc
    obtain ⟨hP, hL, hF, hN⟩ := ho
    have hnext : s.heap.next ∉ s.heap.pending := fun h => lt_irrefl _ (hF _ h)
    have hlt := fresh_lt s.heap v
    by_cases hval : (s.tree.get k).IsValid
    · rw [FindOrCreate_present L s k v rv rl hk hv h0 hsz hval]
      have key : ({ heap := heapAfter s.heap v (some s.heap.next), tree := s.tree } :
          KVSRadixTree).Own := by
        simp only [heapAfter]
        refine ⟨hP, fun m hm hmv => ?_, fun g hg => ?_, List.nodup_cons.mpr ⟨hnext, hN⟩⟩
        · refine ⟨lt_trans (hL m hm hmv).1 hlt, fun hin => ?_⟩
          rcases List.mem_cons.mp hin with h3 | h3
          · exact absurd h3 (Nat.ne_of_lt (hL m hm hmv).1)
          · exact (hL m hm hmv).2 h3
        · rcases List.mem_cons.mp hg with h3 | h3
          · rw [h3]
            exact hlt
          · exact lt_trans (hF g h3) hlt
      split <;> exact key
    · rw [FindOrCreate_absent L s k v rv rl hk hv h0 hsz hval]
      simp only [heapAfter]
      refine ⟨pairwise_put _ _ _ _ hP (fun m hm hmv => Nat.ne_of_lt (hL m hm hmv).1),
        fun m hm hmv => ?_, fun g hg => lt_trans (hF g hg) hlt, hN⟩
      rcases put_nodes_mem _ _ _ _ hm with h1 | ⟨_, h1⟩
      · exact ⟨lt_trans (hL m h1 hmv).1 hlt, (hL m h1 hmv).2⟩
      · rw [h1]
        exact ⟨hlt, hnext⟩
  · rw [FindOrCreate_fail L s k v rv rl hc]
    exact ho

theorem Own_step {s : KVSRadixTree} (ho : s.Own) (L : Limits) (op : Op) :
    (s.step L op).Own := by
  cases op with
  | Put key val => exact Own_Put ho L key val
  | Del key => exact Own_Del ho L key
  | FindOrCreate key val rv rl => exact Own_FindOrCreate ho L key val rv rl

theorem Own_run (L : Limits) (ops : List Op) {s : KVSRadixTree} (ho : s.Own) :
    (s.run L ops).Own := by
  induction ops generalizing s with
  | nil => exact ho
  | cons op ops ih => exact ih (Own_step ho L op)

/-- Under the ownership invariant a linked block is linked under one key only. -/
theorem Own_one_key {s : KVSRadixTree} (ho : s.Own) {k1 k2 : Bytes}
    (hval : (s.tree.get k1).IsValid)
    (heq : (s.tree.get k1).gptr = (s.tree.get k2).gptr) : k1 = k2 := by
  by_contra hne
  have hval2 : (s.tree.get k2).IsValid := by
    show (s.tree.get k2).gptr ≠ 0
    rw [← heq]
    exact hval
  unfold RadixTree.get at hval hval2 heq
  cases hf1 : findNode k1 s.tree.nodes with
  | none =>
    rw [hf1] at hval
    exact absurd rfl hval
  | some n1 =>
    cases hf2 : findNode k2 s.tree.nodes with
    | none =>
      rw [hf2] at hval2
      exact absurd rfl hval2
    | some n2 =>
      rw [hf1] at hval heq
      rw [hf2] at hval2 heq
      have hnn : n1 ≠ n2 := by
        intro h
        apply hne
        rw [← findNode_key hf1, ← findNode_key hf2, h]
      exact ho.1.forall distinct_symm (findNode_mem hf1) (findNode_mem hf2) hnn hval hval2 heq

end KVSRadixTree

/-- C12 (value-block ownership): after any sequence of `Put`, `Del` and
`FindOrCreate` calls on a newly opened store, a block linked in the tree is linked
under exactly one key (two keys whose value pointers have the same valid address
are the same key), and no block linked in the tree is on the list of blocks
passed to `Free`. -/
theorem value_block_ownership (L : Limits) (heap_size : Nat) (ops : List Op) :
    (∀ k1 k2 : Bytes, (((KVSRadixTree.Open heap_size).run L ops).tree.get k1).IsValid →
      (((KVSRadixTree.Open heap_size).run L ops).tree.get k1).gptr =
        (((KVSRadixTree.Open heap_size).run L ops).tree.get k2).gptr → k1 = k2) ∧
    (∀ k : Bytes, (((KVSRadixTree.Open heap_size).run L ops).tree.get k).IsValid →
      (((KVSRadixTree.Open heap_size).run L ops).tree.get k).gptr ∉
        ((KVSRadixTree.Open heap_size).run L ops).heap.pending) := by
  have ho := Own_run L ops (Own_Open heap_size)
  exact ⟨fun k1 k2 hval heq => Own_one_key ho hval heq, fun k hval => (Own_valid ho hval).2⟩

theorem value_block_ownership_witness :
    (((KVSRadixTree.Open 64).run ⟨4, 8⟩
        [Op.Put [1] [5], Op.Put [2] [6], Op.Put [1] [7], Op.Del [2],
         Op.FindOrCreate [1] [8] [] 0]).tree.get [1]).gptr ∉
      ((KVSRadixTree.Open 64).run ⟨4, 8⟩
        [Op.Put [1] [5], Op.Put [2] [6], Op.Put [1] [7], Op.Del [2],
         Op.FindOrCreate [1] [8] [] 0]).heap.pending :=
  (value_block_ownership ⟨4, 8⟩ 64
    [Op.Put [1] [5], Op.Put [2] [6], Op.Put [1] [7], Op.Del [2],
     Op.FindOrCreate [1] [8] [] 0]).2 [1] (by decide)

/-- C13 (freshness check by tag equality), for `val_len ≤ kMaxValLen`.  If
`get_value` is false and the cached `val_ptr` has the address and the tag of
the current value pointer of the key node, `Get` by key-node pointer returns 0
and leaves `val_ptr`, `val` and `val_len` as they were.  Otherwise, whenever it
returns 0, `val_ptr` is the current value pointer, and if that pointer is valid
`val_len` is the `size` of its block and `val` starts with that many bytes of
the block (with `w` itself when the block is the `ValBuf` of `w`). -/
theorem freshness_check (L : Limits) (s : KVSRadixTree) (key_ptr : Gptr) (val_ptr : TagGptr)
    (val : Bytes) (val_len : Nat) (get_value : Bool) (hlen : val_len ≤ L.kMaxValLen) :
    (get_value = false → val_ptr.gptr = (s.tree.getC_ptr key_ptr).gptr →
      val_ptr.tag = (s.tree.getC_ptr key_ptr).tag →
      (s.GetPtr L key_ptr val_ptr val val_len get_value).ret = 0 ∧
      (s.GetPtr L key_ptr val_ptr val val_len get_value).val_ptr = val_ptr ∧
      (s.GetPtr L key_ptr val_ptr val val_len get_value).val = val ∧
      (s.GetPtr L key_ptr val_ptr val val_len get_value).val_len = val_len) ∧
    (¬ (get_value = false ∧ val_ptr.gptr = (s.tree.getC_ptr key_ptr).gptr ∧
        val_ptr.tag = (s.tree.getC_ptr key_ptr).tag) →
      (s.GetPtr L key_ptr val_ptr val val_len get_value).ret = 0 →
      (s.GetPtr L key_ptr val_ptr val val_len get_value).val_ptr = s.tree.getC_ptr key_ptr ∧
      ((s.tree.getC_ptr key_ptr).IsValid →
        (s.GetPtr L key_ptr val_ptr val val_len get_value).val_len =
          (s.heap.mem (s.tree.getC_ptr key_ptr).gptr).size ∧
        (s.GetPtr L key_ptr val_ptr val val_len get_value).val =
          fam_memcpy val (s.heap.mem (s.tree.getC_ptr key_ptr).gptr).val
            (s.heap.mem (s.tree.getC_ptr key_ptr).gptr).size ∧
        (∀ w : Bytes,
          s.heap.mem (s.tree.getC_ptr key_ptr).gptr = { size := w.length, val := w } →
          (s.GetPtr L key_ptr val_ptr val val_len get_value).val_len = w.length ∧
          (s.GetPtr L key_ptr val_ptr val val_len get_value).val.take w.length = w))) := by
  have hfld : ∀ a b : TagGptr, a = b ↔ (b.gptr = a.gptr ∧ b.tag = a.tag) := by
    intro a b
    constructor
    · intro h
      rw [h]
      exact ⟨rfl, rfl⟩
    · intro h
      cases a
      cases b
      simp only at h
      rw [h.1, h.2]
  refine ⟨fun hg h1 h2 => ?_, fun hne hret => ?_⟩
  · have heq : s.tree.getC_ptr key_ptr = val_ptr := (hfld _ _).mpr ⟨h1, h2⟩
    unfold KVSRadixTree.GetPtr
    rw [if_neg (not_lt.mpr hlen), if_pos ⟨heq, hg⟩]
    exact ⟨rfl, rfl, rfl, rfl⟩
  · have hne2 : ¬ (s.tree.getC_ptr key_ptr = val_ptr ∧ get_value = false) :=
      fun h => hne ⟨h.2, (hfld _ _).mp h.1⟩
    unfold KVSRadixTree.GetPtr at hret ⊢
    rw [if_neg (not_lt.mpr hlen), if_neg hne2] at hret ⊢
    by_cases hval : (s.tree.getC_ptr key_ptr).IsValid
    · rw [if_pos hval] at hret ⊢
      by_cases hsmall : val_len < (s.heap.GlobalToLocal (s.tree.getC_ptr key_ptr).gptr).size
      · rw [if_pos hsmall] at hret
        simp at hret
      · rw [if_neg hsmall]
        refine ⟨rfl, fun _ => ⟨rfl, rfl, fun w hw => ?_⟩⟩
        simp only [Heap.GlobalToLocal]
        rw [hw]
        exact ⟨rfl, fam_memcpy_take _ _⟩
    · rw [if_neg hval]
      exact ⟨rfl, fun h => absurd h hval⟩

theorem freshness_check_witness :
    (((KVSRadixTree.Open 64).Put ⟨4, 8⟩ [1] [5, 6]).state.GetPtr ⟨4, 8⟩ 1 ⟨1, 1⟩ [0, 0, 0] 3
      false).val = [0, 0, 0] ∧
    (((KVSRadixTree.Open 64).Put ⟨4, 8⟩ [1] [5, 6]).state.GetPtr ⟨4, 8⟩ 1 ⟨1, 0⟩ [0, 0, 0] 3
      false).val.take 2 = [5, 6] := by
  have h1 := (freshness_check ⟨4, 8⟩ ((KVSRadixTree.Open 64).Put ⟨4, 8⟩ [1] [5, 6]).state 1
    ⟨1, 1⟩ [0, 0, 0] 3 false (by decide)).1 rfl (by decide) (by decide)
  have h2 := (freshness_check ⟨4, 8⟩ ((KVSRadixTree.Open 64).Put ⟨4, 8⟩ [1] [5, 6]).state 1
    ⟨1, 0⟩ [0, 0, 0] 3 false (by decide)).2 (by decide) (by decide)
  exact ⟨h1.2.2.1, ((h2.2 (by decide)).2.2 [5, 6] (by decide)).2⟩

namespace KVSRadixTree

theorem PutCached_fail (L : Limits) (s : KVSRadixTree) (k v : Bytes) (kp : Gptr)
    (vp : TagGptr)
    (h : ¬ (k.length ≤ L.kMaxKeyLen ∧ v.length ≤ L.kMaxValLen ∧ 0 < s.heap.next ∧
      s.heap.next + (v.length + sizeofValBuf) ≤ s.heap.size)) :
    s.PutCached L k v kp vp = { state := s, ret := -1, key_ptr := kp, val_ptr := vp } := by
  unfold KVSRadixTree.PutCached Heap.Alloc
  by_cases hk : k.length ≤ L.kMaxKeyLen
  · by_cases hv : v.length ≤ L.kMaxValLen
    · have ha : ¬ (0 < s.heap.next ∧ s.heap.next + (v.length + sizeofValBuf) ≤ s.heap.size) :=
        fun hc => h ⟨hk, hv, hc⟩
      simp [not_lt.mpr hk, not_lt.mpr hv, ha]
    · simp [not_lt.mpr hk, not_le.mp hv]
  · simp [not_le.mp hk]

theorem allocFor_invalid (s : KVSRadixTree) (v : Bytes) (ha : ¬ Gptr.IsValid (s.allocFor v)) :
    ¬ (0 < s.heap.next ∧ s.heap.next + (v.length + sizeofValBuf) ≤ s.heap.size) := by
  intro hc
  apply ha
  rw [allocFor_eq, if_pos hc]
  exact Nat.pos_iff_ne_zero.mp hc.1

end KVSRadixTree

/-- C19, as stated, fails: in a heap too small for the block, `Put` with lengths
within bounds fails on the allocation with -1, and that is the very result `Put`
returns for a key longer than `kMaxKeyLen`. -/
theorem alloc_failure_counterexample :
    ¬ Gptr.IsValid ((KVSRadixTree.Open 4).allocFor [7]) ∧
    ((KVSRadixTree.Open 4).Put ⟨4, 8⟩ [1] [7]).ret = -1 ∧
    ((KVSRadixTree.Open 4).Put ⟨4, 8⟩ [1, 2, 3, 4, 5] [7]).ret = -1 ∧
    ((KVSRadixTree.Open 4).Put ⟨4, 8⟩ [1] [7]).ret =
      ((KVSRadixTree.Open 4).Put ⟨4, 8⟩ [1, 2, 3, 4, 5] [7]).ret := by
  decide

/-- C19 (allocation failure, amended): when the heap cannot hand out the block
for `v`, every `Put` overload and `FindOrCreate` returns -1, which is also the
result for an over-long key or value, and leaves the whole state (tree mapping
and deferred-free list included) and the caller's variables as they were. -/
theorem alloc_failure (L : Limits) (s : KVSRadixTree) (k v rv : Bytes) (rl : Nat)
    (key_ptr : Gptr) (val_ptr : TagGptr) (ha : ¬ Gptr.IsValid (s.allocFor v)) :
    s.Put L k v = { state := s, ret := -1 } ∧
    s.PutCached L k v key_ptr val_ptr =
      { state := s, ret := -1, key_ptr := key_ptr, val_ptr := val_ptr } ∧
    s.PutPtr L key_ptr val_ptr v = { state := s, ret := -1, val_ptr := val_ptr } ∧
    s.FindOrCreate L k v rv rl = { state := s, ret := -1, ret_val := rv, ret_len := rl } ∧
    (∀ k2 v2 : Bytes, L.kMaxKeyLen < k2.length ∨ L.kMaxValLen < v2.length →
      (s.Put L k2 v2).ret = (s.Put L k v).ret ∧
      (s.FindOrCreate L k2 v2 rv rl).ret = (s.FindOrCreate L k v rv rl).ret) := by
  have hc := allocFor_invalid s v ha
  have h4 : ¬ (k.length ≤ L.kMaxKeyLen ∧ v.length ≤ L.kMaxValLen ∧ 0 < s.heap.next ∧
      s.heap.next + (v.length + sizeofValBuf) ≤ s.heap.size) := fun h => hc h.2.2
  have h3 : ¬ (v.length ≤ L.kMaxValLen ∧ 0 < s.heap.next ∧
      s.heap.next + (v.length + sizeofValBuf) ≤ s.heap.size) := fun h => hc h.2
  refine ⟨Put_fail L s k v h4, PutCached_fail L s k v key_ptr val_ptr h4,
    PutPtr_fail L s key_ptr val_ptr v h3, FindOrCreate_fail L s k v rv rl h4,
    fun k2 v2 hlong => ?_⟩
  have h5 : ¬ (k2.length ≤ L.kMaxKeyLen ∧ v2.length ≤ L.kMaxValLen ∧ 0 < s.heap.next ∧
      s.heap.next + (v2.length + sizeofValBuf) ≤ s.heap.size) := by
    intro h
    rcases hlong with h6 | h6
    · exact absurd h.1 (not_le.mpr h6)
    · exact absurd h.2.1 (not_le.mpr h6)
  rw [Put_fail L s k v h4, Put_fail L s k2 v2 h5, FindOrCreate_fail L s k v rv rl h4,
    FindOrCreate_fail L s k2 v2 rv rl h5]
  exact ⟨rfl, rfl⟩

theorem alloc_failure_witness :
    ((KVSRadixTree.Open 4).Put ⟨4, 8⟩ [1] [7]).ret = -1 ∧
    ((KVSRadixTree.Open 4).FindOrCreate ⟨4, 8⟩ [1] [7] [] 0).ret = -1 := by
  have h := alloc_failure ⟨4, 8⟩ (KVSRadixTree.Open 4) [1] [7] [] 0 0 ⟨0, 0⟩ (by decide)
  refine ⟨?_, ?_⟩
  · rw [h.1]
  · rw [h.2.2.2.1]

/-! ## Lemmas on the key order and range scans -/

theorem keyLt_cons (a b : Nat) (as bs : Bytes) :
    keyLt (a :: as) (b :: bs) = true ↔ a < b ∨ (a = b ∧ keyLt as bs = true) := by
  simp [keyLt]

theorem keyLt_irrefl (a : Bytes) : keyLt a a = false := by
  induction a with
  | nil => rfl
  | cons x xs ih => simp [keyLt, ih]

theorem keyLt_trans {a b c : Bytes} (h1 : keyLt a b = true) (h2 : keyLt b c = true) :
    keyLt a c = true := by
  induction a generalizing b c with
  | nil =>
    cases b with
    | nil => simp [keyLt] at h1
    | cons y ys =>
      cases c with
      | nil => simp [keyLt] at h2
      | cons z zs => rfl
  | cons x xs ih =>
    cases b with
    | nil => simp [keyLt] at h1
    | cons y ys =>
      cases c with
      | nil => simp [keyLt] at h2
      | cons z zs =>
        rw [keyLt_cons] at h1 h2 ⊢
        rcases h1 with h1 | ⟨h1, h3⟩
        · rcases h2 with h2 | ⟨h2, _⟩
          · exact Or.inl (lt_trans h1 h2)
          · exact Or.inl (h2 ▸ h1)
        · rcases h2 with h2 | ⟨h2, h4⟩
          · exact Or.inl (h1 ▸ h2)
          · exact Or.inr ⟨h1.trans h2, ih h3 h4⟩

/-- The order is total: two keys neither of which is below the other are equal. -/
theorem keyLt_total {a b : Bytes} (h1 : keyLt a b = false) (h2 : keyLt b a = false) :
    a = b := by
  induction a generalizing b with
  | nil =>
    cases b with
    | nil => rfl
    | cons y ys => simp [keyLt] at h1
  | cons x xs ih =>
    cases b with
    | nil => simp [keyLt] at h2
    | cons y ys =>
      have n1 : ¬ (x < y ∨ (x = y ∧ keyLt xs ys = true)) := by
        rw [← keyLt_cons, h1]
        simp
      have n2 : ¬ (y < x ∨ (y = x ∧ keyLt ys xs = true)) := by
        rw [← keyLt_cons, h2]
        simp
      have hxy : x = y :=
        Nat.le_antisymm (Nat.le_of_not_lt (fun h => n2 (Or.inl h)))
          (Nat.le_of_not_lt (fun h => n1 (Or.inl h)))
      have t1 : keyLt xs ys = false := by
        cases h : keyLt xs ys with
        | false => rfl
        | true => exact absurd (Or.inr ⟨hxy, h⟩) n1
      have t2 : keyLt ys xs = false := by
        cases h : keyLt ys xs with
        | false => rfl
        | true => exact absurd (Or.inr ⟨hxy.symm, h⟩) n2
      rw [hxy, ih t1 t2]

theorem minKey_eq_none {l : List Bytes} (h : minKey l = none) : l = [] := by
  cases l with
  | nil => rfl
  | cons k ks =>
    unfold minKey at h
    split at h
    · simp at h
    · split at h <;> simp at h

theorem minKey_spec {l : List Bytes} {m : Bytes} (h : minKey l = some m) :
    m ∈ l ∧ ∀ x ∈ l, keyLt x m = false := by
  induction l generalizing m with
  | nil => simp [minKey] at h
  | cons k ks ih =>
    unfold minKey at h
    split at h
    · rename_i hn
      have hks := minKey_eq_none hn
      cases h
      subst hks
      refine ⟨List.mem_cons_self _ _, fun x hx => ?_⟩
      rw [List.mem_singleton.mp hx]
      exact keyLt_irrefl _
    · rename_i m0 hm0
      have h0 := ih hm0
      by_cases hlt : keyLt k m0 = true
      · rw [if_pos hlt] at h
        cases h
        refine ⟨List.mem_cons_self _ _, fun x hx => ?_⟩
        rcases List.mem_cons.mp hx with h1 | h1
        · rw [h1]
          exact keyLt_irrefl _
        · cases hx2 : keyLt x k with
          | false => rfl
          | true =>
            have := keyLt_trans hx2 hlt
            rw [h0.2 x h1] at this
            exact absurd this (by simp)
      · rw [if_neg hlt] at h
        cases h
        refine ⟨List.mem_cons_of_mem _ h0.1, fun x hx => ?_⟩
        rcases List.mem_cons.mp hx with h1 | h1
        · rw [h1]
          exact Bool.eq_false_iff.mpr hlt
        · exact h0.2 x h1

theorem mem_stored (t : RadixTree) (k : Bytes) : k ∈ t.stored ↔ (t.get k).IsValid := by
  unfold RadixTree.stored
  rw [List.mem_filter]
  constructor
  · intro h
    exact of_decide_eq_true h.2
  · intro h
    refine ⟨?_, decide_eq_true h⟩
    unfold RadixTree.get at h
    cases hf : findNode k t.nodes with
    | none =>
      rw [hf] at h
      exact absurd rfl h
    | some n =>
      rw [List.mem_map]
      exact ⟨n, findNode_mem hf, findNode_key hf⟩

/-- What `seek` finds is a stored key that satisfies `p`, and every other stored
key that satisfies `p` is above it. -/
theorem seek_some {t : RadixTree} {p : Bytes → Bool} {k : Bytes} (h : t.seek p = some k) :
    (t.get k).IsValid ∧ p k = true ∧
    ∀ m : Bytes, (t.get m).IsValid → p m = true → m = k ∨ keyLt k m = true := by
  unfold RadixTree.seek at h
  have hs := minKey_spec h
  have hk := List.mem_filter.mp hs.1
  refine ⟨(mem_stored t k).mp hk.1, hk.2, fun m hm hp => ?_⟩
  have h1 := hs.2 m (List.mem_filter.mpr ⟨(mem_stored t m).mpr hm, hp⟩)
  cases h2 : keyLt k m with
  | true => exact Or.inr rfl
  | false => exact Or.inl (keyLt_total h1 h2)

theorem seek_none {t : RadixTree} {p : Bytes → Bool} (h : t.seek p = none) :
    ∀ m : Bytes, (t.get m).IsValid → p m = false := by
  intro m hm
  unfold RadixTree.seek at h
  have hnil := minKey_eq_none h
  cases hp : p m with
  | false => rfl
  | true =>
    have : m ∈ t.stored.filter p := List.mem_filter.mpr ⟨(mem_stored t m).mpr hm, hp⟩
    rw [hnil] at this
    exact absurd this (List.not_mem_nil _)

theorem seek_exists {t : RadixTree} {p : Bytes → Bool} {m : Bytes} (hm : (t.get m).IsValid)
    (hp : p m = true) : ∃ k, t.seek p = some k := by
  cases h : t.seek p with
  | some k => exact ⟨k, rfl⟩
  | none =>
    rw [seek_none h m hm] at hp
    exact absurd hp (by simp)

namespace KVSRadixTree

theorem Scan_guard (L : Limits) (ob : Bytes) (s : KVSRadixTree) (iters : List Iter)
    (h : Int) (key : Bytes) (key_len : Nat) (val : Bytes) (val_len : Nat) (b : Bytes)
    (bi : Bool) (e : Bytes) (ei : Bool)
    (hg : ¬ (b.length ≤ L.kMaxKeyLen ∧ e.length ≤ L.kMaxKeyLen ∧ key_len ≤ L.kMaxKeyLen ∧
      val_len ≤ L.kMaxValLen)) :
    s.Scan L ob iters h key key_len val val_len b bi e ei =
      { iters := iters, ret := -1, iter_handle := h, key := key, key_len := key_len,
        val := val, val_len := val_len } := by
  unfold KVSRadixTree.Scan
  by_cases h1 : b.length > L.kMaxKeyLen ∨ e.length > L.kMaxKeyLen
  · rw [if_pos h1]
  · rw [if_neg h1]
    by_cases h2 : key_len > L.kMaxKeyLen
    · rw [if_pos h2]
    · rw [if_neg h2]
      by_cases h3 : val_len > L.kMaxValLen
      · rw [if_pos h3]
      · exfalso
        apply hg
        exact ⟨not_lt.mp (fun h => h1 (Or.inl h)), not_lt.mp (fun h => h1 (Or.inr h)),
          not_lt.mp h2, not_lt.mp h3⟩

theorem Scan_empty (L : Limits) (ob : Bytes) (s : KVSRadixTree) (iters : List Iter)
    (h : Int) (key : Bytes) (key_len : Nat) (val : Bytes) (val_len : Nat) (b : Bytes)
    (bi : Bool) (e : Bytes) (ei : Bool)
    (hb : b.length ≤ L.kMaxKeyLen) (he : e.length ≤ L.kMaxKeyLen)
    (hk : key_len ≤ L.kMaxKeyLen) (hv : val_len ≤ L.kMaxValLen)
    (hseek : s.tree.seek (fun k => aboveBegin ob b bi k && belowEnd ob e ei k) = none) :
    s.Scan L ob iters h key key_len val val_len b bi e ei =
      { iters := iters, ret := -2, iter_handle := h, key := key, key_len := key_len,
        val := val, val_len := val_len } := by
  have h1 : ¬ (b.length > L.kMaxKeyLen ∨ e.length > L.kMaxKeyLen) := by
    intro h
    rcases h with h | h
    · exact absurd hb (not_le.mpr h)
    · exact absurd he (not_le.mpr h)
  unfold KVSRadixTree.Scan RadixTree.scan
  rw [if_neg h1, if_neg (not_lt.mpr hk), if_neg (not_lt.mpr hv), hseek]
  rfl

theorem Scan_found (L : Limits) (ob : Bytes) (s : KVSRadixTree) (iters : List Iter)
    (h : Int) (key : Bytes) (key_len : Nat) (val : Bytes) (val_len : Nat) (b : Bytes)
    (bi : Bool) (e : Bytes) (ei : Bool) (k : Bytes)
    (hb : b.length ≤ L.kMaxKeyLen) (he : e.length ≤ L.kMaxKeyLen)
    (hk : key_len ≤ L.kMaxKeyLen) (hv : val_len ≤ L.kMaxValLen)
    (hseek : s.tree.seek (fun k => aboveBegin ob b bi k && belowEnd ob e ei k) = some k) :
    s.Scan L ob iters h key key_len val val_len b bi e ei =
      if val_len < (s.heap.mem (s.tree.get k).gptr).size then
        { iters := iters, ret := -1, iter_handle := h, key := fam_memcpy key k k.length,
          key_len := k.length, val := val,
          val_len := (s.heap.mem (s.tree.get k).gptr).size }
      else
        { iters := iters ++ [{ cur := k, end_key := e, end_key_inclusive := ei,
                               done := false }],
          ret := 0, iter_handle := castInt iters.length,
          key := fam_memcpy key k k.length, key_len := k.length,
          val := fam_memcpy val (s.heap.mem (s.tree.get k).gptr).val
            (s.heap.mem (s.tree.get k).gptr).size,
          val_len := (s.heap.mem (s.tree.get k).gptr).size } := by
  have h1 : ¬ (b.length > L.kMaxKeyLen ∨ e.length > L.kMaxKeyLen) := by
    intro h
    rcases h with h | h
    · exact absurd hb (not_le.mpr h)
    · exact absurd he (not_le.mpr h)
  unfold KVSRadixTree.Scan RadixTree.scan
  rw [if_neg h1, if_neg (not_lt.mpr hk), if_neg (not_lt.mpr hv), hseek]
  simp [Heap.GlobalToLocal]

/-- A `Scan` that returns 0 passed the length checks, found a key, and had room
for its value. -/
theorem Scan_ret_zero (L : Limits) (ob : Bytes) (s : KVSRadixTree) (iters : List Iter)
    (h : Int) (key : Bytes) (key_len : Nat) (val : Bytes) (val_len : Nat) (b : Bytes)
    (bi : Bool) (e : Bytes) (ei : Bool)
    (hret : (s.Scan L ob iters h key key_len val val_len b bi e ei).ret = 0) :
    ∃ k, s.tree.seek (fun k => aboveBegin ob b bi k && belowEnd ob e ei k) = some k ∧
      s.Scan L ob iters h key key_len val val_len b bi e ei =
        { iters := iters ++ [{ cur := k, end_key := e, end_key_inclusive := ei,
                               done := false }],
          ret := 0, iter_handle := castInt iters.length,
          key := fam_memcpy key k k.length, key_len := k.length,
          val := fam_memcpy val (s.heap.mem (s.tree.get k).gptr).val
            (s.heap.mem (s.tree.get k).gptr).size,
          val_len := (s.heap.mem (s.tree.get k).gptr).size } := by
  by_cases hg : b.length ≤ L.kMaxKeyLen ∧ e.length ≤ L.kMaxKeyLen ∧
      key_len ≤ L.kMaxKeyLen ∧ val_len ≤ L.kMaxValLen
  · obtain ⟨hb, he, hk, hv⟩ := hg
    cases hseek : s.tree.seek (fun k => aboveBegin ob b bi k && belowEnd ob e ei k) with
    | none =>
      rw [Scan_empty L ob s iters h key key_len val val_len b bi e ei hb he hk hv hseek]
        at hret
      simp at hret
    | some k =>
      have hf := Scan_found L ob s iters h key key_len val val_len b bi e ei k hb he hk hv
        hseek
      by_cases hsmall : val_len < (s.heap.mem (s.tree.get k).gptr).size
      · rw [hf, if_pos hsmall] at hret
        simp at hret
      · rw [if_neg hsmall] at hf
        exact ⟨k, rfl, hf⟩
  · rw [Scan_guard L ob s iters h key key_len val val_len b bi e ei hg] at hret
    simp at hret

theorem aboveBegin_closed (ob b k : Bytes) :
    aboveBegin ob b true k = !keyLt k b := by
  simp [aboveBegin]

theorem belowEnd_closed (ob e k : Bytes) :
    belowEnd ob e true k = !keyLt e k := by
  simp [belowEnd]

theorem aboveBegin_open (ob k : Bytes) : aboveBegin ob ob false k = true := by
  simp [aboveBegin]

theorem belowEnd_open (ob k : Bytes) : belowEnd ob ob false k = true := by
  simp [belowEnd]

theorem aboveBegin_strict (ob b k : Bytes) (hne : b ≠ ob) :
    aboveBegin ob b false k = keyLt b k := by
  simp [aboveBegin, hne]

end KVSRadixTree

/-- C14 (scan positions at the smallest key in range).  A `Scan` that returns 0
leaves in `key`/`key_len` a stored key `k` that satisfies both bounds and is
below every other stored key that satisfies them (`OPEN_BOUNDARY` with
`inclusive = false` being no limit), and in `val`/`val_len` the bytes and size
of the block of `k`.  In particular `Scan(k, inclusive, k, inclusive)` on a
stored key within the limits returns `k` and its value, and for a key `k` other
than `OPEN_BOUNDARY` a successful `Scan(k, exclusive, OPEN_BOUNDARY)` returns
the smallest stored key strictly above `k`.  `Scan` does return 0 when the
lengths are within the limits, some stored key satisfies the bounds and the
stored values fit in `val_len`. -/
theorem scan_smallest_in_range (L : Limits) (ob : Bytes) (s : KVSRadixTree)
    (iters : List Iter) (h : Int) (key : Bytes) (key_len : Nat) (val : Bytes)
    (val_len : Nat) :
    (∀ (b : Bytes) (bi : Bool) (e : Bytes) (ei : Bool),
      (s.Scan L ob iters h key key_len val val_len b bi e ei).ret = 0 →
      ∃ k : Bytes,
        (s.Scan L ob iters h key key_len val val_len b bi e ei).key_len = k.length ∧
        (s.Scan L ob iters h key key_len val val_len b bi e ei).key.take k.length = k ∧
        (s.tree.get k).IsValid ∧ aboveBegin ob b bi k = true ∧ belowEnd ob e ei k = true ∧
        (∀ m : Bytes, (s.tree.get m).IsValid → aboveBegin ob b bi m = true →
          belowEnd ob e ei m = true → m = k ∨ keyLt k m = true) ∧
        (s.Scan L ob iters h key key_len val val_len b bi e ei).val_len =
          (s.heap.mem (s.tree.get k).gptr).size ∧
        (s.Scan L ob iters h key key_len val val_len b bi e ei).val =
          fam_memcpy val (s.heap.mem (s.tree.get k).gptr).val
            (s.heap.mem (s.tree.get k).gptr).size ∧
        (∀ w : Bytes, s.Holds k w →
          (s.Scan L ob iters h key key_len val val_len b bi e ei).val_len = w.length ∧
          (s.Scan L ob iters h key key_len val val_len b bi e ei).val.take w.length = w)) ∧
    (∀ k w : Bytes, s.Holds k w → k.length ≤ L.kMaxKeyLen → key_len ≤ L.kMaxKeyLen →
      val_len ≤ L.kMaxValLen → w.length ≤ val_len →
      (s.Scan L ob iters h key key_len val val_len k true k true).ret = 0 ∧
      (s.Scan L ob iters h key key_len val val_len k true k true).key_len = k.length ∧
      (s.Scan L ob iters h key key_len val val_len k true k true).key.take k.length = k ∧
      (s.Scan L ob iters h key key_len val val_len k true k true).val_len = w.length ∧
      (s.Scan L ob iters h key key_len val val_len k true k true).val.take w.length = w) ∧
    (∀ k : Bytes, k ≠ ob →
      (s.Scan L ob iters h key key_len val val_len k false ob false).ret = 0 →
      ∃ k2 : Bytes,
        (s.Scan L ob iters h key key_len val val_len k false ob false).key_len = k2.length ∧
        (s.Scan L ob iters h key key_len val val_len k false ob false).key.take k2.length
          = k2 ∧
        (s.tree.get k2).IsValid ∧ keyLt k k2 = true ∧
        (∀ m : Bytes, (s.tree.get m).IsValid → keyLt k m = true →
          m = k2 ∨ keyLt k2 m = true)) ∧
    (∀ (b : Bytes) (bi : Bool) (e : Bytes) (ei : Bool) (m : Bytes),
      b.length ≤ L.kMaxKeyLen → e.length ≤ L.kMaxKeyLen → key_len ≤ L.kMaxKeyLen →
      val_len ≤ L.kMaxValLen → (s.tree.get m).IsValid → aboveBegin ob b bi m = true →
      belowEnd ob e ei m = true →
      (∀ k : Bytes, (s.tree.get k).IsValid →
        (s.heap.mem (s.tree.get k).gptr).size ≤ val_len) →
      (s.Scan L ob iters h key key_len val val_len b bi e ei).ret = 0) := by
  have gen : ∀ (b : Bytes) (bi : Bool) (e : Bytes) (ei : Bool),
      (s.Scan L ob iters h key key_len val val_len b bi e ei).ret = 0 →
      ∃ k : Bytes,
        (s.Scan L ob iters h key key_len val val_len b bi e ei).key_len = k.length ∧
        (s.Scan L ob iters h key key_len val val_len b bi e ei).key.take k.length = k ∧
        (s.tree.get k).IsValid ∧ aboveBegin ob b bi k = true ∧ belowEnd ob e ei k = true ∧
        (∀ m : Bytes, (s.tree.get m).IsValid → aboveBegin ob b bi m = true →
          belowEnd ob e ei m = true → m = k ∨ keyLt k m = true) ∧
        (s.Scan L ob iters h key key_len val val_len b bi e ei).val_len =
          (s.heap.mem (s.tree.get k).gptr).size ∧
        (s.Scan L ob iters h key key_len val val_len b bi e ei).val =
          fam_memcpy val (s.heap.mem (s.tree.get k).gptr).val
            (s.heap.mem (s.tree.get k).gptr).size ∧
        (∀ w : Bytes, s.Holds k w →
          (s.Scan L ob iters h key key_len val val_len b bi e ei).val_len = w.length ∧
          (s.Scan L ob iters h key key_len val val_len b bi e ei).val.take w.length
            = w) := by
    intro b bi e ei hret
    obtain ⟨k, hseek, heq⟩ := Scan_ret_zero L ob s iters h key key_len val val_len b bi e ei
      hret
    have hs := seek_some hseek
    have hin : aboveBegin ob b bi k = true ∧ belowEnd ob e ei k = true := by
      have := hs.2.1
      simp only [Bool.and_eq_true] at this
      exact this
    refine ⟨k, ?_, ?_, hs.1, hin.1, hin.2, fun m hm h1 h2 => ?_, ?_, ?_, fun w hw => ?_⟩
    · rw [heq]
    · rw [heq]
      exact fam_memcpy_take _ _
    · refine hs.2.2 m hm ?_
      simp only [Bool.and_eq_true]
      exact ⟨h1, h2⟩
    · rw [heq]
    · rw [heq]
    · have hm : s.heap.mem (s.tree.get k).gptr = { size := w.length, val := w } := hw.2
      rw [heq, hm]
      exact ⟨rfl, fam_memcpy_take _ _⟩
  refine ⟨gen, fun k w hw hkl hk hv hcap => ?_, fun k hne hret => ?_,
    fun b bi e ei m hb he hk hv hm h1 h2 hfit => ?_⟩
  · have hp : (fun m => aboveBegin ob k true m && belowEnd ob k true m) k = true := by
      simp [aboveBegin_closed, belowEnd_closed, keyLt_irrefl]
    obtain ⟨k2, hseek⟩ :=
      @seek_exists s.tree (fun m => aboveBegin ob k true m && belowEnd ob k true m) k hw.1 hp
    have hs := seek_some hseek
    have hk2 : k2 = k := by
      have h3 := hs.2.1
      simp only [aboveBegin_closed, belowEnd_closed, Bool.and_eq_true, Bool.not_eq_true']
        at h3
      exact keyLt_total h3.1 h3.2
    rw [hk2] at hseek
    have hm : s.heap.mem (s.tree.get k).gptr = { size := w.length, val := w } := hw.2
    rw [Scan_found L ob s iters h key key_len val val_len k true k true k hkl hkl hk hv hseek,
      hm, if_neg (not_lt.mpr hcap)]
    exact ⟨rfl, rfl, fam_memcpy_take _ _, rfl, fam_memcpy_take _ _⟩
  · obtain ⟨k2, h1, h2, h3, h4, _, h6, _⟩ := gen k false ob false hret
    rw [aboveBegin_strict ob k k2 hne] at h4
    refine ⟨k2, h1, h2, h3, h4, fun m hm hlt => h6 m hm ?_ (belowEnd_open ob m)⟩
    rw [aboveBegin_strict ob k m hne]
    exact hlt
  · have hp : (fun k => aboveBegin ob b bi k && belowEnd ob e ei k) m = true := by
      simp only [Bool.and_eq_true]
      exact ⟨h1, h2⟩
    obtain ⟨k, hseek⟩ :=
      @seek_exists s.tree (fun k => aboveBegin ob b bi k && belowEnd ob e ei k) m hm hp
    rw [Scan_found L ob s iters h key key_len val val_len b bi e ei k hb he hk hv hseek,
      if_neg (not_lt.mpr (hfit k (seek_some hseek).1))]

theorem scan_smallest_in_range_witness :
    (((KVSRadixTree.Open 200).run ⟨4, 8⟩
        [Op.Put [2] [6], Op.Put [1, 5] [7, 7], Op.Put [1] [5]]).Scan ⟨4, 8⟩ [0] [] 0
        [0, 0, 0, 0] 4 [0, 0, 0, 0] 4 [1, 5] true [1, 5] true).key.take 2 = [1, 5] := by
  have h := (scan_smallest_in_range ⟨4, 8⟩ [0]
    ((KVSRadixTree.Open 200).run ⟨4, 8⟩ [Op.Put [2] [6], Op.Put [1, 5] [7, 7], Op.Put [1] [5]])
    [] 0 [0, 0, 0, 0] 4 [0, 0, 0, 0] 4).2.1 [1, 5] [7, 7] (by decide) (by decide) (by decide)
    (by decide) (by decide)
  exact h.2.2.1

/-- C16 (scan on an empty range): with the bounds and the declared capacities
within the length limits, if no stored key (a key with a valid value pointer,
see `mem_stored`) satisfies the bounds then `Scan`
returns -2 and leaves the value buffer, `val_len`, `iter_handle` and the
iterator registry (and the key buffer) as they were. -/
theorem scan_empty_range (L : Limits) (ob : Bytes) (s : KVSRadixTree) (iters : List Iter)
    (h : Int) (key : Bytes) (key_len : Nat) (val : Bytes) (val_len : Nat) (b : Bytes)
    (bi : Bool) (e : Bytes) (ei : Bool)
    (hb : b.length ≤ L.kMaxKeyLen) (he : e.length ≤ L.kMaxKeyLen)
    (hk : key_len ≤ L.kMaxKeyLen) (hv : val_len ≤ L.kMaxValLen)
    (hnone : ∀ m ∈ s.tree.stored,
      ¬ (aboveBegin ob b bi m = true ∧ belowEnd ob e ei m = true)) :
    (s.Scan L ob iters h key key_len val val_len b bi e ei).ret = -2 ∧
    (s.Scan L ob iters h key key_len val val_len b bi e ei).val = val ∧
    (s.Scan L ob iters h key key_len val val_len b bi e ei).val_len = val_len ∧
    (s.Scan L ob iters h key key_len val val_len b bi e ei).iter_handle = h ∧
    (s.Scan L ob iters h key key_len val val_len b bi e ei).iters = iters ∧
    (s.Scan L ob iters h key key_len val val_len b bi e ei).key = key ∧
    (s.Scan L ob iters h key key_len val val_len b bi e ei).key_len = key_len := by
  have hseek : s.tree.seek (fun k => aboveBegin ob b bi k && belowEnd ob e ei k) = none := by
    cases hs : s.tree.seek (fun k => aboveBegin ob b bi k && belowEnd ob e ei k) with
    | none => rfl
    | some k =>
      have h1 := seek_some hs
      have h2 := h1.2.1
      simp only [Bool.and_eq_true] at h2
      exact absurd h2 (hnone k ((mem_stored s.tree k).mpr h1.1))
  rw [Scan_empty L ob s iters h key key_len val val_len b bi e ei hb he hk hv hseek]
  exact ⟨rfl, rfl, rfl, rfl, rfl, rfl, rfl⟩

theorem scan_empty_range_witness :
    (((KVSRadixTree.Open 200).run ⟨4, 8⟩ [Op.Put [2] [6], Op.Put [1] [5]]).Scan ⟨4, 8⟩ [0]
      [] 7 [0, 0] 2 [0, 0] 2 [2] false [0] false).ret = -2 :=
  (scan_empty_range ⟨4, 8⟩ [0]
    ((KVSRadixTree.Open 200).run ⟨4, 8⟩ [Op.Put [2] [6], Op.Put [1] [5]])
    [] 7 [0, 0] 2 [0, 0] 2 [2] false [0] false (by decide) (by decide) (by decide) (by decide)
    (by decide)).1

/-- C18 (scan rejects over-declared capacity): a `Scan` whose declared value
capacity `val_len` exceeds `kMaxValLen`, or whose key capacity `key_len` exceeds
`kMaxKeyLen`, returns -1 whatever the tree contains and leaves `iter_handle`,
both buffers with their lengths, and the iterator registry as they were. -/
theorem scan_rejects_capacity (L : Limits) (ob : Bytes) (s : KVSRadixTree)
    (iters : List Iter) (h : Int) (key : Bytes) (key_len : Nat) (val : Bytes)
    (val_len : Nat) (b : Bytes) (bi : Bool) (e : Bytes) (ei : Bool)
    (hcap : L.kMaxValLen < val_len ∨ L.kMaxKeyLen < key_len) :
    s.Scan L ob iters h key key_len val val_len b bi e ei =
      { iters := iters, ret := -1, iter_handle := h, key := key, key_len := key_len,
        val := val, val_len := val_len } := by
  apply Scan_guard
  intro hg
  rcases hcap with h1 | h1
  · exact absurd hg.2.2.2 (not_le.mpr h1)
  · exact absurd hg.2.2.1 (not_le.mpr h1)

theorem scan_rejects_capacity_witness :
    (((KVSRadixTree.Open 200).run ⟨4, 8⟩ [Op.Put [2] [6]]).Scan ⟨4, 8⟩ [0] [] 7
      [0, 0] 2 [0, 0] 9 [2] true [2] true).ret = -1 := by
  rw [scan_rejects_capacity ⟨4, 8⟩ [0] ((KVSRadixTree.Open 200).run ⟨4, 8⟩ [Op.Put [2] [6]])
    [] 7 [0, 0] 2 [0, 0] 9 [2] true [2] true (by decide)]

/-! ## Lemmas on GetNext and the enumeration -/

namespace KVSRadixTree

theorem castInt_small (n : Nat) (h : n < 2 ^ 31) : castInt n = (n : Int) := by
  have h1 : n % 2 ^ 32 = n := Nat.mod_eq_of_lt (by omega)
  unfold castInt
  rw [h1, if_pos h]

theorem GetNext_bad (L : Limits) (ob : Bytes) (s : KVSRadixTree) (iters : List Iter)
    (h : Int) (key : Bytes) (key_len : Nat) (val : Bytes) (val_len : Nat)
    (hbad : h < 0 ∨ h ≥ castInt iters.length) :
    s.GetNext L ob iters h key key_len val val_len =
      { iters := iters, ret := -1, key := key, key_len := key_len, val := val,
        val_len := val_len } := by
  unfold KVSRadixTree.GetNext
  by_cases h1 : key_len > L.kMaxKeyLen
  · rw [if_pos h1]
  · rw [if_neg h1]
    by_cases h2 : val_len > L.kMaxValLen
    · rw [if_pos h2]
    · rw [if_neg h2, if_pos hbad]

theorem castInt_neg (n : Nat) (h1 : 2 ^ 31 ≤ n) (h2 : n < 2 ^ 32) : castInt n < 0 := by
  have hm : n % 2 ^ 32 = n := Nat.mod_eq_of_lt h2
  unfold castInt
  rw [hm, if_neg (not_lt.mpr h1)]
  omega

/-- A `GetNext` with lengths within the limits and a handle that passes the
range check works on the iterator the handle indexes: it advances that iterator
in the registry and returns what `get_next` found there. -/
theorem GetNext_at (L : Limits) (ob : Bytes) (s : KVSRadixTree) (iters : List Iter)
    (h : Int) (key : Bytes) (key_len : Nat) (val : Bytes) (val_len : Nat) (it : Iter)
    (hk : key_len ≤ L.kMaxKeyLen) (hv : val_len ≤ L.kMaxValLen)
    (hok : ¬ (h < 0 ∨ h ≥ castInt iters.length)) (hit : iters[h.toNat]? = some it) :
    s.GetNext L ob iters h key key_len val val_len =
      if (s.tree.get_next ob it key key_len).found = false then
        { iters := iters.set h.toNat (s.tree.get_next ob it key key_len).iter, ret := -2,
          key := (s.tree.get_next ob it key key_len).key,
          key_len := (s.tree.get_next ob it key key_len).key_len, val := val,
          val_len := val_len }
      else if val_len <
          (s.heap.GlobalToLocal (s.tree.get_next ob it key key_len).val_gptr.gptr).size then
        { iters := iters.set h.toNat (s.tree.get_next ob it key key_len).iter, ret := -1,
          key := (s.tree.get_next ob it key key_len).key,
          key_len := (s.tree.get_next ob it key key_len).key_len, val := val,
          val_len :=
            (s.heap.GlobalToLocal (s.tree.get_next ob it key key_len).val_gptr.gptr).size }
      else
        { iters := iters.set h.toNat (s.tree.get_next ob it key key_len).iter, ret := 0,
          key := (s.tree.get_next ob it key key_len).key,
          key_len := (s.tree.get_next ob it key key_len).key_len,
          val := fam_memcpy val
            (s.heap.GlobalToLocal (s.tree.get_next ob it key key_len).val_gptr.gptr).val
            (s.heap.GlobalToLocal (s.tree.get_next ob it key key_len).val_gptr.gptr).size,
          val_len :=
            (s.heap.GlobalToLocal (s.tree.get_next ob it key key_len).val_gptr.gptr).size } := by
  unfold KVSRadixTree.GetNext
  rw [if_neg (not_lt.mpr hk), if_neg (not_lt.mpr hv), if_neg hok, hit]

/-- A `GetNext` that returns 0 resolved its handle to an iterator of the
registry, advanced it to the next stored key of its range, and had room for the
value of that key. -/
theorem GetNext_ret_zero (L : Limits) (ob : Bytes) (s : KVSRadixTree) (iters : List Iter)
    (h : Int) (key : Bytes) (key_len : Nat) (val : Bytes) (val_len : Nat)
    (hret : (s.GetNext L ob iters h key key_len val val_len).ret = 0) :
    ∃ (it : Iter) (k : Bytes), iters[h.toNat]? = some it ∧
      s.tree.seek (fun k => keyLt it.cur k &&
        belowEnd ob it.end_key it.end_key_inclusive k) = some k ∧
      s.GetNext L ob iters h key key_len val val_len =
        { iters := iters.set h.toNat { it with cur := k }, ret := 0,
          key := fam_memcpy key k k.length, key_len := k.length,
          val := fam_memcpy val (s.heap.mem (s.tree.get k).gptr).val
            (s.heap.mem (s.tree.get k).gptr).size,
          val_len := (s.heap.mem (s.tree.get k).gptr).size } := by
  unfold KVSRadixTree.GetNext at hret ⊢
  by_cases h1 : key_len > L.kMaxKeyLen
  · rw [if_pos h1] at hret
    simp at hret
  · rw [if_neg h1] at hret ⊢
    by_cases h2 : val_len > L.kMaxValLen
    · rw [if_pos h2] at hret
      simp at hret
    · rw [if_neg h2] at hret ⊢
      by_cases h3 : h < 0 ∨ h ≥ castInt iters.length
      · rw [if_pos h3] at hret
        simp at hret
      · rw [if_neg h3] at hret ⊢
        cases hit : iters[h.toNat]? with
        | none =>
          rw [hit] at hret
          simp at hret
        | some it =>
          rw [hit] at hret
          simp only at hret ⊢
          unfold RadixTree.get_next at hret ⊢
          by_cases hd : it.done = true
          · rw [if_pos hd] at hret
            simp at hret
          · rw [if_neg hd] at hret ⊢
            cases hseek : s.tree.seek (fun k => keyLt it.cur k &&
                belowEnd ob it.end_key it.end_key_inclusive k) with
            | none =>
              rw [hseek] at hret
              simp at hret
            | some k =>
              rw [hseek] at hret
              simp only [Heap.GlobalToLocal] at hret ⊢
              by_cases hsmall : val_len < (s.heap.mem (s.tree.get k).gptr).size
              · simp [hsmall] at hret
              · refine ⟨it, k, rfl, hseek, ?_⟩
                simp [hsmall]

theorem collect_zero (L : Limits) (ob : Bytes) (s : KVSRadixTree) (h : Int) (kc vc : Nat)
    (iters : List Iter) (key val : Bytes) :
    s.collect L ob h kc vc 0 iters key val = [] := rfl

theorem collect_succ (L : Limits) (ob : Bytes) (s : KVSRadixTree) (h : Int) (kc vc : Nat)
    (fuel : Nat) (iters : List Iter) (key val : Bytes) :
    s.collect L ob h kc vc (fuel + 1) iters key val =
      if (s.GetNext L ob iters h key kc val vc).ret = 0 then
        ((s.GetNext L ob iters h key kc val vc).key.take
            (s.GetNext L ob iters h key kc val vc).key_len,
          (s.GetNext L ob iters h key kc val vc).val.take
            (s.GetNext L ob iters h key kc val vc).val_len) ::
          s.collect L ob h kc vc fuel (s.GetNext L ob iters h key kc val vc).iters
            (s.GetNext L ob iters h key kc val vc).key
            (s.GetNext L ob iters h key kc val vc).val
      else [] := rfl

/-- With a handle that fails the range check no `GetNext` call succeeds. -/
theorem collect_bad (L : Limits) (ob : Bytes) (s : KVSRadixTree) (h : Int) (kc vc : Nat)
    (fuel : Nat) (iters : List Iter) (key val : Bytes)
    (hbad : h < 0 ∨ h ≥ castInt iters.length) :
    s.collect L ob h kc vc fuel iters key val = [] := by
  cases fuel with
  | zero => rfl
  | succ fuel =>
    rw [collect_succ, GetNext_bad L ob s iters h key kc val vc hbad]
    rfl

/-- The keys that successive `GetNext` calls return form an increasing chain
that starts above the position of the iterator, and each comes with the value
stored under it. -/
theorem collect_spec (L : Limits) (ob : Bytes) (s : KVSRadixTree) (h : Int) (kc vc : Nat) :
    ∀ (fuel : Nat) (iters : List Iter) (key val : Bytes),
      List.Chain' (fun a b => keyLt a b = true)
        ((s.collect L ob h kc vc fuel iters key val).map Prod.fst) ∧
      (∀ it : Iter, iters[h.toNat]? = some it →
        ∀ y ∈ ((s.collect L ob h kc vc fuel iters key val).map Prod.fst).head?,
          keyLt it.cur y = true) ∧
      (∀ p ∈ s.collect L ob h kc vc fuel iters key val,
        (s.tree.get p.1).IsValid ∧ ∀ w : Bytes, s.Holds p.1 w → p.2 = w) := by
  intro fuel
  induction fuel with
  | zero =>
    intro iters key val
    rw [collect_zero]
    exact ⟨List.chain'_nil, fun _ _ y hy => by simp at hy, fun p hp => by simp at hp⟩
  | succ fuel ih =>
    intro iters key val
    rw [collect_succ]
    by_cases hret : (s.GetNext L ob iters h key kc val vc).ret = 0
    · rw [if_pos hret]
      obtain ⟨it, k, hit, hseek, heq⟩ := GetNext_ret_zero L ob s iters h key kc val vc hret
      have hs := seek_some hseek
      have hlt : keyLt it.cur k = true := by
        have := hs.2.1
        simp only [Bool.and_eq_true] at this
        exact this.1
      rw [heq]
      simp only
      have hkey : (fam_memcpy key k k.length).take k.length = k := fam_memcpy_take _ _
      rw [hkey]
      have hrec := ih (iters.set h.toNat { it with cur := k }) (fam_memcpy key k k.length)
        (fam_memcpy val (s.heap.mem (s.tree.get k).gptr).val
          (s.heap.mem (s.tree.get k).gptr).size)
      have hnew : (iters.set h.toNat { it with cur := k })[h.toNat]? =
          some { it with cur := k } := by
        rw [List.getElem?_set_self', hit]
        rfl
      refine ⟨?_, fun it2 hit2 y hy => ?_, fun p hp => ?_⟩
      · rw [List.map_cons, List.chain'_cons']
        exact ⟨fun y hy => hrec.2.1 _ hnew y hy, hrec.1⟩
      · rw [hit] at hit2
        cases hit2
        simp only [List.map_cons, List.head?_cons, Option.mem_def, Option.some.injEq] at hy
        rw [← hy]
        exact hlt
      · rcases List.mem_cons.mp hp with h1 | h1
        · rw [h1]
          refine ⟨hs.1, fun w hw => ?_⟩
          have hm : s.heap.mem (s.tree.get k).gptr = { size := w.length, val := w } := hw.2
          simp only
          rw [hm]
          exact fam_memcpy_take _ _
        · exact hrec.2.2 p h1
    · rw [if_neg hret]
      exact ⟨List.chain'_nil, fun _ _ y hy => by simp at hy, fun p hp => by simp at hp⟩

theorem chain_pairwise_keyLt {l : List Bytes}
    (h : List.Chain' (fun a b => keyLt a b = true) l) :
    l.Pairwise (fun a b => keyLt a b = true) := by
  haveI : IsTrans Bytes (fun a b => keyLt a b = true) := ⟨fun _ _ _ h1 h2 => keyLt_trans h1 h2⟩
  exact List.chain'_iff_pairwise.mp h

theorem pairwise_keyLt_nodup {l : List Bytes}
    (h : l.Pairwise (fun a b => keyLt a b = true)) : l.Nodup := by
  refine List.Pairwise.imp ?_ h
  intro a b hab heq
  rw [heq, keyLt_irrefl] at hab
  exact absurd hab (by simp)

end KVSRadixTree

/-- C17 (bad iterator handle): for an `int` handle that is negative or not less
than the number of registered iterators, `GetNext` returns -1 and leaves the
key and value buffers, `key_len`, `val_len` and the registry as they were; the
result does not depend on the tree.  (It holds whatever `key_len` and `val_len`
are, in particular when they are within bounds.) -/
theorem bad_iterator_handle (L : Limits) (ob : Bytes) (s : KVSRadixTree) (iters : List Iter)
    (h : Int) (key : Bytes) (key_len : Nat) (val : Bytes) (val_len : Nat)
    (hint : h < 2 ^ 31) (hbad : h < 0 ∨ (iters.length : Int) ≤ h) :
    s.GetNext L ob iters h key key_len val val_len =
      { iters := iters, ret := -1, key := key, key_len := key_len, val := val,
        val_len := val_len } := by
  apply GetNext_bad
  rcases hbad with h1 | h1
  · exact Or.inl h1
  · right
    have hlen : iters.length < 2 ^ 31 := by
      have : (iters.length : Int) < 2 ^ 31 := lt_of_le_of_lt h1 hint
      exact_mod_cast this
    rw [castInt_small _ hlen]
    exact h1

theorem bad_iterator_handle_witness :
    ((KVSRadixTree.Open 200).GetNext ⟨4, 8⟩ [0] [Iter.new] 1 [0, 0] 2 [0, 0] 2).ret = -1 ∧
    ((KVSRadixTree.Open 200).GetNext ⟨4, 8⟩ [0] [Iter.new] (-1) [0, 0] 2 [0, 0] 2).ret = -1 := by
  refine ⟨?_, ?_⟩
  · rw [bad_iterator_handle ⟨4, 8⟩ [0] (KVSRadixTree.Open 200) [Iter.new] 1 [0, 0] 2 [0, 0] 2
      (by decide) (by decide)]
  · rw [bad_iterator_handle ⟨4, 8⟩ [0] (KVSRadixTree.Open 200) [Iter.new] (-1) [0, 0] 2
      [0, 0] 2 (by decide) (by decide)]

/-- C15, as stated, fails when 2^32 iterators are registered: `Scan` returns
the handle `(int)(iters_.size()-1)`, which is then 0, the handle of the first
registered iterator.  Here that iterator was positioned at key `[1]` by an
earlier full-range `Scan`, before `[1]` was deleted; the `Scan` of the
enumeration returns `[2]`, and the `GetNext` on handle 0 returns `[2]` again, so
the keys are not strictly increasing. -/
theorem ordered_enumeration_counterexample :
    (((KVSRadixTree.Open 200).run ⟨4, 8⟩ [Op.Put [1] [5], Op.Put [2] [6], Op.Del [1]]).enumerate ⟨4, 8⟩ [0]
        (List.replicate (2 ^ 32) (Iter.mk [1] [0] false false)) 7
        [0, 0, 0, 0] [0, 0, 0, 0] 4 4 2 = [([2], [6]), ([2], [6])]) ∧
    ¬ ((((KVSRadixTree.Open 200).run ⟨4, 8⟩ [Op.Put [1] [5], Op.Put [2] [6], Op.Del [1]]).enumerate ⟨4, 8⟩ [0]
        (List.replicate (2 ^ 32) (Iter.mk [1] [0] false false)) 7
        [0, 0, 0, 0] [0, 0, 0, 0] 4 4 2).map Prod.fst).Pairwise
          (fun a b => keyLt a b = true) := by
  have hl : (List.replicate (2 ^ 32) (Iter.mk [1] [0] false false)).length = 2 ^ 32 :=
    List.length_replicate _ _
  have h0 : (List.replicate (2 ^ 32) (Iter.mk [1] [0] false false))[0]?
      = some (Iter.mk [1] [0] false false) := by
    rw [List.getElem?_replicate, if_pos (by decide)]
  generalize List.replicate (2 ^ 32) (Iter.mk [1] [0] false false) = I at hl h0 ⊢
  have hpos : 0 < I.length := by rw [hl]; decide
  have hc0 : castInt I.length = 0 := by rw [hl]; decide
  have hc1 : castInt (I.length + 1) = 1 := by rw [hl]; decide
  have hscan : ((KVSRadixTree.Open 200).run ⟨4, 8⟩ [Op.Put [1] [5], Op.Put [2] [6], Op.Del [1]]).Scan ⟨4, 8⟩ [0] I 7 [0, 0, 0, 0] 4 [0, 0, 0, 0] 4 [0] false [0] false =
      { iters := I ++ [Iter.mk [2] [0] false false], ret := 0, iter_handle := 0,
        key := [2, 0, 0, 0], key_len := 1, val := [6, 0, 0, 0], val_len := 1 } := by
    rw [KVSRadixTree.Scan_found ⟨4, 8⟩ [0] _ I 7 [0, 0, 0, 0] 4 [0, 0, 0, 0] 4 [0] false [0]
      false [2] (by decide) (by decide) (by decide) (by decide) (by decide), hc0]
    split
    · rename_i hsmall
      exact absurd hsmall (by decide)
    · rfl
  have hok : ¬ ((0 : Int) < 0 ∨ (0 : Int) ≥ castInt
      (I ++ [Iter.mk [2] [0] false false]).length) := by
    rw [List.length_append, List.length_singleton, hc1]
    decide
  have hit : (I ++ [Iter.mk [2] [0] false false])[(0 : Int).toNat]?
      = some (Iter.mk [1] [0] false false) := by
    show (I ++ [Iter.mk [2] [0] false false])[0]? = _
    rw [List.getElem?_append_left hpos]
    exact h0
  have hg1 : ((KVSRadixTree.Open 200).run ⟨4, 8⟩ [Op.Put [1] [5], Op.Put [2] [6], Op.Del [1]]).GetNext ⟨4, 8⟩ [0] (I ++ [Iter.mk [2] [0] false false]) 0
      [2, 0, 0, 0] 4 [6, 0, 0, 0] 4 =
      { iters := (I ++ [Iter.mk [2] [0] false false]).set 0 (Iter.mk [2] [0] false false),
        ret := 0, key := [2, 0, 0, 0], key_len := 1, val := [6, 0, 0, 0], val_len := 1 } := by
    rw [KVSRadixTree.GetNext_at ⟨4, 8⟩ [0] _ _ 0 [2, 0, 0, 0] 4 [6, 0, 0, 0] 4
      (Iter.mk [1] [0] false false) (by decide) (by decide) hok hit]
    split
    · rename_i hbad
      exact absurd hbad (by decide)
    · split
      · rename_i hbad
        exact absurd hbad (by decide)
      · rfl
  have hok2 : ¬ ((0 : Int) < 0 ∨ (0 : Int) ≥ castInt
      ((I ++ [Iter.mk [2] [0] false false]).set 0 (Iter.mk [2] [0] false false)).length) := by
    rw [List.length_set, List.length_append, List.length_singleton, hc1]
    decide
  have hit2 : ((I ++ [Iter.mk [2] [0] false false]).set 0
      (Iter.mk [2] [0] false false))[(0 : Int).toNat]? = some (Iter.mk [2] [0] false false) := by
    show ((I ++ [Iter.mk [2] [0] false false]).set 0 (Iter.mk [2] [0] false false))[0]? = _
    rw [List.getElem?_set_self (by rw [List.length_append]; exact Nat.lt_add_right _ hpos)]
  have hg2 : (((KVSRadixTree.Open 200).run ⟨4, 8⟩ [Op.Put [1] [5], Op.Put [2] [6], Op.Del [1]]).GetNext ⟨4, 8⟩ [0]
      ((I ++ [Iter.mk [2] [0] false false]).set 0 (Iter.mk [2] [0] false false)) 0
      [2, 0, 0, 0] 4 [6, 0, 0, 0] 4).ret = -2 := by
    rw [KVSRadixTree.GetNext_at ⟨4, 8⟩ [0] _ _ 0 [2, 0, 0, 0] 4 [6, 0, 0, 0] 4
      (Iter.mk [2] [0] false false) (by decide) (by decide) hok2 hit2]
    split
    · rfl
    · rename_i hbad
      exact absurd hbad (by decide)
  have key : ((KVSRadixTree.Open 200).run ⟨4, 8⟩ [Op.Put [1] [5], Op.Put [2] [6], Op.Del [1]]).enumerate ⟨4, 8⟩ [0] I 7
        [0, 0, 0, 0] [0, 0, 0, 0] 4 4 2 = [([2], [6]), ([2], [6])] := by
    unfold KVSRadixTree.enumerate
    simp only
    rw [hscan]
    simp only
    rw [if_pos trivial, KVSRadixTree.collect_succ ⟨4, 8⟩ [0] _ 0 4 4 1, hg1]
    simp only
    rw [if_pos trivial, KVSRadixTree.collect_succ ⟨4, 8⟩ [0] _ 0 4 4 0,
      if_neg (by rw [hg2]; decide)]
    rfl
  rw [key]
  exact ⟨rfl, by decide⟩

/-- C15 (ordered enumeration, amended).  With fewer than 2^32 iterators registered (so
that the `int` handle `Scan` returns is the index of its iterator, or negative),
the pairs returned by a `Scan` with both endpoints `OPEN_BOUNDARY` and the
`GetNext` calls after it, up to the first failure, have strictly increasing
keys; every returned key is stored and comes with the value stored under it;
and there are at most as many pairs as stored keys, so the calls do reach a
failure. -/
theorem ordered_enumeration (L : Limits) (ob : Bytes) (s : KVSRadixTree) (iters : List Iter)
    (h : Int) (key val : Bytes) (kc vc fuel : Nat) (hreg : iters.length < 2 ^ 32) :
    ((s.enumerate L ob iters h key val kc vc fuel).map Prod.fst).Pairwise
      (fun a b => keyLt a b = true) ∧
    (∀ p ∈ s.enumerate L ob iters h key val kc vc fuel,
      (s.tree.get p.1).IsValid ∧ ∀ w : Bytes, s.Holds p.1 w → p.2 = w) ∧
    (s.enumerate L ob iters h key val kc vc fuel).length ≤ s.tree.stored.length := by
  have key3 : List.Chain' (fun a b => keyLt a b = true)
      ((s.enumerate L ob iters h key val kc vc fuel).map Prod.fst) ∧
      (∀ p ∈ s.enumerate L ob iters h key val kc vc fuel,
        (s.tree.get p.1).IsValid ∧ ∀ w : Bytes, s.Holds p.1 w → p.2 = w) := by
    unfold KVSRadixTree.enumerate
    simp only
    by_cases hret : (s.Scan L ob iters h key kc val vc ob false ob false).ret = 0
    · rw [if_pos hret]
      obtain ⟨k, hseek, heq⟩ := Scan_ret_zero L ob s iters h key kc val vc ob false ob false hret
      have hs := seek_some hseek
      rw [heq]
      simp only
      have hkey : (fam_memcpy key k k.length).take k.length = k := fam_memcpy_take _ _
      have hfirst : ∀ w : Bytes, s.Holds k w →
          (fam_memcpy val (s.heap.mem (s.tree.get k).gptr).val
            (s.heap.mem (s.tree.get k).gptr).size).take
              (s.heap.mem (s.tree.get k).gptr).size = w := by
        intro w hw
        have hm : s.heap.mem (s.tree.get k).gptr = { size := w.length, val := w } := hw.2
        rw [hm]
        exact fam_memcpy_take _ _
      rw [hkey]
      by_cases hsmall : iters.length < 2 ^ 31
      · rw [castInt_small _ hsmall]
        have hrec := collect_spec L ob s (iters.length : Int) kc vc fuel
          (iters ++ [{ cur := k, end_key := ob, end_key_inclusive := false, done := false }])
          (fam_memcpy key k k.length)
          (fam_memcpy val (s.heap.mem (s.tree.get k).gptr).val
            (s.heap.mem (s.tree.get k).gptr).size)
        have hnew : (iters ++ [Iter.mk k ob false false])[(iters.length : Int).toNat]? =
            some (Iter.mk k ob false false) := by
          rw [Int.toNat_ofNat]
          exact List.getElem?_concat_length _ _
        refine ⟨?_, fun p hp => ?_⟩
        · rw [List.map_cons, List.chain'_cons']
          exact ⟨fun y hy => hrec.2.1 _ hnew y hy, hrec.1⟩
        · rcases List.mem_cons.mp hp with h1 | h1
          · rw [h1]
            exact ⟨hs.1, hfirst⟩
          · exact hrec.2.2 p h1
      · rw [collect_bad L ob s _ kc vc fuel _ _ _
          (Or.inl (castInt_neg _ (not_lt.mp hsmall) hreg))]
        refine ⟨List.chain'_singleton _, fun p hp => ?_⟩
        rw [List.mem_singleton.mp hp]
        exact ⟨hs.1, hfirst⟩
    · rw [if_neg hret]
      exact ⟨List.chain'_nil, fun p hp => by simp at hp⟩
  have hpw := chain_pairwise_keyLt key3.1
  refine ⟨hpw, key3.2, ?_⟩
  have hnd := pairwise_keyLt_nodup hpw
  have hsub : (s.enumerate L ob iters h key val kc vc fuel).map Prod.fst ⊆ s.tree.stored := by
    intro x hx
    obtain ⟨p, hp, hpx⟩ := List.mem_map.mp hx
    rw [← hpx]
    exact (mem_stored s.tree p.1).mpr (key3.2 p hp).1
  have := (List.Nodup.subperm hnd hsub).length_le
  rw [List.length_map] at this
  exact this

theorem ordered_enumeration_witness :
    (((KVSRadixTree.Open 200).run ⟨4, 8⟩
        [Op.Put [2] [6], Op.Put [1, 5] [7, 7], Op.Put [1] [5]]).enumerate ⟨4, 8⟩ [0] [] 0
        [0, 0, 0, 0] [0, 0, 0, 0] 4 4 5).length ≤ 3 ∧
    ((KVSRadixTree.Open 200).run ⟨4, 8⟩
        [Op.Put [2] [6], Op.Put [1, 5] [7, 7], Op.Put [1] [5]]).enumerate ⟨4, 8⟩ [0] [] 0
        [0, 0, 0, 0] [0, 0, 0, 0] 4 4 5 = [([1], [5]), ([1, 5], [7, 7]), ([2], [6])] := by
  have h := ordered_enumeration ⟨4, 8⟩ [0]
    ((KVSRadixTree.Open 200).run ⟨4, 8⟩ [Op.Put [2] [6], Op.Put [1, 5] [7, 7], Op.Put [1] [5]])
    [] 0 [0, 0, 0, 0] [0, 0, 0, 0] 4 4 5 (by decide)
  exact ⟨h.2.2, by decide⟩

/-! ## Lemmas on the transaction manager -/

theorem lookupIndex_append (name n : Bytes) (t : RadixTree) (l : List (Bytes × RadixTree)) :
    lookupIndex name (l ++ [(n, t)]) =
      match lookupIndex name l with
      | some x => some x
      | none => if n = name then some t else none := by
  induction l with
  | nil => simp [lookupIndex]
  | cons e rest ih =>
    by_cases he : e.1 = name
    · simp [lookupIndex, he]
    · simp [lookupIndex, he, ih]

namespace TransactionManager

theorem createIndex_taken (tm : TransactionManager) (tid : Nat) (name : Bytes) (t : RadixTree)
    (h : lookupIndex name tm.indexes = some t) :
    tm.createIndex tid name =
      (tm, { code_ := StatusCode.ALREADY_EXISTS, details_ := "" }) := by
  unfold TransactionManager.createIndex
  rw [h]

theorem createIndex_unused (tm : TransactionManager) (tid : Nat) (name : Bytes)
    (h : lookupIndex name tm.indexes = none) :
    tm.createIndex tid name =
      ({ tm with indexes := tm.indexes ++ [(name, { nodes := [] })] }, Status.new) := by
  unfold TransactionManager.createIndex
  rw [h]

/-- After `createIndex(tid, name)` the names taken are those taken before and
`name`. -/
theorem lookup_createIndex (tm : TransactionManager) (tid : Nat) (name n : Bytes) :
    (lookupIndex n (tm.createIndex tid name).1.indexes).isSome =
      ((lookupIndex n tm.indexes).isSome || decide (name = n)) := by
  cases h : lookupIndex name tm.indexes with
  | some t =>
    rw [createIndex_taken tm tid name t h]
    by_cases hn : name = n
    · rw [← hn, h]
      simp
    · simp [hn]
  | none =>
    rw [createIndex_unused tm tid name h]
    simp only [lookupIndex_append]
    cases h2 : lookupIndex n tm.indexes with
    | some x => simp
    | none =>
      by_cases hn : name = n
      · simp [hn]
      · simp [hn]

theorem lookup_createAll (calls : List (Nat × Bytes)) (tm : TransactionManager) (n : Bytes) :
    (lookupIndex n (tm.createAll calls).indexes).isSome =
      ((lookupIndex n tm.indexes).isSome || decide (n ∈ calls.map Prod.snd)) := by
  induction calls generalizing tm with
  | nil => simp [TransactionManager.createAll]
  | cons c rest ih =>
    have hstep : tm.createAll (c :: rest) = (tm.createIndex c.1 c.2).1.createAll rest := rfl
    rw [hstep, ih, lookup_createIndex]
    by_cases h1 : c.2 = n
    · simp [h1]
    · have h2 : ¬ n = c.2 := fun h => h1 h.symm
      have h3 : (n == c.2) = false := by
        cases hb : n == c.2 with
        | false => rfl
        | true => exact absurd (eq_of_beq hb) h2
      simp [h1, h3]

end TransactionManager

/-- C20 (index name collision).  After `Reset` and any sequence of `createIndex`
calls, `createIndex(tid, name)` returns OK when `name` was not created before
(the first call for a name, also after other names were created) and
`ALREADY_EXISTS` when it was, and then leaves the manager as it is.  In every
state, a `createIndex` on a taken name returns `ALREADY_EXISTS` and leaves the
manager, the registered tree with all its content included, unchanged; on an
unused name it returns OK and registers an empty tree without touching the
trees under other names. -/
theorem create_index_collision (tm0 : TransactionManager) (tid : Nat) (name : Bytes) :
    (∀ calls : List (Nat × Bytes),
      (name ∉ calls.map Prod.snd →
        (((tm0.Reset).createAll calls).createIndex tid name).2.error_code = StatusCode.OK ∧
        (((tm0.Reset).createAll calls).createIndex tid name).2.ok = true) ∧
      (name ∈ calls.map Prod.snd →
        (((tm0.Reset).createAll calls).createIndex tid name).2.error_code =
          StatusCode.ALREADY_EXISTS ∧
        (((tm0.Reset).createAll calls).createIndex tid name).2.ok = false ∧
        (((tm0.Reset).createAll calls).createIndex tid name).1 =
          (tm0.Reset).createAll calls)) ∧
    (∀ (tm : TransactionManager) (t : RadixTree), lookupIndex name tm.indexes = some t →
      (tm.createIndex tid name).2.error_code = StatusCode.ALREADY_EXISTS ∧
      (tm.createIndex tid name).1 = tm ∧
      lookupIndex name (tm.createIndex tid name).1.indexes = some t) ∧
    (∀ tm : TransactionManager, lookupIndex name tm.indexes = none →
      (tm.createIndex tid name).2.error_code = StatusCode.OK ∧
      lookupIndex name (tm.createIndex tid name).1.indexes = some { nodes := [] } ∧
      (∀ other : Bytes, other ≠ name →
        lookupIndex other (tm.createIndex tid name).1.indexes =
          lookupIndex other tm.indexes)) := by
  have taken : ∀ (tm : TransactionManager) (t : RadixTree),
      lookupIndex name tm.indexes = some t →
      (tm.createIndex tid name).2.error_code = StatusCode.ALREADY_EXISTS ∧
      (tm.createIndex tid name).1 = tm ∧
      lookupIndex name (tm.createIndex tid name).1.indexes = some t := by
    intro tm t h
    rw [TransactionManager.createIndex_taken tm tid name t h]
    exact ⟨rfl, rfl, h⟩
  have unused : ∀ tm : TransactionManager, lookupIndex name tm.indexes = none →
      (tm.createIndex tid name).2.error_code = StatusCode.OK ∧
      lookupIndex name (tm.createIndex tid name).1.indexes = some { nodes := [] } ∧
      (∀ other : Bytes, other ≠ name →
        lookupIndex other (tm.createIndex tid name).1.indexes =
          lookupIndex other tm.indexes) := by
    intro tm h
    rw [TransactionManager.createIndex_unused tm tid name h]
    refine ⟨rfl, ?_, fun other hne => ?_⟩
    · simp [lookupIndex_append, h]
    · simp only [lookupIndex_append]
      cases lookupIndex other tm.indexes with
      | some x => rfl
      | none => simp [Ne.symm hne]
  refine ⟨fun calls => ⟨fun hnew => ?_, fun hold => ?_⟩, taken, unused⟩
  · have hl := TransactionManager.lookup_createAll calls tm0.Reset name
    have hnone : lookupIndex name ((tm0.Reset).createAll calls).indexes = none := by
      cases h : lookupIndex name ((tm0.Reset).createAll calls).indexes with
      | none => rfl
      | some t =>
        rw [h] at hl
        simp [TransactionManager.Reset, lookupIndex, hnew] at hl
    have h1 := (unused _ hnone).1
    refine ⟨h1, ?_⟩
    unfold Status.ok
    unfold Status.error_code at h1
    rw [h1]
    rfl
  · have hl := TransactionManager.lookup_createAll calls tm0.Reset name
    cases h : lookupIndex name ((tm0.Reset).createAll calls).indexes with
    | none =>
      rw [h] at hl
      simp [TransactionManager.Reset, lookupIndex, hold] at hl
    | some t =>
      have h1 := taken _ t h
      refine ⟨h1.1, ?_, h1.2.1⟩
      have h2 := h1.1
      unfold Status.ok
      unfold Status.error_code at h2
      rw [h2]
      rfl

theorem create_index_collision_witness :
    (((TransactionManager.mk 5 []).Reset.createAll [(1, [65])]).createIndex 1 [65]).2.ok
      = false ∧
    (((TransactionManager.mk 5 []).Reset.createAll [(1, [65])]).createIndex 1 [66]).2.ok
      = true := by
  have h1 := ((create_index_collision (TransactionManager.mk 5 []) 1 [65]).1
    [(1, [65])]).2 (by decide)
  have h2 := ((create_index_collision (TransactionManager.mk 5 []) 1 [66]).1
    [(1, [65])]).1 (by decide)
  exact ⟨h1.2.1, h2.2⟩

/-- C21 (status accessors): a default-constructed `Status` has code OK and an
empty detail string; `Status(c, d)` gives back `c` from `error_code()` and `d`
from `error_message()`; `ok()` holds iff `error_code()` is OK, and `notOk()` is
the negation of `ok()`. -/
theorem status_accessors :
    Status.new.error_code = StatusCode.OK ∧
    Status.new.error_message = "" ∧
    (∀ (c : StatusCode) (d : String),
      (Status.mk c d).error_code = c ∧ (Status.mk c d).error_message = d) ∧
    (∀ st : Status, (st.ok = true ↔ st.error_code = StatusCode.OK) ∧ st.notOk = !st.ok) := by
  refine ⟨rfl, rfl, fun c d => ⟨rfl, rfl⟩, fun st => ⟨?_, ?_⟩⟩
  · unfold Status.ok Status.error_code
    exact decide_eq_true_iff
  · unfold Status.ok Status.notOk
    by_cases h : st.code_ = StatusCode.OK
    · simp [h]
    · simp [h]

/-- C22 (status code numbering): `UNAUTHENTICATED` and `FAILED` both have the
value 16, so the `error_code()` of a `Status` built with `FAILED` equals
`UNAUTHENTICATED`; any two different enumerators other than this pair (the
recognised codes `OK` ... `END_OF_DATA`, and `DO_NOT_USE` as well) have
different values. -/
theorem status_code_numbering :
    StatusCode.UNAUTHENTICATED = 16 ∧ StatusCode.FAILED = 16 ∧
    (∀ d : String, (Status.mk StatusCode.FAILED d).error_code = StatusCode.UNAUTHENTICATED) ∧
    (∀ a b : StatusName, a ≠ b →
      (a.code = b.code ↔
        (a = StatusName.UNAUTHENTICATED ∧ b = StatusName.FAILED) ∨
        (a = StatusName.FAILED ∧ b = StatusName.UNAUTHENTICATED))) := by
  refine ⟨rfl, rfl, fun _ => rfl, ?_⟩
  intro a b hne
  cases a <;> cases b <;> first
    | exact absurd rfl hne
    | decide

theorem status_code_numbering_witness :
    (StatusName.UNAUTHENTICATED.code = StatusName.FAILED.code) ∧
    ¬ (StatusName.NOT_FOUND.code = StatusName.END_OF_DATA.code) := by
  have h1 := status_code_numbering.2.2.2 StatusName.UNAUTHENTICATED StatusName.FAILED
    (by decide)
  have h2 := status_code_numbering.2.2.2 StatusName.NOT_FOUND StatusName.END_OF_DATA
    (by decide)
  exact ⟨h1.mpr (Or.inl ⟨rfl, rfl⟩), fun h => by
    rcases h2.mp h with h3 | h3
    · exact absurd h3.1 (by decide)
    · exact absurd h3.1 (by decide)⟩

/-- C24 (FindOrCreate with a too-small return buffer): in a well-formed state
where `k` holds `w`, with the value length within bounds, a successful
allocation and `ret_len < |w|`, `FindOrCreate` returns -1, writes `|w|` into
`ret_len`, leaves `ret_val` as it was, passes the block just allocated to
`Free`, and leaves the tree as it was with `k` still holding `w`. -/
theorem find_or_create_small_buffer (L : Limits) (s : KVSRadixTree) (k w v rv : Bytes)
    (rl : Nat) (hwf : s.WF L) (hh : s.Holds k w) (hv : v.length ≤ L.kMaxValLen)
    (ha : Gptr.IsValid (s.allocFor v)) (hrl : rl < w.length) :
    (s.FindOrCreate L k v rv rl).ret = -1 ∧
    (s.FindOrCreate L k v rv rl).ret_len = w.length ∧
    (s.FindOrCreate L k v rv rl).ret_val = rv ∧
    (s.FindOrCreate L k v rv rl).state.heap.pending = s.allocFor v :: s.heap.pending ∧
    (s.FindOrCreate L k v rv rl).state.tree = s.tree ∧
    (s.FindOrCreate L k v rv rl).state.Holds k w := by
  obtain ⟨h0, hsz⟩ := Alloc_valid _ _ ha
  have hb := WF_valid hwf hh.1
  have hst : s.FindOrCreate L k v rv rl =
      { state := { heap := heapAfter s.heap v (some s.heap.next), tree := s.tree },
        ret := -1, ret_val := rv, ret_len := w.length } := by
    rw [FindOrCreate_Holds L s k w v rv rl hwf hh hv h0 hsz, if_pos hrl]
  have hal : s.allocFor v = s.heap.next := Alloc_snd _ _ ha
  have hh2 : (s.FindOrCreate L k v rv rl).state.Holds k w := by
    rw [hst]
    refine Holds_frame _ s k w hh rfl ?_
    simp only [heapAfter]
    rw [if_neg (Nat.ne_of_lt hb.2)]
  rw [hst] at hh2 ⊢
  rw [hal]
  exact ⟨rfl, rfl, rfl, rfl, rfl, hh2⟩

theorem find_or_create_small_buffer_witness :
    (((KVSRadixTree.Open 64).Put ⟨4, 8⟩ [5] [7, 8]).state.FindOrCreate ⟨4, 8⟩ [5] [9]
      [0] 1).ret = -1 ∧
    (((KVSRadixTree.Open 64).Put ⟨4, 8⟩ [5] [7, 8]).state.FindOrCreate ⟨4, 8⟩ [5] [9]
      [0] 1).ret_len = 2 ∧
    (((KVSRadixTree.Open 64).Put ⟨4, 8⟩ [5] [7, 8]).state.FindOrCreate ⟨4, 8⟩ [5] [9]
      [0] 1).state.heap.pending = [11] := by
  have h := find_or_create_small_buffer ⟨4, 8⟩
    ((KVSRadixTree.Open 64).Put ⟨4, 8⟩ [5] [7, 8]).state [5] [7, 8] [9] [0] 1
    (by decide) (by decide) (by decide) (by decide) (by decide)
  refine ⟨h.1, h.2.1, ?_⟩
  rw [h.2.2.2.1]
  decide

/-! ## Lemmas on the record of allocated blocks -/

namespace KVSRadixTree

theorem heapAfter_pending_mem (h : Heap) (v : Bytes) (pend : Option Gptr) {g : Gptr}
    (hg : g ∈ h.pending) : g ∈ (heapAfter h v pend).pending := by
  cases pend with
  | none => exact hg
  | some g2 => exact List.mem_cons_of_mem _ hg

/-- A block that is accounted for before a call is accounted for after it. -/
theorem step_accounted (L : Limits) (s : KVSRadixTree) (op : Op) (g : Gptr)
    (hg : s.Accounted g) : (s.step L op).Accounted g := by
  cases op with
  | Put key val =>
    simp only [step]
    by_cases hc : key.length ≤ L.kMaxKeyLen ∧ val.length ≤ L.kMaxValLen ∧ 0 < s.heap.next ∧
        s.heap.next + (val.length + sizeofValBuf) ≤ s.heap.size
    · obtain ⟨hk, hv, h0, hsz⟩ := hc
      rw [Put_ok L s key val hk hv h0 hsz]
      rcases hg with ⟨k, hl⟩ | hp
      · by_cases hkk : k = key
        · right
          rw [hkk] at hl
          show g ∈ (heapAfter s.heap val _).pending
          rw [if_pos hl.1, ← hl.2]
          exact List.mem_cons_self _ _
        · left
          refine ⟨k, ?_⟩
          show ((s.tree.put key s.heap.next UpdateFlags.UPDATE).1.get k).IsValid ∧
            ((s.tree.put key s.heap.next UpdateFlags.UPDATE).1.get k).gptr = g
          rw [RadixTree.get_put_other s.tree hkk]
          exact hl
      · exact Or.inr (heapAfter_pending_mem _ _ _ hp)
    · rw [Put_fail L s key val hc]
      exact hg
  | Del key =>
    simp only [step]
    by_cases hk : key.length ≤ L.kMaxKeyLen
    · by_cases hval : (s.tree.get key).IsValid
      · rw [Del_present L s key hk hval]
        rcases hg with ⟨k, hl⟩ | hp
        · by_cases hkk : k = key
          · right
            rw [hkk] at hl
            show g ∈ (s.heap.Free (s.tree.get key).gptr).pending
            rw [← hl.2]
            exact List.mem_cons_self _ _
          · left
            refine ⟨k, ?_⟩
            show ((s.tree.destroy key).1.get k).IsValid ∧ ((s.tree.destroy key).1.get k).gptr = g
            rw [RadixTree.get_destroy_other s.tree hkk]
            exact hl
        · exact Or.inr (List.mem_cons_of_mem _ hp)
      · rw [Del_absent L s key hk hval]
        exact hg
    · rw [Del_long L s key (not_le.mp hk)]
      exact hg
  | FindOrCreate key val rv rl =>
    simp only [step]
    by_cases hc : key.length ≤ L.kMaxKeyLen ∧ val.length ≤ L.kMaxValLen ∧ 0 < s.heap.next ∧
        s.heap.next + (val.length + sizeofValBuf) ≤ s.heap.size
    · obtain ⟨hk, hv, h0, hsz⟩ := hc
      by_cases hval : (s.tree.get key).IsValid
      · rw [FindOrCreate_present L s key val rv rl hk hv h0 hsz hval]
        have key2 : ({ heap := heapAfter s.heap val (some s.heap.next), tree := s.tree } :
            KVSRadixTree).Accounted g := by
          rcases hg with hl | hp
          · exact Or.inl hl
          · exact Or.inr (heapAfter_pending_mem _ _ _ hp)
        split <;> exact key2
      · rw [FindOrCreate_absent L s key val rv rl hk hv h0 hsz hval]
        rcases hg with ⟨k, hl⟩ | hp
        · by_cases hkk : k = key
          · rw [hkk] at hl
            exact absurd hl.1 hval
          · left
            refine ⟨k, ?_⟩
            show ((s.tree.put key s.heap.next UpdateFlags.FIND_OR_CREATE).1.get k).IsValid ∧
              ((s.tree.put key s.heap.next UpdateFlags.FIND_OR_CREATE).1.get k).gptr = g
            rw [RadixTree.get_put_other s.tree hkk]
            exact hl
        · exact Or.inr hp
    · rw [FindOrCreate_fail L s key val rv rl hc]
      exact hg

/-- The block a call obtains from `Alloc` is accounted for after the call. -/
theorem step_alloc_accounted (L : Limits) (s : KVSRadixTree) (op : Op) (g : Gptr)
    (hg : s.allocOf L op = some g) : (s.step L op).Accounted g := by
  cases op with
  | Del key => simp [allocOf] at hg
  | Put key val =>
    simp only [allocOf] at hg
    split at hg
    · rename_i hc
      obtain ⟨hk, hv, ha⟩ := hc
      obtain ⟨h0, hsz⟩ := Alloc_valid _ _ ha
      have hal : s.allocFor val = s.heap.next := Alloc_snd _ _ ha
      simp only [Option.some.injEq] at hg
      rw [← hg, hal]
      simp only [step]
      rw [Put_ok L s key val hk hv h0 hsz]
      left
      refine ⟨key, ?_⟩
      show ((s.tree.put key s.heap.next UpdateFlags.UPDATE).1.get key).gptr ≠ 0 ∧
        ((s.tree.put key s.heap.next UpdateFlags.UPDATE).1.get key).gptr = s.heap.next
      rw [RadixTree.get_put_update]
      exact ⟨Nat.pos_iff_ne_zero.mp h0, rfl⟩
    · simp at hg
  | FindOrCreate key val rv rl =>
    simp only [allocOf] at hg
    split at hg
    · rename_i hc
      obtain ⟨hk, hv, ha⟩ := hc
      obtain ⟨h0, hsz⟩ := Alloc_valid _ _ ha
      have hal : s.allocFor val = s.heap.next := Alloc_snd _ _ ha
      simp only [Option.some.injEq] at hg
      rw [← hg, hal]
      simp only [step]
      by_cases hval : (s.tree.get key).IsValid
      · rw [FindOrCreate_present L s key val rv rl hk hv h0 hsz hval]
        have key2 : ({ heap := heapAfter s.heap val (some s.heap.next), tree := s.tree } :
            KVSRadixTree).Accounted s.heap.next := by
          right
          simp [heapAfter]
        split <;> exact key2
      · rw [FindOrCreate_absent L s key val rv rl hk hv h0 hsz hval]
        left
        refine ⟨key, ?_⟩
        show ((s.tree.put key s.heap.next UpdateFlags.FIND_OR_CREATE).1.get key).gptr ≠ 0 ∧
          ((s.tree.put key s.heap.next UpdateFlags.FIND_OR_CREATE).1.get key).gptr
            = s.heap.next
        rw [RadixTree.get_put_foc_absent s.tree key s.heap.next hval]
        exact ⟨Nat.pos_iff_ne_zero.mp h0, rfl⟩
    · simp at hg

theorem run_accounted (L : Limits) (ops : List Op) (s : KVSRadixTree) (g : Gptr)
    (hg : s.Accounted g) : (s.run L ops).Accounted g := by
  induction ops generalizing s with
  | nil => exact hg
  | cons op ops ih => exact ih (s.step L op) (step_accounted L s op g hg)

/-- Every block `Alloc` returned during a run is accounted for at its end. -/
theorem allocated_accounted (L : Limits) (ops : List Op) (s : KVSRadixTree) (g : Gptr)
    (hg : g ∈ allocated L s ops) : (s.run L ops).Accounted g := by
  induction ops generalizing s with
  | nil => simp [allocated] at hg
  | cons op ops ih =>
    unfold allocated at hg
    cases ha : s.allocOf L op with
    | none =>
      rw [ha] at hg
      exact ih (s.step L op) hg
    | some g2 =>
      rw [ha] at hg
      rcases List.mem_cons.mp hg with h1 | h1
      · rw [h1]
        exact run_accounted L ops (s.step L op) g2 (step_alloc_accounted L s op g2 ha)
      · exact ih (s.step L op) h1

end KVSRadixTree

/-- C26 (no leaked and no doubly freed value block): after any sequence of
`Put`, `Del` and `FindOrCreate` calls on a newly opened store, every block that
`Alloc` returned is either linked under some key and was not passed to `Free`,
or is linked under no key and was passed to `Free` exactly once; no block was
passed to `Free` twice; and a `FindOrCreate` that finds a value passes the block
it allocated to `Free` in that same call. -/
theorem no_leak_no_double_free (L : Limits) (heap_size : Nat) (ops : List Op) :
    (∀ g ∈ (KVSRadixTree.Open heap_size).allocated L ops,
      ((∃ k : Bytes, ((KVSRadixTree.Open heap_size).run L ops).Links k g) ∧
        g ∉ ((KVSRadixTree.Open heap_size).run L ops).heap.pending) ∨
      ((¬ ∃ k : Bytes, ((KVSRadixTree.Open heap_size).run L ops).Links k g) ∧
        ((KVSRadixTree.Open heap_size).run L ops).heap.pending.count g = 1)) ∧
    ((KVSRadixTree.Open heap_size).run L ops).heap.pending.Nodup ∧
    (∀ g : Gptr, ((KVSRadixTree.Open heap_size).run L ops).heap.pending.count g ≤ 1) ∧
    (∀ (s : KVSRadixTree) (k v rv : Bytes) (rl : Nat), k.length ≤ L.kMaxKeyLen →
      v.length ≤ L.kMaxValLen → Gptr.IsValid (s.allocFor v) → (s.tree.get k).IsValid →
      (s.FindOrCreate L k v rv rl).state.heap.pending = s.allocFor v :: s.heap.pending) := by
  have ho := Own_run L ops (Own_Open heap_size)
  refine ⟨fun g hg => ?_, ho.2.2.2, fun g => List.nodup_iff_count_le_one.mp ho.2.2.2 g,
    fun s k v rv rl hk hv ha hval => ?_⟩
  · rcases allocated_accounted L ops _ g hg with ⟨k, hl⟩ | hp
    · left
      refine ⟨⟨k, hl⟩, ?_⟩
      rw [← hl.2]
      exact (Own_valid ho hl.1).2
    · right
      refine ⟨fun ⟨k, hl⟩ => ?_, List.count_eq_one_of_mem ho.2.2.2 hp⟩
      have := (Own_valid ho hl.1).2
      rw [hl.2] at this
      exact this hp
  · obtain ⟨h0, hsz⟩ := Alloc_valid _ _ ha
    have hal : s.allocFor v = s.heap.next := Alloc_snd _ _ ha
    rw [FindOrCreate_present L s k v rv rl hk hv h0 hsz hval, hal]
    split <;> rfl

theorem no_leak_no_double_free_witness :
    ((KVSRadixTree.Open 64).allocated ⟨4, 8⟩
      [Op.Put [1] [5], Op.Put [1] [6], Op.FindOrCreate [1] [7] [] 0, Op.Del [1]]) = [1, 10, 19] ∧
    ((KVSRadixTree.Open 64).run ⟨4, 8⟩
      [Op.Put [1] [5], Op.Put [1] [6], Op.FindOrCreate [1] [7] [] 0,
       Op.Del [1]]).heap.pending.count 10 = 1 := by
  have h := (no_leak_no_double_free ⟨4, 8⟩ 64
    [Op.Put [1] [5], Op.Put [1] [6], Op.FindOrCreate [1] [7] [] 0, Op.Del [1]]).1 10
    (by decide)
  refine ⟨by decide, ?_⟩
  rcases h with h1 | h1
  · exact absurd h1.2 (by decide)
  · exact h1.2

/-! ## Lemmas on sequences of Scan and GetNext calls -/

namespace KVSRadixTree

/-- A `Scan` that does not return 0 leaves the registry and the caller's
`iter_handle` as they were. -/
theorem Scan_fail_unchanged (L : Limits) (ob : Bytes) (s : KVSRadixTree) (iters : List Iter)
    (h : Int) (key : Bytes) (key_len : Nat) (val : Bytes) (val_len : Nat) (b : Bytes)
    (bi : Bool) (e : Bytes) (ei : Bool)
    (hret : (s.Scan L ob iters h key key_len val val_len b bi e ei).ret ≠ 0) :
    (s.Scan L ob iters h key key_len val val_len b bi e ei).iters = iters ∧
    (s.Scan L ob iters h key key_len val val_len b bi e ei).iter_handle = h := by
  by_cases hg : b.length ≤ L.kMaxKeyLen ∧ e.length ≤ L.kMaxKeyLen ∧
      key_len ≤ L.kMaxKeyLen ∧ val_len ≤ L.kMaxValLen
  · obtain ⟨hb, he, hk, hv⟩ := hg
    cases hseek : s.tree.seek (fun k => aboveBegin ob b bi k && belowEnd ob e ei k) with
    | none =>
      rw [Scan_empty L ob s iters h key key_len val val_len b bi e ei hb he hk hv hseek]
      exact ⟨rfl, rfl⟩
    | some k =>
      have hf := Scan_found L ob s iters h key key_len val val_len b bi e ei k hb he hk hv
        hseek
      by_cases hsmall : val_len < (s.heap.mem (s.tree.get k).gptr).size
      · rw [if_pos hsmall] at hf
        rw [hf]
        exact ⟨rfl, rfl⟩
      · rw [if_neg hsmall] at hf
        rw [hf] at hret
        exact absurd rfl hret
  · rw [Scan_guard L ob s iters h key key_len val val_len b bi e ei hg]
    exact ⟨rfl, rfl⟩

/-- A `Scan` that returns 0 registers one more iterator and returns the
registry size before the call, converted to `int`. -/
theorem Scan_ok_registry (L : Limits) (ob : Bytes) (s : KVSRadixTree) (iters : List Iter)
    (h : Int) (key : Bytes) (key_len : Nat) (val : Bytes) (val_len : Nat) (b : Bytes)
    (bi : Bool) (e : Bytes) (ei : Bool)
    (hret : (s.Scan L ob iters h key key_len val val_len b bi e ei).ret = 0) :
    (s.Scan L ob iters h key key_len val val_len b bi e ei).iters.length = iters.length + 1 ∧
    (s.Scan L ob iters h key key_len val val_len b bi e ei).iter_handle
      = castInt iters.length := by
  obtain ⟨k, _, hf⟩ := Scan_ret_zero L ob s iters h key key_len val val_len b bi e ei hret
  rw [hf]
  exact ⟨by simp, rfl⟩

/-- `GetNext` never changes the number of registered iterators. -/
theorem GetNext_registry_length (L : Limits) (ob : Bytes) (s : KVSRadixTree)
    (iters : List Iter) (h : Int) (key : Bytes) (key_len : Nat) (val : Bytes)
    (val_len : Nat) :
    (s.GetNext L ob iters h key key_len val val_len).iters.length = iters.length := by
  unfold KVSRadixTree.GetNext
  by_cases h1 : key_len > L.kMaxKeyLen
  · rw [if_pos h1]
  · rw [if_neg h1]
    by_cases h2 : val_len > L.kMaxValLen
    · rw [if_pos h2]
    · rw [if_neg h2]
      by_cases h3 : h < 0 ∨ h ≥ castInt iters.length
      · rw [if_pos h3]
      · rw [if_neg h3]
        cases hit : iters[h.toNat]? with
        | none => rfl
        | some it =>
          simp only []
          split
          · simp
          · split <;> simp

end KVSRadixTree

/-- The handles recorded so far are the conversions to `int` of the registry
sizes 0, 1, ... at which they were handed out. -/
theorem iterStep_handles (L : Limits) (ob : Bytes) (st : List Iter × List Int) (c : IterCall)
    (hst : st.2 = (List.range st.1.length).map castInt) :
    (iterStep L ob st c).2 = (List.range (iterStep L ob st c).1.length).map castInt ∧
    st.1.length ≤ (iterStep L ob st c).1.length := by
  cases c with
  | Scan s h key key_len val val_len b bi e ei =>
    by_cases hret : (s.Scan L ob st.1 h key key_len val val_len b bi e ei).ret = 0
    · have hok := KVSRadixTree.Scan_ok_registry L ob s st.1 h key key_len val val_len b bi e ei
        hret
      simp only [iterStep]
      rw [if_pos hret]
      simp only []
      rw [hok.1, hok.2, List.range_succ, List.map_append, hst]
      exact ⟨rfl, Nat.le_succ _⟩
    · have hfail := KVSRadixTree.Scan_fail_unchanged L ob s st.1 h key key_len val val_len b bi
        e ei hret
      simp only [iterStep]
      rw [if_neg hret]
      simp only []
      rw [hfail.1]
      exact ⟨hst, le_refl _⟩
  | GetNext s h key key_len val val_len =>
    simp only [iterStep]
    rw [KVSRadixTree.GetNext_registry_length]
    exact ⟨hst, le_refl _⟩

theorem iterFold_handles (L : Limits) (ob : Bytes) (calls : List IterCall)
    (st : List Iter × List Int) (hst : st.2 = (List.range st.1.length).map castInt) :
    (calls.foldl (iterStep L ob) st).2
      = (List.range (calls.foldl (iterStep L ob) st).1.length).map castInt ∧
    st.1.length ≤ (calls.foldl (iterStep L ob) st).1.length := by
  induction calls generalizing st with
  | nil => exact ⟨hst, le_refl _⟩
  | cons c calls ih =>
    have h1 := iterStep_handles L ob st c hst
    have h2 := ih (iterStep L ob st c) h1.1
    exact ⟨h2.1, le_trans h1.2 h2.2⟩

theorem iterRun_handles (L : Limits) (ob : Bytes) (calls : List IterCall) :
    (iterRun L ob calls).2 = (List.range (iterRun L ob calls).1.length).map castInt :=
  (iterFold_handles L ob calls ([], []) rfl).1

theorem iterRun_append_length (L : Limits) (ob : Bytes) (calls more : List IterCall) :
    (iterRun L ob calls).1.length ≤ (iterRun L ob (calls ++ more)).1.length := by
  unfold iterRun
  rw [List.foldl_append]
  exact (iterFold_handles L ob more _ (iterRun_handles L ob calls)).2

theorem map_castInt_range (n : Nat) (hn : n ≤ 2 ^ 31) :
    (List.range n).map castInt = (List.range n).map Int.ofNat := by
  apply List.map_congr_left
  intro i hi
  exact KVSRadixTree.castInt_small i (lt_of_lt_of_le (List.mem_range.mp hi) hn)

/-- A call that registers an iterator whatever the registry is, repeated `n`
times, makes the registry `n` entries longer. -/
theorem iterFold_replicate (L : Limits) (ob : Bytes) (c : IterCall)
    (hc : ∀ st : List Iter × List Int, (iterStep L ob st c).1.length = st.1.length + 1)
    (n : Nat) (st : List Iter × List Int) :
    ((List.replicate n c).foldl (iterStep L ob) st).1.length = st.1.length + n := by
  induction n generalizing st with
  | zero => rfl
  | succ n ih =>
    rw [List.replicate_succ, List.foldl_cons, ih, hc]
    omega

/-- C25, as stated, fails once 2^31 iterators are registered.  The store holds
the keys `[1]` and `[2]`, and every call is a full-range `Scan`, which succeeds.
After 2^31 of them the handle 0, returned by the first, no longer passes the
range check of `GetNext`, because `(int)iters_.size()` is negative: `GetNext`
returns -1.  And the next successful `Scan`, number 2^31 counting from 0,
returns the handle -2147483648, not 2^31. -/
theorem iterator_handle_registry_counterexample :
    (iterRun ⟨4, 8⟩ [0] (List.replicate (2 ^ 31) (IterCall.Scan ((KVSRadixTree.Open 200).run ⟨4, 8⟩ [Op.Put [2] [6], Op.Put [1] [5]])
        7 [0, 0, 0, 0] 4 [0, 0, 0, 0] 4 [0] false [0] false))).2[0]? = some 0 ∧
    (((KVSRadixTree.Open 200).run ⟨4, 8⟩ [Op.Put [2] [6], Op.Put [1] [5]]).GetNext ⟨4, 8⟩ [0]
      (iterRun ⟨4, 8⟩ [0] (List.replicate (2 ^ 31) (IterCall.Scan ((KVSRadixTree.Open 200).run ⟨4, 8⟩ [Op.Put [2] [6], Op.Put [1] [5]])
        7 [0, 0, 0, 0] 4 [0, 0, 0, 0] 4 [0] false [0] false))).1
      0 [0, 0, 0, 0] 4 [0, 0, 0, 0] 4).ret = -1 ∧
    (iterRun ⟨4, 8⟩ [0] (List.replicate (2 ^ 31 + 1) (IterCall.Scan ((KVSRadixTree.Open 200).run ⟨4, 8⟩ [Op.Put [2] [6], Op.Put [1] [5]])
        7 [0, 0, 0, 0] 4 [0, 0, 0, 0] 4 [0] false [0] false))).2[2 ^ 31]?
      = some (-2147483648) := by
  have hc : ∀ st : List Iter × List Int,
      (iterStep ⟨4, 8⟩ [0] st (IterCall.Scan ((KVSRadixTree.Open 200).run ⟨4, 8⟩ [Op.Put [2] [6], Op.Put [1] [5]])
        7 [0, 0, 0, 0] 4 [0, 0, 0, 0] 4 [0] false [0] false)).1.length = st.1.length + 1 := by
    intro st
    have hret : (((KVSRadixTree.Open 200).run ⟨4, 8⟩ [Op.Put [2] [6], Op.Put [1] [5]]).Scan ⟨4, 8⟩ [0] st.1 7 [0, 0, 0, 0] 4 [0, 0, 0, 0] 4 [0] false [0]
        false).ret = 0 := by
      rw [KVSRadixTree.Scan_found ⟨4, 8⟩ [0] _ st.1 7 [0, 0, 0, 0] 4 [0, 0, 0, 0] 4 [0] false
        [0] false [1] (by decide) (by decide) (by decide) (by decide) (by decide)]
      split
      · rename_i hsmall
        exact absurd hsmall (by decide)
      · rfl
    simp only [iterStep]
    rw [if_pos hret]
    exact (KVSRadixTree.Scan_ok_registry ⟨4, 8⟩ [0] _ st.1 7 [0, 0, 0, 0] 4 [0, 0, 0, 0] 4 [0]
      false [0] false hret).1
  have hlen : ∀ n : Nat, (iterRun ⟨4, 8⟩ [0] (List.replicate n (IterCall.Scan ((KVSRadixTree.Open 200).run ⟨4, 8⟩ [Op.Put [2] [6], Op.Put [1] [5]])
        7 [0, 0, 0, 0] 4 [0, 0, 0, 0] 4 [0] false [0] false))).1.length = n := by
    intro n
    unfold iterRun
    rw [iterFold_replicate ⟨4, 8⟩ [0] _ hc n ([], [])]
    exact Nat.zero_add n
  refine ⟨?_, ?_, ?_⟩
  · rw [iterRun_handles, hlen, List.getElem?_map, List.getElem?_range (by decide)]
    rfl
  · rw [KVSRadixTree.GetNext_bad ⟨4, 8⟩ [0] _ _ 0 [0, 0, 0, 0] 4 [0, 0, 0, 0] 4
      (Or.inr (by rw [hlen]; decide))]
  · rw [iterRun_handles, hlen, List.getElem?_map,
      List.getElem?_range (Nat.lt_succ_self (2 ^ 31))]
    have h31 : castInt (2 ^ 31) = -2147483648 := by decide
    simp only [Option.map_some', h31]

/-- C25 (iterator handle registry, amended): take any sequence `calls` of `Scan`
and `GetNext` calls on a store whose registry starts empty, followed by any
further calls `more`, with fewer than 2^31 iterators registered at the end.
Then the n-th successful `Scan` of `calls` (counting from 0) returned the handle
n; the handles returned are pairwise distinct; the registry after `more` is at
least as long as after `calls`; every handle returned in `calls` passes the
range check of `GetNext` after `more`, where it indexes an iterator, and a
`GetNext` on it with lengths within the limits advances that iterator and
returns what `get_next` finds there; a `Scan` that does not return 0 leaves the
registry and the caller's `iter_handle` unchanged, and `GetNext` never changes
the registry size. -/
theorem iterator_handle_registry (L : Limits) (ob : Bytes) (calls more : List IterCall)
    (hreg : (iterRun L ob (calls ++ more)).1.length < 2 ^ 31) :
    (iterRun L ob calls).2 = (List.range (iterRun L ob calls).1.length).map Int.ofNat ∧
    (∀ (n : Nat) (h : Int), (iterRun L ob calls).2[n]? = some h → h = (n : Int)) ∧
    (iterRun L ob calls).2.Nodup ∧
    (iterRun L ob calls).1.length ≤ (iterRun L ob (calls ++ more)).1.length ∧
    (∀ h ∈ (iterRun L ob calls).2,
      ¬ (h < 0 ∨ h ≥ castInt (iterRun L ob (calls ++ more)).1.length)) ∧
    (∀ (n : Nat) (h : Int), (iterRun L ob calls).2[n]? = some h →
      ∃ it : Iter, (iterRun L ob (calls ++ more)).1[n]? = some it) ∧
    (∀ (n : Nat) (h : Int) (it : Iter), (iterRun L ob calls).2[n]? = some h →
      (iterRun L ob (calls ++ more)).1[n]? = some it →
      ∀ (s : KVSRadixTree) (key : Bytes) (key_len : Nat) (val : Bytes) (val_len : Nat),
      key_len ≤ L.kMaxKeyLen → val_len ≤ L.kMaxValLen →
      s.GetNext L ob (iterRun L ob (calls ++ more)).1 h key key_len val val_len =
        if (s.tree.get_next ob it key key_len).found = false then
          { iters := (iterRun L ob (calls ++ more)).1.set n
              (s.tree.get_next ob it key key_len).iter,
            ret := -2, key := (s.tree.get_next ob it key key_len).key,
            key_len := (s.tree.get_next ob it key key_len).key_len, val := val,
            val_len := val_len }
        else if val_len <
            (s.heap.GlobalToLocal (s.tree.get_next ob it key key_len).val_gptr.gptr).size then
          { iters := (iterRun L ob (calls ++ more)).1.set n
              (s.tree.get_next ob it key key_len).iter,
            ret := -1, key := (s.tree.get_next ob it key key_len).key,
            key_len := (s.tree.get_next ob it key key_len).key_len, val := val,
            val_len :=
              (s.heap.GlobalToLocal (s.tree.get_next ob it key key_len).val_gptr.gptr).size }
        else
          { iters := (iterRun L ob (calls ++ more)).1.set n
              (s.tree.get_next ob it key key_len).iter,
            ret := 0, key := (s.tree.get_next ob it key key_len).key,
            key_len := (s.tree.get_next ob it key key_len).key_len,
            val := fam_memcpy val
              (s.heap.GlobalToLocal (s.tree.get_next ob it key key_len).val_gptr.gptr).val
              (s.heap.GlobalToLocal (s.tree.get_next ob it key key_len).val_gptr.gptr).size,
            val_len :=
              (s.heap.GlobalToLocal
                (s.tree.get_next ob it key key_len).val_gptr.gptr).size }) ∧
    (∀ (s : KVSRadixTree) (iters : List Iter) (h : Int) (key : Bytes) (key_len : Nat)
      (val : Bytes) (val_len : Nat) (b : Bytes) (bi : Bool) (e : Bytes) (ei : Bool),
      (s.Scan L ob iters h key key_len val val_len b bi e ei).ret ≠ 0 →
      (s.Scan L ob iters h key key_len val val_len b bi e ei).iters = iters ∧
      (s.Scan L ob iters h key key_len val val_len b bi e ei).iter_handle = h) ∧
    (∀ (s : KVSRadixTree) (iters : List Iter) (h : Int) (key : Bytes) (key_len : Nat)
      (val : Bytes) (val_len : Nat),
      (s.GetNext L ob iters h key key_len val val_len).iters.length = iters.length) := by
  have hmono := iterRun_append_length L ob calls more
  have hlen : (iterRun L ob calls).1.length < 2 ^ 31 := lt_of_le_of_lt hmono hreg
  have hh : (iterRun L ob calls).2
      = (List.range (iterRun L ob calls).1.length).map Int.ofNat := by
    rw [iterRun_handles L ob calls]
    exact map_castInt_range _ (le_of_lt hlen)
  have hidx : ∀ (n : Nat) (h : Int), (iterRun L ob calls).2[n]? = some h →
      h = (n : Int) ∧ n < (iterRun L ob calls).1.length := by
    intro n h hn
    rw [hh, List.getElem?_map] at hn
    cases hr : (List.range (iterRun L ob calls).1.length)[n]? with
    | none =>
      rw [hr] at hn
      simp at hn
    | some m =>
      rw [hr] at hn
      simp only [Option.map_some', Option.some.injEq] at hn
      obtain ⟨h2, h3⟩ := List.getElem?_eq_some.mp hr
      rw [List.getElem_range] at h3
      rw [List.length_range] at h2
      rw [← hn, ← h3]
      exact ⟨rfl, h2⟩
  have hpass : ∀ h ∈ (iterRun L ob calls).2,
      ¬ (h < 0 ∨ h ≥ castInt (iterRun L ob (calls ++ more)).1.length) := by
    intro h hmem
    rw [hh] at hmem
    obtain ⟨i, hi, hih⟩ := List.mem_map.mp hmem
    have hi2 : i < (iterRun L ob (calls ++ more)).1.length :=
      lt_of_lt_of_le (List.mem_range.mp hi) hmono
    rw [KVSRadixTree.castInt_small _ hreg, ← hih]
    intro hbad
    rcases hbad with h1 | h1
    · exact absurd (Int.ofNat_nonneg i) (not_le.mpr h1)
    · have h2 : ((iterRun L ob (calls ++ more)).1.length : Int) ≤ (i : Int) := h1
      have h3 : (iterRun L ob (calls ++ more)).1.length ≤ i := by exact_mod_cast h2
      exact absurd hi2 (not_lt.mpr h3)
  refine ⟨hh, fun n h hn => (hidx n h hn).1, ?_, hmono, hpass, ?_, ?_, ?_, ?_⟩
  · rw [hh]
    exact List.Nodup.map (fun a b hab => Int.ofNat.inj hab) (List.nodup_range _)
  · intro n h hn
    have hlt : n < (iterRun L ob (calls ++ more)).1.length :=
      lt_of_lt_of_le (hidx n h hn).2 hmono
    exact ⟨(iterRun L ob (calls ++ more)).1.get ⟨n, hlt⟩, List.getElem?_eq_getElem hlt⟩
  · intro n h it hn hit s key key_len val val_len hk hv
    have hok := hpass h (List.getElem?_mem hn)
    have hn2 : h.toNat = n := by
      rw [(hidx n h hn).1]
      exact Int.toNat_ofNat n
    rw [← hn2] at hit ⊢
    exact KVSRadixTree.GetNext_at L ob s _ h key key_len val val_len it hk hv hok hit
  · intro s iters h key key_len val val_len b bi e ei hret
    exact KVSRadixTree.Scan_fail_unchanged L ob s iters h key key_len val val_len b bi e ei hret
  · intro s iters h key key_len val val_len
    exact KVSRadixTree.GetNext_registry_length L ob s iters h key key_len val val_len

theorem iterator_handle_registry_witness :
    (iterRun ⟨4, 8⟩ [0]
      [IterCall.Scan ((KVSRadixTree.Open 200).run ⟨4, 8⟩ [Op.Put [2] [6], Op.Put [1] [5]])
         7 [0, 0, 0, 0] 4 [0, 0, 0, 0] 4 [0] false [0] false,
       IterCall.Scan (KVSRadixTree.Open 200) 7 [0, 0, 0, 0] 4 [0, 0, 0, 0] 4 [0] false [0] false,
       IterCall.Scan ((KVSRadixTree.Open 200).run ⟨4, 8⟩ [Op.Put [2] [6], Op.Put [1] [5]])
         7 [0, 0, 0, 0] 4 [0, 0, 0, 0] 4 [2] true [0] false]).2 = [0, 1] ∧
    ¬ ((1 : Int) < 0 ∨ (1 : Int) ≥ castInt (iterRun ⟨4, 8⟩ [0]
      ([IterCall.Scan ((KVSRadixTree.Open 200).run ⟨4, 8⟩ [Op.Put [2] [6], Op.Put [1] [5]])
         7 [0, 0, 0, 0] 4 [0, 0, 0, 0] 4 [0] false [0] false,
       IterCall.Scan (KVSRadixTree.Open 200) 7 [0, 0, 0, 0] 4 [0, 0, 0, 0] 4 [0] false [0] false,
       IterCall.Scan ((KVSRadixTree.Open 200).run ⟨4, 8⟩ [Op.Put [2] [6], Op.Put [1] [5]])
         7 [0, 0, 0, 0] 4 [0, 0, 0, 0] 4 [2] true [0] false] ++
       [IterCall.GetNext ((KVSRadixTree.Open 200).run ⟨4, 8⟩ [Op.Put [2] [6], Op.Put [1] [5]])
         1 [0, 0, 0, 0] 4 [0, 0, 0, 0] 4,
        IterCall.Scan ((KVSRadixTree.Open 200).run ⟨4, 8⟩ [Op.Put [2] [6], Op.Put [1] [5]])
         7 [0, 0, 0, 0] 4 [0, 0, 0, 0] 4 [0] false [0] false])).1.length) ∧
    (((KVSRadixTree.Open 200).run ⟨4, 8⟩ [Op.Put [2] [6], Op.Put [1] [5]]).GetNext ⟨4, 8⟩ [0] (iterRun ⟨4, 8⟩ [0]
      ([IterCall.Scan ((KVSRadixTree.Open 200).run ⟨4, 8⟩ [Op.Put [2] [6], Op.Put [1] [5]])
         7 [0, 0, 0, 0] 4 [0, 0, 0, 0] 4 [0] false [0] false,
       IterCall.Scan (KVSRadixTree.Open 200) 7 [0, 0, 0, 0] 4 [0, 0, 0, 0] 4 [0] false [0] false,
       IterCall.Scan ((KVSRadixTree.Open 200).run ⟨4, 8⟩ [Op.Put [2] [6], Op.Put [1] [5]])
         7 [0, 0, 0, 0] 4 [0, 0, 0, 0] 4 [2] true [0] false] ++
       [IterCall.GetNext ((KVSRadixTree.Open 200).run ⟨4, 8⟩ [Op.Put [2] [6], Op.Put [1] [5]])
         1 [0, 0, 0, 0] 4 [0, 0, 0, 0] 4,
        IterCall.Scan ((KVSRadixTree.Open 200).run ⟨4, 8⟩ [Op.Put [2] [6], Op.Put [1] [5]])
         7 [0, 0, 0, 0] 4 [0, 0, 0, 0] 4 [0] false [0] false])).1
      0 [0, 0, 0, 0] 4 [0, 0, 0, 0] 4).ret = 0 := by
  have h := iterator_handle_registry ⟨4, 8⟩ [0]
    [IterCall.Scan ((KVSRadixTree.Open 200).run ⟨4, 8⟩ [Op.Put [2] [6], Op.Put [1] [5]])
       7 [0, 0, 0, 0] 4 [0, 0, 0, 0] 4 [0] false [0] false,
     IterCall.Scan (KVSRadixTree.Open 200) 7 [0, 0, 0, 0] 4 [0, 0, 0, 0] 4 [0] false [0] false,
     IterCall.Scan ((KVSRadixTree.Open 200).run ⟨4, 8⟩ [Op.Put [2] [6], Op.Put [1] [5]])
       7 [0, 0, 0, 0] 4 [0, 0, 0, 0] 4 [2] true [0] false]
    [IterCall.GetNext ((KVSRadixTree.Open 200).run ⟨4, 8⟩ [Op.Put [2] [6], Op.Put [1] [5]])
       1 [0, 0, 0, 0] 4 [0, 0, 0, 0] 4,
     IterCall.Scan ((KVSRadixTree.Open 200).run ⟨4, 8⟩ [Op.Put [2] [6], Op.Put [1] [5]])
       7 [0, 0, 0, 0] 4 [0, 0, 0, 0] 4 [0] false [0] false]
    (by decide)
  refine ⟨by decide, h.2.2.2.2.1 1 (by decide), ?_⟩
  rw [h.2.2.2.2.2.2.1 0 0 (Iter.mk [1] [0] false false) (by decide) (by decide) _
    [0, 0, 0, 0] 4 [0, 0, 0, 0] 4 (by decide) (by decide)]
  decide

end radixtree
